import Mathlib

/-!
CNN-FPGA: quantized inference kernels.

A shallow embedding of the HLS C++ sources (`cnn_types.h`, `cnn_utils.h`,
`cnn_conv.h`, `cnn_pool.h`, `cnn_fc.h`, `embedded_weight_loader.h`,
`testbench_embedded.cpp`) and theorems about them.

Conventions of the embedding:

* `ap_int<8>` (`data_t`, `weight_t`) and `ap_int<32>` (`acc_t`) values are
  integers; every assignment that narrows goes through the two's-complement
  wrap `data_t` / `acc_t` below (the default `AP_WRAP` overflow mode).
* C arrays are total functions on indices; template parameters and loop
  bounds are natural numbers.
* `for (int i = 0; i < n; i++)` is `forLoop n`, the body receiving the index
  and the state and returning the new state.
* `size_t` is 64 bits wide.
-/

namespace CnnFpga

/-! ## cnn_types.h -/

/-- Assignment to `ap_int<8>`: keep the low 8 bits, read as a signed value. -/
def data_t (x : Int) : Int := (x + 128) % 256 - 128

/-- Assignment to `ap_int<32>`: keep the low 32 bits, read as a signed value. -/
def acc_t (x : Int) : Int := (x + 2147483648) % 4294967296 - 2147483648

def MAX_H : Nat := 128
def MAX_W : Nat := 128
def CONV1_IN_CH : Nat := 3
def CONV1_OUT_CH : Nat := 16
def CONV1_K : Nat := 3
def POOL1_SIZE : Nat := 2
def CONV2_IN_CH : Nat := 16
def CONV2_OUT_CH : Nat := 32
def CONV2_K : Nat := 3
def POOL2_SIZE : Nat := 2
def CONV3_IN_CH : Nat := 32
def CONV3_OUT_CH : Nat := 32
def CONV3_K : Nat := 3
def CONV3_STRIDE : Nat := 2
def POOL3_SIZE : Nat := 2
def FC1_IN : Nat := 1024
def FC1_OUT : Nat := 256
def FC2_IN : Nat := 256
def FC2_OUT : Nat := 4

/-- A feature map `data_t t[C][MAX_H][MAX_W]`, addressed (channel, row, column). -/
abbrev Tensor := Nat → Nat → Nat → Int

/-- Convolution weights `weight_t w[OUT_CH][IN_CH][K][K]`. -/
abbrev ConvWeights := Nat → Nat → Nat → Nat → Int

/-- A value representable in `ap_int<8>`. -/
def isData (x : Int) : Prop := -128 ≤ x ∧ x ≤ 127

/-- A value representable in `ap_int<32>`. -/
def isAcc (x : Int) : Prop := -2147483648 ≤ x ∧ x ≤ 2147483647

instance (x : Int) : Decidable (isData x) := by
  unfold isData
  infer_instance

instance (x : Int) : Decidable (isAcc x) := by
  unfold isAcc
  infer_instance

/-- The counted loop `for (int i = 0; i < n; i++) s = body(i, s);`. -/
def forLoop {σ : Type} : Nat → (Nat → σ → σ) → σ → σ
  | 0, _, s => s
  | n + 1, body, s => body n (forLoop n body s)

/-- The store `a[i] = v`. -/
def write1 (a : Nat → Int) (i : Nat) (v : Int) : Nat → Int :=
  fun x => if x = i then v else a x

/-- The store `a[i][j] = v`. -/
def write2 (a : Nat → Nat → Int) (i j : Nat) (v : Int) : Nat → Nat → Int :=
  fun x y => if x = i ∧ y = j then v else a x y

/-- The store `a[i][j][k] = v`. -/
def write3 (a : Tensor) (i j k : Nat) (v : Int) : Tensor :=
  fun x y z => if x = i ∧ y = j ∧ z = k then v else a x y z

/-- The store `a[i][j][k][l] = v`. -/
def write4 (a : ConvWeights) (i j k l : Nat) (v : Int) : ConvWeights :=
  fun x y z u => if x = i ∧ y = j ∧ z = k ∧ u = l then v else a x y z u

/-! ## cnn_utils.h -/

/-- The function `relu` of cnn_utils.h. -/
def relu (x : Int) : Int :=
  if x > 127 then 127
  else if x < 0 then 0
  else data_t x

/-- The function `conv_out_size` of cnn_utils.h; `/` on C++ `int` truncates
toward zero (`Int.tdiv`). The arithmetic is taken in the integers, i.e. within
the range where the C++ `int` expression does not overflow. -/
def conv_out_size (in_size kernel stride padding : Int) : Int :=
  Int.tdiv (in_size + 2 * padding - kernel) stride + 1

/-- The function `pool_out_size` of cnn_utils.h. -/
def pool_out_size (in_size _pool_size stride : Int) : Int :=
  Int.tdiv in_size stride

/-! ## cnn_conv.h -/

/-- The multiply-accumulate of `conv_layer_simple` for one output position:
`sum = 0; for ic, kh, kw: sum += input[ic][oh*STRIDE+kh][ow*STRIDE+kw] * weights[oc][ic][kh][kw]`. -/
def conv_simple_acc (IN_CH K STRIDE : Nat) (input : Tensor) (weights : ConvWeights)
    (oc oh ow : Nat) : Int :=
  forLoop IN_CH (fun ic sum =>
    forLoop K (fun kh sum =>
      forLoop K (fun kw sum =>
        let ih := oh * STRIDE + kh
        let iw := ow * STRIDE + kw
        acc_t (sum + input ic ih iw * weights oc ic kh kw)) sum) sum) 0

/-- The function `conv_layer_simple` of cnn_conv.h: the returned tensor is
`output` after the call. -/
def conv_layer_simple (IN_CH OUT_CH K STRIDE : Nat) (input output : Tensor)
    (weights : ConvWeights) (H W : Nat) : Tensor :=
  let out_h := (conv_out_size H K STRIDE 0).toNat
  let out_w := (conv_out_size W K STRIDE 0).toNat
  forLoop OUT_CH (fun oc output =>
    forLoop out_h (fun oh output =>
      forLoop out_w (fun ow output =>
        let sum := conv_simple_acc IN_CH K STRIDE input weights oc oh ow
        write3 output oc oh ow (relu sum)) output) output) output

/-- The local state of `conv_layer_stream`: the two streams, the line buffers
`linebuf[IN_CH][K-1][MAX_W]` and the sliding window `window[IN_CH][K][K]`. -/
structure StreamState where
  in_stream : List Int
  out_stream : List Int
  linebuf : Tensor
  window : Tensor

/-- The multiply-accumulate of `conv_layer_stream` over the window:
`sum = 0; for ic, i, j: sum += window[ic][i][j] * weights[oc][ic][i][j]`. -/
def conv_stream_acc (IN_CH K : Nat) (window : Tensor) (weights : ConvWeights)
    (oc : Nat) : Int :=
  forLoop IN_CH (fun ic sum =>
    forLoop K (fun i sum =>
      forLoop K (fun j sum =>
        acc_t (sum + window ic i j * weights oc ic i j)) sum) sum) 0

/-- The body of the pipelined pixel loop of `conv_layer_stream` at
`(ch, row, col)`. The index `col - K + 1 + j` is only evaluated under
`col >= K-1`, where it is `col + 1 + j - K` in the naturals; likewise
`row - K + 1`. Reading the empty stream yields 0. -/
def conv_stream_step (IN_CH OUT_CH K STRIDE : Nat) (weights : ConvWeights)
    (ch row col : Nat) (st : StreamState) : StreamState :=
  let pixel := st.in_stream.headD 0
  let in_stream := st.in_stream.tail
  -- Shift line buffers
  let linebuf := forLoop (K - 2) (fun i lb => write3 lb ch i col (lb ch (i + 1) col)) st.linebuf
  let linebuf := if K > 1 then write3 linebuf ch (K - 2) col pixel else linebuf
  -- Check if we can compute convolution
  let valid_row : Bool :=
    if STRIDE = 1 then decide (row ≥ K - 1)
    else decide (row ≥ K - 1) && decide ((row + 1 - K) % STRIDE = 0)
  let valid_col : Bool :=
    if STRIDE = 1 then decide (col ≥ K - 1)
    else decide (col ≥ K - 1) && decide ((col + 1 - K) % STRIDE = 0)
  if valid_row && valid_col then
    -- Fill window
    let window := forLoop (K - 1) (fun i win =>
      forLoop K (fun j win =>
        let offset := col + 1 + j - K
        write3 win ch i j (linebuf ch i offset)) win) st.window
    let window := forLoop K (fun j win =>
      write3 win ch (K - 1) j
        (if j = K - 1 then pixel else linebuf ch (K - 2) (col + 1 + j - K))) window
    -- Process only when all channels are ready
    if ch + 1 = IN_CH then
      let out_stream := forLoop OUT_CH (fun oc out =>
        let sum := conv_stream_acc IN_CH K window weights oc
        out ++ [relu sum]) st.out_stream
      { in_stream := in_stream, out_stream := out_stream, linebuf := linebuf, window := window }
    else
      { in_stream := in_stream, out_stream := st.out_stream, linebuf := linebuf, window := window }
  else
    { in_stream := in_stream, out_stream := st.out_stream, linebuf := linebuf, window := st.window }

/-- The function `conv_layer_stream` of cnn_conv.h. The local arrays are not
initialised by the code, so their initial contents `linebuf0`, `window0` are
parameters. Returns the final state; `out_stream` lists the written values in
the order of the writes. -/
def conv_layer_stream (IN_CH OUT_CH K STRIDE : Nat) (in_stream out_stream : List Int)
    (weights : ConvWeights) (H W : Nat) (linebuf0 window0 : Tensor) : StreamState :=
  forLoop IN_CH (fun ch st =>
    forLoop H (fun row st =>
      forLoop W (fun col st =>
        conv_stream_step IN_CH OUT_CH K STRIDE weights ch row col st) st) st)
    { in_stream := in_stream, out_stream := out_stream, linebuf := linebuf0, window := window0 }

/-- The input tensor serialised in the order the loops of `conv_layer_stream`
read it: channel, then row, then column. -/
def stream_of (IN_CH H W : Nat) (input : Tensor) : List Int :=
  (List.range IN_CH).flatMap (fun ch =>
    (List.range H).flatMap (fun row =>
      (List.range W).map (fun col => input ch row col)))

/-! ## cnn_pool.h -/

/-- The window sum of `avg_pool` for one output position:
`sum = 0; for ph, pw: sum += input[c][oh*POOL_SIZE+ph][ow*POOL_SIZE+pw]`. -/
def avg_pool_acc (POOL_SIZE : Nat) (input : Tensor) (c oh ow : Nat) : Int :=
  forLoop POOL_SIZE (fun ph sum =>
    forLoop POOL_SIZE (fun pw sum =>
      let ih := oh * POOL_SIZE + ph
      let iw := ow * POOL_SIZE + pw
      acc_t (sum + input c ih iw)) sum) 0

/-- The function `avg_pool` of cnn_pool.h; `sum / (POOL_SIZE * POOL_SIZE)`
truncates toward zero and the quotient is cast to `data_t`. -/
def avg_pool (CHANNELS POOL_SIZE : Nat) (input output : Tensor) (H W : Nat) : Tensor :=
  let out_h := H / POOL_SIZE
  let out_w := W / POOL_SIZE
  forLoop CHANNELS (fun c output =>
    forLoop out_h (fun oh output =>
      forLoop out_w (fun ow output =>
        let sum := avg_pool_acc POOL_SIZE input c oh ow
        write3 output c oh ow
          (data_t (Int.tdiv sum ((POOL_SIZE : Int) * (POOL_SIZE : Int))))) output) output) output

/-- The running maximum of `max_pool` for one output position:
`max_val = -128; for ph, pw: val = input[c][ih][iw]; if (val > max_val) max_val = val`. -/
def max_pool_acc (POOL_SIZE : Nat) (input : Tensor) (c oh ow : Nat) : Int :=
  forLoop POOL_SIZE (fun ph max_val =>
    forLoop POOL_SIZE (fun pw max_val =>
      let ih := oh * POOL_SIZE + ph
      let iw := ow * POOL_SIZE + pw
      let val := input c ih iw
      if val > max_val then val else max_val) max_val) (-128)

/-- The function `max_pool` of cnn_pool.h. -/
def max_pool (CHANNELS POOL_SIZE : Nat) (input output : Tensor) (H W : Nat) : Tensor :=
  let out_h := H / POOL_SIZE
  let out_w := W / POOL_SIZE
  forLoop CHANNELS (fun c output =>
    forLoop out_h (fun oh output =>
      forLoop out_w (fun ow output =>
        let max_val := max_pool_acc POOL_SIZE input c oh ow
        write3 output c oh ow max_val) output) output) output

/-! ## cnn_fc.h -/

/-- The accumulation of `fc_layer` for output unit `out`:
`sum = bias[out]; for in: sum += input[in] * weights[out][in]`. -/
def fc_acc (IN_FEATURES : Nat) (input : Nat → Int) (weights : Nat → Nat → Int)
    (bias : Nat → Int) (out : Nat) : Int :=
  forLoop IN_FEATURES (fun i sum => acc_t (sum + input i * weights out i)) (bias out)

/-- The output stage of `fc_layer`: `relu(sum)` when `apply_relu`, otherwise
`if (sum > 127) sum = 127; if (sum < -128) sum = -128; (data_t)sum`. -/
def fc_activation (apply_relu : Bool) (sum : Int) : Int :=
  if apply_relu then relu sum
  else
    let sum := if sum > 127 then 127 else sum
    let sum := if sum < -128 then -128 else sum
    data_t sum

/-- The function `fc_layer` of cnn_fc.h: the returned vector is `output`
after the call. -/
def fc_layer (IN_FEATURES OUT_FEATURES : Nat) (input output : Nat → Int)
    (weights : Nat → Nat → Int) (bias : Nat → Int) (apply_relu : Bool) : Nat → Int :=
  forLoop OUT_FEATURES (fun out output =>
    let sum := fc_acc IN_FEATURES input weights bias out
    write1 output out (fc_activation apply_relu sum)) output

/-! ## embedded_weight_loader.h -/

/-- The modulus of `size_t` arithmetic (64-bit). -/
def SIZE_MAX_PLUS_ONE : Nat := 18446744073709551616

/-- The class `EmbeddedWeightLoader`: the blob pointer (the `int8_t` element at
each offset) and the cursor. -/
structure EmbeddedWeightLoader where
  weights_ptr : Nat → Int
  current_offset : Nat

namespace EmbeddedWeightLoader

/-- The constructor: cursor at 0. -/
def mk0 (weights : Nat → Int) : EmbeddedWeightLoader :=
  { weights_ptr := weights, current_offset := 0 }

/-- The read `weights_ptr[current_offset++]`: the element read and the loader
with the cursor advanced (modulo the `size_t` range). -/
def next (self : EmbeddedWeightLoader) : Int × EmbeddedWeightLoader :=
  (self.weights_ptr self.current_offset,
   { self with current_offset := (self.current_offset + 1) % SIZE_MAX_PLUS_ONE })

/-- The method `load_conv_weights<OUT_CH, IN_CH, K>`: the loader and the
array `weights` after the call. -/
def load_conv_weights (OUT_CH IN_CH K : Nat) (self : EmbeddedWeightLoader)
    (weights : ConvWeights) : EmbeddedWeightLoader × ConvWeights :=
  forLoop OUT_CH (fun oc st =>
    forLoop IN_CH (fun ic st =>
      forLoop K (fun kh st =>
        forLoop K (fun kw st =>
          ((next st.1).2, write4 st.2 oc ic kh kw (next st.1).1)) st) st) st) (self, weights)

/-- The method `get_conv_weights_ptr<OUT_CH, IN_CH, K>`: the offset the
returned pointer refers to, and the loader after the call. The product
`OUT_CH * IN_CH * K * K` is an `int` expression in the code; it is taken in the
naturals, i.e. within the range where the `int` product does not overflow. -/
def get_conv_weights_ptr (OUT_CH IN_CH K : Nat) (self : EmbeddedWeightLoader) :
    Nat × EmbeddedWeightLoader :=
  let num_weights := OUT_CH * IN_CH * K * K
  (self.current_offset,
   { self with current_offset := (self.current_offset + num_weights) % SIZE_MAX_PLUS_ONE })

/-- The method `load_fc_weights<OUT_FEATURES, IN_FEATURES>`. -/
def load_fc_weights (OUT_FEATURES IN_FEATURES : Nat) (self : EmbeddedWeightLoader)
    (weights : Nat → Nat → Int) : EmbeddedWeightLoader × (Nat → Nat → Int) :=
  forLoop OUT_FEATURES (fun out st =>
    forLoop IN_FEATURES (fun i st =>
      ((next st.1).2, write2 st.2 out i (next st.1).1)) st) (self, weights)

/-- The method `load_bias<SIZE>`. -/
def load_bias (SIZE : Nat) (self : EmbeddedWeightLoader) (bias : Nat → Int) :
    EmbeddedWeightLoader × (Nat → Int) :=
  forLoop SIZE (fun i st => ((next st.1).2, write1 st.2 i (next st.1).1)) (self, bias)

/-- The method `skip`. -/
def skip (self : EmbeddedWeightLoader) (bytes : Nat) : EmbeddedWeightLoader :=
  { self with current_offset := (self.current_offset + bytes) % SIZE_MAX_PLUS_ONE }

/-- The method `get_offset`. -/
def get_offset (self : EmbeddedWeightLoader) : Nat := self.current_offset

end EmbeddedWeightLoader

/-- One call on an `EmbeddedWeightLoader`, with its template or run-time
arguments. -/
inductive LoaderOp where
  | load_conv_weights (OUT_CH IN_CH K : Nat)
  | load_fc_weights (OUT_FEATURES IN_FEATURES : Nat)
  | load_bias (SIZE : Nat)
  | skip (bytes : Nat)

/-- The number of elements the call consumes. -/
def LoaderOp.count : LoaderOp → Nat
  | .load_conv_weights OUT_CH IN_CH K => OUT_CH * IN_CH * K * K
  | .load_fc_weights OUT_FEATURES IN_FEATURES => OUT_FEATURES * IN_FEATURES
  | .load_bias SIZE => SIZE
  | .skip bytes => bytes

/-- The loader after one call; the destination array starts out as all zero
(its prior contents do not influence the loader). -/
def LoaderOp.run (self : EmbeddedWeightLoader) : LoaderOp → EmbeddedWeightLoader
  | .load_conv_weights OUT_CH IN_CH K =>
      (self.load_conv_weights OUT_CH IN_CH K (fun _ _ _ _ => 0)).1
  | .load_fc_weights OUT_FEATURES IN_FEATURES =>
      (self.load_fc_weights OUT_FEATURES IN_FEATURES (fun _ _ => 0)).1
  | .load_bias SIZE => (self.load_bias SIZE (fun _ => 0)).1
  | .skip bytes => self.skip bytes

/-- The loader after a sequence of calls, issued left to right. -/
def runOps (self : EmbeddedWeightLoader) (ops : List LoaderOp) : EmbeddedWeightLoader :=
  ops.foldl LoaderOp.run self

/-! ## testbench_embedded.cpp -/

/-- The weight arrays and the loader after Step 1 of `main`. -/
structure LoadedWeights where
  conv1_weights : ConvWeights
  conv2_weights : ConvWeights
  conv3_weights : ConvWeights
  fc1_weights : Nat → Nat → Int
  fc2_weights : Nat → Nat → Int
  loader : EmbeddedWeightLoader

/-- Step 1 of `main` in testbench_embedded.cpp: the five loads from
`SHIP_DETECTOR_WEIGHTS` into the zero-initialised static arrays. -/
def testbench_load (SHIP_DETECTOR_WEIGHTS : Nat → Int) : LoadedWeights :=
  let loader := EmbeddedWeightLoader.mk0 SHIP_DETECTOR_WEIGHTS
  let r1 := loader.load_conv_weights CONV1_OUT_CH CONV1_IN_CH CONV1_K (fun _ _ _ _ => 0)
  let r2 := r1.1.load_conv_weights CONV2_OUT_CH CONV2_IN_CH CONV2_K (fun _ _ _ _ => 0)
  let r3 := r2.1.load_conv_weights CONV3_OUT_CH CONV3_IN_CH CONV3_K (fun _ _ _ _ => 0)
  let r4 := r3.1.load_fc_weights FC1_OUT FC1_IN (fun _ _ => 0)
  let r5 := r4.1.load_fc_weights FC2_OUT FC2_IN (fun _ _ => 0)
  { conv1_weights := r1.2, conv2_weights := r2.2, conv3_weights := r3.2,
    fc1_weights := r4.2, fc2_weights := r5.2, loader := r5.1 }

/-! ## cnn_fc.h: flatten and dropout -/

/-- The function `flatten` of cnn_fc.h. The loop state is the counter `idx` and
the array `output`; `output[idx++] = input[c][h][w]` stores at the old counter
and increments it (the `int` counter stays far below 2^31 for every tensor
that fits the buffers). The returned vector is `output` after the call. -/
def flatten (CHANNELS H W : Nat) (input : Tensor) (output : Nat → Int) : Nat → Int :=
  (forLoop CHANNELS (fun c st =>
    forLoop H (fun h st =>
      forLoop W (fun w (st : Nat × (Nat → Int)) =>
        (st.1 + 1, write1 st.2 st.1 (input c h w))) st) st) (0, output)).2

/-- The function `dropout` of cnn_fc.h. -/
def dropout (FEATURES : Nat) (input output : Nat → Int) : Nat → Int :=
  forLoop FEATURES (fun i output => write1 output i (input i)) output

/-! ## embedded_weight_loader.h: input image -/

/-- The function `load_embedded_input` of embedded_weight_loader.h:
`input_data` holds the `uint8_t` bytes in HWC order; the result is the return
value `true` and the array `input` after the call. -/
def load_embedded_input (input_data : Nat → Int) (input : Tensor) (H W : Nat) :
    Bool × Tensor :=
  (true,
    forLoop H (fun h input =>
      forLoop W (fun w input =>
        forLoop 3 (fun c input =>
          let idx := (h * W * 3) + (w * 3) + c
          write3 input c h w (data_t (input_data idx - 128))) input) input) input)

/-! ## cnn_network.cpp -/

/-- The static intermediate buffers of `cnn_network`. -/
structure NetBuffers where
  conv1_out : Tensor
  pool1_out : Tensor
  conv2_out : Tensor
  pool2_out : Tensor
  conv3_out : Tensor
  pool3_out : Tensor
  flattened : Nat → Int
  fc1_out : Nat → Int
  dropout_out : Nat → Int

/-- The dimensions `cnn_network` calculates at each stage. -/
structure NetDims where
  h1 : Int
  w1 : Int
  h2 : Int
  w2 : Int
  h3 : Int
  w3 : Int
  h4 : Int
  w4 : Int
  h5 : Int
  w5 : Int
  h6 : Int
  w6 : Int

/-- The block "Calculate dimensions at each stage" of `cnn_network`. -/
def cnn_network_dims (H W : Int) : NetDims :=
  let h1 := conv_out_size H CONV1_K 1 0
  let w1 := conv_out_size W CONV1_K 1 0
  let h2 := pool_out_size h1 POOL1_SIZE POOL1_SIZE
  let w2 := pool_out_size w1 POOL1_SIZE POOL1_SIZE
  let h3 := conv_out_size h2 CONV2_K 1 0
  let w3 := conv_out_size w2 CONV2_K 1 0
  let h4 := pool_out_size h3 POOL2_SIZE POOL2_SIZE
  let w4 := pool_out_size w3 POOL2_SIZE POOL2_SIZE
  let h5 := conv_out_size h4 CONV3_K CONV3_STRIDE 0
  let w5 := conv_out_size w4 CONV3_K CONV3_STRIDE 0
  let h6 := pool_out_size h5 POOL3_SIZE POOL3_SIZE
  let w6 := pool_out_size w5 POOL3_SIZE POOL3_SIZE
  { h1 := h1, w1 := w1, h2 := h2, w2 := w2, h3 := h3, w3 := w3,
    h4 := h4, w4 := w4, h5 := h5, w5 := w5, h6 := h6, w6 := w6 }

/-- The function `cnn_network` of cnn_network.cpp: from the contents `bufs` of
the static buffers before the call and the arguments, the contents of the
static buffers and of `output` after the call. An intermediate dimension is an
`int`; the layers receive it through `Int.toNat`, a non-positive dimension
running no loop iteration in the layer just as dimension 0 does
(theorem `nonpositive_dim_runs_nothing`). -/
def cnn_network (bufs : NetBuffers) (input : Tensor) (output : Nat → Int)
    (conv1_weights conv2_weights conv3_weights : ConvWeights)
    (fc1_weights fc2_weights : Nat → Nat → Int)
    (fc1_bias fc2_bias : Nat → Int) (H W : Nat) : NetBuffers × (Nat → Int) :=
  let d := cnn_network_dims H W
  -- Layer 1: CONV1 + ReLU (3->16, 3x3)
  let conv1_out := conv_layer_simple CONV1_IN_CH CONV1_OUT_CH CONV1_K 1
    input bufs.conv1_out conv1_weights H W
  -- Layer 2: AvgPool (2x2)
  let pool1_out := avg_pool CONV1_OUT_CH POOL1_SIZE conv1_out bufs.pool1_out
    d.h1.toNat d.w1.toNat
  -- Layer 3: CONV2 + ReLU (16->32, 3x3)
  let conv2_out := conv_layer_simple CONV2_IN_CH CONV2_OUT_CH CONV2_K 1
    pool1_out bufs.conv2_out conv2_weights d.h2.toNat d.w2.toNat
  -- Layer 4: AvgPool (2x2)
  let pool2_out := avg_pool CONV2_OUT_CH POOL2_SIZE conv2_out bufs.pool2_out
    d.h3.toNat d.w3.toNat
  -- Layer 5: CONV3 + ReLU (32->32, 3x3, stride 2)
  let conv3_out := conv_layer_simple CONV3_IN_CH CONV3_OUT_CH CONV3_K CONV3_STRIDE
    pool2_out bufs.conv3_out conv3_weights d.h4.toNat d.w4.toNat
  -- Layer 6: MaxPool (2x2)
  let pool3_out := max_pool CONV3_OUT_CH POOL3_SIZE conv3_out bufs.pool3_out
    d.h5.toNat d.w5.toNat
  -- Layer 7: Flatten
  let flattened := flatten CONV3_OUT_CH 8 4 pool3_out bufs.flattened
  -- Layer 8: FC1 (1024->256) + ReLU
  let fc1_out := fc_layer FC1_IN FC1_OUT flattened bufs.fc1_out fc1_weights fc1_bias true
  -- Layer 9: Dropout (no-op in inference)
  let dropout_out := dropout FC1_OUT fc1_out bufs.dropout_out
  -- Layer 10: FC2 (256->4) - Output layer
  let output := fc_layer FC2_IN FC2_OUT dropout_out output fc2_weights fc2_bias false
  ({ conv1_out := conv1_out, pool1_out := pool1_out, conv2_out := conv2_out,
     pool2_out := pool2_out, conv3_out := conv3_out, pool3_out := pool3_out,
     flattened := flattened, fc1_out := fc1_out, dropout_out := dropout_out },
   output)

/-! ## testbench_embedded.cpp: class selection -/

/-- The "Find max" loop of `main`: `max_val = output[0]; max_idx = 0;
for (i = 1; i < FC2_OUT; i++) if (output[i] > max_val) ...`; the loop index
`i` is `j + 1`. The result is `(max_val, max_idx)`. -/
def testbench_argmax (output : Nat → Int) : Int × Nat :=
  forLoop (FC2_OUT - 1) (fun j (st : Int × Nat) =>
    let i := j + 1
    if output i > st.1 then (output i, i) else st) (output 0, 0)

/-! ## Partial sums of the accumulators -/

/-- The accumulator `sum` of `conv_layer_simple` for the output position
`(oc, oh, ow)` when the three inner loops stand at `(ic, kh, kw)`: the loops
have run the input channels below `ic` completely, the kernel rows below `kh`
of channel `ic` completely, and the kernel columns below `kw` of row `kh`. -/
def conv_simple_acc_at (K STRIDE : Nat) (input : Tensor) (weights : ConvWeights)
    (oc oh ow ic kh kw : Nat) : Int :=
  forLoop kw (fun kw sum =>
      let ih := oh * STRIDE + kh
      let iw := ow * STRIDE + kw
      acc_t (sum + input ic ih iw * weights oc ic kh kw))
    (forLoop kh (fun kh sum =>
        forLoop K (fun kw sum =>
          let ih := oh * STRIDE + kh
          let iw := ow * STRIDE + kw
          acc_t (sum + input ic ih iw * weights oc ic kh kw)) sum)
      (forLoop ic (fun ic sum =>
          forLoop K (fun kh sum =>
            forLoop K (fun kw sum =>
              let ih := oh * STRIDE + kh
              let iw := ow * STRIDE + kw
              acc_t (sum + input ic ih iw * weights oc ic kh kw)) sum) sum) 0))

/-! ## Reference formulas of the specification -/

/-- The output-size formula of the specification,
`floor((in + 2·pad − kernel)/stride) + 1`, with the quotient taken in the
rationals and the mathematical floor. -/
def conv_out_size_formula (in_size kernel stride padding : Int) : Int :=
  ⌊((in_size + 2 * padding - kernel : Int) : ℚ) / ((stride : Int) : ℚ)⌋ + 1

/-- Division rounded toward zero, in the rationals: the floor of the quotient
when the dividend is non-negative and its ceiling otherwise. -/
def div_toward_zero (a d : Int) : Int :=
  if 0 ≤ a then ⌊((a : Int) : ℚ) / ((d : Int) : ℚ)⌋ else ⌈((a : Int) : ℚ) / ((d : Int) : ℚ)⌉

/-- The pooling output-size formula of the specification,
`floor(in / pool_size)`, with the quotient taken in the rationals. -/
def pool_out_size_formula (in_size pool_size : Int) : Int :=
  ⌊((in_size : Int) : ℚ) / ((pool_size : Int) : ℚ)⌋

/-! ## Proof vocabulary -/

/-- The transformer `F` of a running maximum takes the maximum with the values
satisfying `V`: it never decreases the maximum, its result is at least every
such value, and its result is the old maximum or one of the values. -/
def MaxOver (F : Int → Int) (V : Int → Prop) : Prop :=
  ∀ m, m ≤ F m ∧ (∀ v, V v → v ≤ F m) ∧ (F m = m ∨ V (F m))

/-- The state transformer `F` on a loader and a destination array (read through
`get`) consumes `n` blob elements: it leaves the blob pointer alone, advances
the cursor by `n` modulo the `size_t` range, stores the blob element at
`cursor + g x` in every cell `x` that satisfies `P`, and leaves every other
cell alone. -/
def ConsumesBlob {α ι : Type} (get : α → ι → Int)
    (F : EmbeddedWeightLoader × α → EmbeddedWeightLoader × α)
    (n : Nat) (P : ι → Prop) (g : ι → Nat) : Prop :=
  ∀ l w, l.current_offset < SIZE_MAX_PLUS_ONE →
    (F (l, w)).1.weights_ptr = l.weights_ptr ∧
    (F (l, w)).1.current_offset = (l.current_offset + n) % SIZE_MAX_PLUS_ONE ∧
    ∀ x, (P x → get (F (l, w)).2 x
            = l.weights_ptr ((l.current_offset + g x) % SIZE_MAX_PLUS_ONE)) ∧
         (¬ P x → get (F (l, w)).2 x = get w x)

/-- The validity test of `conv_layer_stream` for one coordinate `x` (a row or
a column): `(STRIDE == 1) ? (x >= K-1) : ((x >= K-1) && ((x - K + 1) % STRIDE == 0))`,
the expression bound to `valid_row` and `valid_col` in `conv_stream_step`. -/
def stream_valid (K STRIDE x : Nat) : Bool :=
  if STRIDE = 1 then decide (x ≥ K - 1)
  else decide (x ≥ K - 1) && decide ((x + 1 - K) % STRIDE = 0)

/-- The transformer `F` on a counter and an output vector stores `n` values at
consecutive positions: it advances the counter by `n`, puts `val j` at
position `counter + j` for every `j < n`, and leaves the other positions
alone. -/
def StoresRun (F : Nat × (Nat → Int) → Nat × (Nat → Int)) (n : Nat) (val : Nat → Int) : Prop :=
  ∀ p out, (F (p, out)).1 = p + n ∧
    ∀ k, (F (p, out)).2 k = if p ≤ k ∧ k < p + n then val (k - p) else out k

/-! ## Theorems -/

/-! ## Fixed-width arithmetic -/

theorem data_t_of_isData {x : Int} (h : isData x) : data_t x = x := by
  unfold isData at h
  unfold data_t
  omega

theorem acc_t_of_isAcc {x : Int} (h : isAcc x) : acc_t x = x := by
  unfold isAcc at h
  unfold acc_t
  omega

theorem isAcc_acc_t (x : Int) : isAcc (acc_t x) := by
  unfold isAcc acc_t
  omega

theorem acc_t_add_acc_t (a b : Int) : acc_t (acc_t a + b) = acc_t (a + b) := by
  unfold acc_t
  omega

theorem relu_eq_clamp (x : Int) : relu x = min (max x 0) 127 := by
  unfold relu data_t
  split_ifs <;> omega

theorem isData_relu (x : Int) : isData (relu x) := by
  rw [relu_eq_clamp]
  unfold isData
  omega

/-- C2: `relu` is ReLU-saturate. For every accumulator value `x`, `relu x` is 0
when `x < 0`, 127 when `x > 127` and `x` otherwise, that is
`min (max x 0) 127`, and it lies in [0, 127]; the inputs -1000, -1, 0, 50, 127,
128, 5000 give 0, 0, 0, 50, 127, 127, 127. -/
theorem relu_saturate (x : Int) :
    relu x = (if x < 0 then 0 else if x > 127 then 127 else x) ∧
    relu x = min (max x 0) 127 ∧
    (0 ≤ relu x ∧ relu x ≤ 127) ∧
    relu (-1000) = 0 ∧ relu (-1) = 0 ∧ relu 0 = 0 ∧ relu 50 = 50 ∧
    relu 127 = 127 ∧ relu 128 = 127 ∧ relu 5000 = 127 := by
  refine ⟨?_, relu_eq_clamp x, ?_, by decide, by decide, by decide, by decide,
    by decide, by decide, by decide⟩
  · rw [relu_eq_clamp]
    split_ifs <;> omega
  · rw [relu_eq_clamp]
    omega

/-! ## Output-size formula -/

theorem floor_rat_div (a s : Int) (hs : 1 ≤ s) :
    ⌊((a : Int) : ℚ) / ((s : Int) : ℚ)⌋ = a / s := by
  obtain ⟨d, rfl⟩ : ∃ d : Nat, s = (d : Int) := ⟨s.toNat, by omega⟩
  exact_mod_cast Rat.floor_intCast_div_natCast a d

theorem tdiv_eq_ediv_iff (a s : Int) (hs : 1 ≤ s) :
    Int.tdiv a s = a / s ↔ (0 ≤ a ∨ s ∣ a) := by
  rcases lt_or_le a 0 with ha | ha
  · obtain ⟨n, rfl⟩ : ∃ n : Nat, a = -((n : Int) + 1) := ⟨(-a - 1).toNat, by omega⟩
    obtain ⟨m, rfl⟩ : ∃ m : Nat, s = (m : Int) + 1 := ⟨(s - 1).toNat, by omega⟩
    have h1 : Int.tdiv (-((n : Int) + 1)) ((m : Int) + 1) = -(((n + 1) / (m + 1) : Nat) : Int) := by
      rw [Int.neg_tdiv, Int.tdiv_eq_ediv (by omega) (by omega)]
      norm_cast
    have h2 : (-((n : Int) + 1)) / ((m : Int) + 1) = -((n / (m + 1) : Nat) : Int) - 1 := by
      have : (-((n : Int) + 1)) = Int.negSucc n := by
        rw [Int.negSucc_eq]
      rw [this]
      have hm : ((m : Int) + 1) = ((m + 1 : Nat) : Int) := by norm_cast
      rw [hm, Int.negSucc_ediv _ (by omega)]
      show -(Int.ediv (n : Int) ((m + 1 : Nat) : Int) + 1) = _
      have he : Int.ediv (n : Int) ((m + 1 : Nat) : Int) = ((n / (m + 1) : Nat) : Int) := by
        show (n : Int) / ((m + 1 : Nat) : Int) = _
        norm_cast
      rw [he]
      omega
    rw [h1, h2, Nat.succ_div]
    have hd : ((m : Int) + 1 ∣ -((n : Int) + 1)) ↔ (m + 1 ∣ n + 1) := by
      rw [Int.dvd_neg]
      norm_cast
    rw [hd]
    by_cases hdv : m + 1 ∣ n + 1
    · simp only [hdv, if_true, or_true, iff_true]
      push_cast
      omega
    · simp only [hdv, if_false, or_false]
      constructor
      · intro h
        push_cast at h
        omega
      · intro h
        omega
  · simp [Int.tdiv_eq_ediv ha (by omega : (0 : Int) ≤ s), ha]

/-- C10 (refuted as stated): for a 2-wide input, a 3-wide kernel, stride 2 and
no padding `conv_out_size` returns 1, while `floor((2 - 3) / 2) + 1` is 0. -/
theorem conv_out_size_formula_counterexample :
    (0 : Int) ≤ 2 ∧ (1 : Int) ≤ 3 ∧ (1 : Int) ≤ 2 ∧ (0 : Int) ≤ 0 ∧
    conv_out_size 2 3 2 0 = 1 ∧ conv_out_size_formula 2 3 2 0 = 0 ∧
    conv_out_size 2 3 2 0 ≠ conv_out_size_formula 2 3 2 0 := by
  have h1 : conv_out_size 2 3 2 0 = 1 := by decide
  have h2 : conv_out_size_formula 2 3 2 0 = 0 := by
    unfold conv_out_size_formula
    rw [floor_rat_div _ _ (by decide)]
    decide
  refine ⟨by decide, by decide, by decide, by decide, h1, h2, ?_⟩
  rw [h1, h2]
  decide

/-- C10 (amended): for every stride >= 1, `conv_out_size` equals
`floor((in_size + 2*padding - kernel) / stride) + 1` exactly when the kernel
fits the padded input (`kernel <= in_size + 2*padding`) or the stride divides
`in_size + 2*padding - kernel`; in particular it equals the formula whenever
the kernel fits. -/
theorem conv_out_size_eq_formula_iff (in_size kernel stride padding : Int)
    (hs : 1 ≤ stride) :
    (conv_out_size in_size kernel stride padding
        = conv_out_size_formula in_size kernel stride padding ↔
      (kernel ≤ in_size + 2 * padding ∨ stride ∣ in_size + 2 * padding - kernel)) ∧
    (kernel ≤ in_size + 2 * padding →
      conv_out_size in_size kernel stride padding
        = conv_out_size_formula in_size kernel stride padding) := by
  have key : conv_out_size in_size kernel stride padding
        = conv_out_size_formula in_size kernel stride padding ↔
      (kernel ≤ in_size + 2 * padding ∨ stride ∣ in_size + 2 * padding - kernel) := by
    unfold conv_out_size conv_out_size_formula
    rw [floor_rat_div _ _ hs, add_left_inj, tdiv_eq_ediv_iff _ _ hs]
    constructor
    · rintro (h | h)
      · exact Or.inl (by omega)
      · exact Or.inr h
    · rintro (h | h)
      · exact Or.inl (by omega)
      · exact Or.inr h
  exact ⟨key, fun h => key.mpr (Or.inl h)⟩

theorem conv_out_size_eq_formula_iff_witness :
    (1 : Int) ≤ 2 ∧
    ((conv_out_size 30 3 2 0 = conv_out_size_formula 30 3 2 0 ↔
      ((3 : Int) ≤ 30 + 2 * 0 ∨ (2 : Int) ∣ 30 + 2 * 0 - 3)) ∧
    ((3 : Int) ≤ 30 + 2 * 0 →
      conv_out_size 30 3 2 0 = conv_out_size_formula 30 3 2 0)) :=
  ⟨by decide, conv_out_size_eq_formula_iff 30 3 2 0 (by decide)⟩

/-! ## Counted loops -/

theorem forLoop_zero {σ : Type} (body : Nat → σ → σ) (s : σ) : forLoop 0 body s = s := rfl

theorem forLoop_succ {σ : Type} (n : Nat) (body : Nat → σ → σ) (s : σ) :
    forLoop (n + 1) body s = body n (forLoop n body s) := rfl

/-- A loop of stores `a[i] = f i` fills exactly the cells below the bound. -/
theorem forLoop_write1 (f : Nat → Int) (n : Nat) (a : Nat → Int) (x : Nat) :
    forLoop n (fun i a => write1 a i (f i)) a x = if x < n then f x else a x := by
  induction n with
  | zero => simp [forLoop]
  | succ n ih =>
    rw [forLoop_succ]
    simp only [write1, ih]
    by_cases h1 : x = n
    · subst h1
      simp
    · by_cases h2 : x < n
      · simp [h1, h2, Nat.lt_succ_of_lt h2]
      · have h3 : ¬ x < n + 1 := by omega
        simp [h1, h2, h3]

/-- Three nested loops of stores `out[a][b][c] = f a b c` fill exactly the
cells inside the three bounds and leave the others as they were. -/
theorem forLoop3_write3 (f : Nat → Nat → Nat → Int) (A B C : Nat) (out : Tensor)
    (x y z : Nat) :
    forLoop A (fun a o => forLoop B (fun b o =>
        forLoop C (fun c o => write3 o a b c (f a b c)) o) o) out x y z
      = if x < A ∧ y < B ∧ z < C then f x y z else out x y z := by
  have l1 : ∀ (a b n : Nat) (o : Tensor) (x y z : Nat),
      forLoop n (fun c o => write3 o a b c (f a b c)) o x y z
        = if x = a ∧ y = b ∧ z < n then f x y z else o x y z := by
    intro a b n
    induction n with
    | zero => intro o x y z; simp [forLoop]
    | succ n ih =>
      intro o x y z
      rw [forLoop_succ]
      simp only [write3, ih]
      by_cases h : x = a ∧ y = b ∧ z = n
      · obtain ⟨rfl, rfl, rfl⟩ := h
        simp
      · rw [if_neg h]
        by_cases h2 : x = a ∧ y = b ∧ z < n
        · rw [if_pos h2, if_pos ⟨h2.1, h2.2.1, Nat.lt_succ_of_lt h2.2.2⟩]
        · rw [if_neg h2, if_neg]
          rintro ⟨h3, h4, h5⟩
          rcases Nat.lt_succ_iff_lt_or_eq.mp h5 with h6 | h6
          · exact h2 ⟨h3, h4, h6⟩
          · exact h ⟨h3, h4, h6⟩
  have l2 : ∀ (a n : Nat) (o : Tensor) (x y z : Nat),
      forLoop n (fun b o => forLoop C (fun c o => write3 o a b c (f a b c)) o) o x y z
        = if x = a ∧ y < n ∧ z < C then f x y z else o x y z := by
    intro a n
    induction n with
    | zero => intro o x y z; simp [forLoop]
    | succ n ih =>
      intro o x y z
      rw [forLoop_succ, l1, ih]
      by_cases h : x = a ∧ y = n ∧ z < C
      · rw [if_pos h, if_pos ⟨h.1, by omega, h.2.2⟩]
      · rw [if_neg h]
        by_cases h2 : x = a ∧ y < n ∧ z < C
        · rw [if_pos h2, if_pos ⟨h2.1, Nat.lt_succ_of_lt h2.2.1, h2.2.2⟩]
        · rw [if_neg h2, if_neg]
          rintro ⟨h3, h4, h5⟩
          rcases Nat.lt_succ_iff_lt_or_eq.mp h4 with h6 | h6
          · exact h2 ⟨h3, h6, h5⟩
          · exact h ⟨h3, h6, h5⟩
  induction A generalizing out x y z with
  | zero => simp [forLoop]
  | succ n ih =>
    rw [forLoop_succ, l2, ih]
    by_cases h : x = n ∧ y < B ∧ z < C
    · rw [if_pos h, if_pos ⟨by omega, h.2.1, h.2.2⟩]
    · rw [if_neg h]
      by_cases h2 : x < n ∧ y < B ∧ z < C
      · rw [if_pos h2, if_pos ⟨Nat.lt_succ_of_lt h2.1, h2.2.1, h2.2.2⟩]
      · rw [if_neg h2, if_neg]
        rintro ⟨h3, h4, h5⟩
        rcases Nat.lt_succ_iff_lt_or_eq.mp h3 with h6 | h6
        · exact h2 ⟨h6, h4, h5⟩
        · exact h ⟨h6, h4, h5⟩

/-- An accumulation loop whose body adds `g i` modulo 2^32 adds the sum of
the `g i` modulo 2^32. -/
theorem forLoop_acc (g : Nat → Int) (body : Nat → Int → Int)
    (hb : ∀ i s, acc_t (body i s) = acc_t (s + g i)) (n : Nat) (s : Int) :
    acc_t (forLoop n body s) = acc_t (s + ∑ i ∈ Finset.range n, g i) := by
  induction n with
  | zero => simp [forLoop]
  | succ n ih =>
    rw [forLoop_succ, hb, ← acc_t_add_acc_t, ih, acc_t_add_acc_t, Finset.sum_range_succ,
      add_assoc]

/-- An accumulation loop whose body keeps the accumulator in the 32-bit range
ends in the 32-bit range. -/
theorem forLoop_isAcc (body : Nat → Int → Int)
    (hb : ∀ i s, isAcc s → isAcc (body i s)) (n : Nat) (s : Int) (hs : isAcc s) :
    isAcc (forLoop n body s) := by
  induction n with
  | zero => exact hs
  | succ n ih => exact hb n _ ih

/-! ## Direct convolution -/

theorem acc_t_acc_t (x : Int) : acc_t (acc_t x) = acc_t x :=
  acc_t_of_isAcc (isAcc_acc_t x)

theorem abs_sum_range_le (f : Nat → Int) (c : Int) (h : ∀ i, |f i| ≤ c) (n : Nat) :
    |∑ i ∈ Finset.range n, f i| ≤ n * c := by
  induction n with
  | zero => simp
  | succ n ih =>
    rw [Finset.sum_range_succ]
    have h1 := abs_add (∑ i ∈ Finset.range n, f i) (f n)
    have h2 := h n
    push_cast
    linarith

theorem abs_mul_data_le {a b : Int} (ha : isData a) (hb : isData b) : |a * b| ≤ 16384 := by
  unfold isData at ha hb
  rw [abs_mul]
  have h1 : |a| ≤ 128 := abs_le.mpr ⟨by omega, by omega⟩
  have h2 : |b| ≤ 128 := abs_le.mpr ⟨by omega, by omega⟩
  calc |a| * |b| ≤ 128 * 128 := mul_le_mul h1 h2 (abs_nonneg b) (by decide)
    _ = 16384 := by decide

/-- The exact multiply-accumulate of the direct convolution at one output
position, in unbounded integers. -/
theorem conv_simple_acc_eq (IN_CH K STRIDE : Nat) (input : Tensor) (weights : ConvWeights)
    (oc oh ow : Nat) :
    conv_simple_acc IN_CH K STRIDE input weights oc oh ow
      = acc_t (∑ ic ∈ Finset.range IN_CH, ∑ kh ∈ Finset.range K, ∑ kw ∈ Finset.range K,
          input ic (oh * STRIDE + kh) (ow * STRIDE + kw) * weights oc ic kh kw) := by
  have hrange : isAcc (conv_simple_acc IN_CH K STRIDE input weights oc oh ow) := by
    unfold conv_simple_acc
    refine forLoop_isAcc _ (fun ic s hs => ?_) _ _ (by unfold isAcc; omega)
    refine forLoop_isAcc _ (fun kh s hs => ?_) _ _ hs
    exact forLoop_isAcc _ (fun kw s _ => isAcc_acc_t _) _ _ hs
  have hsum : acc_t (conv_simple_acc IN_CH K STRIDE input weights oc oh ow)
      = acc_t (0 + ∑ ic ∈ Finset.range IN_CH, ∑ kh ∈ Finset.range K, ∑ kw ∈ Finset.range K,
          input ic (oh * STRIDE + kh) (ow * STRIDE + kw) * weights oc ic kh kw) := by
    unfold conv_simple_acc
    refine forLoop_acc _ _ (fun ic s => ?_) _ _
    refine forLoop_acc _ _ (fun kh s => ?_) _ _
    exact forLoop_acc _ _ (fun kw s => acc_t_acc_t _) _ _
  rw [← acc_t_of_isAcc hrange, hsum, zero_add]

/-- With 8-bit inputs and weights the exact sum of `n = IN_CH*K*K` products is
at most `n * 2^14` in absolute value. -/
theorem conv_sum_abs_le (IN_CH K : Nat) (f : Nat → Nat → Nat → Int)
    (hf : ∀ ic kh kw, |f ic kh kw| ≤ 16384) :
    |∑ ic ∈ Finset.range IN_CH, ∑ kh ∈ Finset.range K, ∑ kw ∈ Finset.range K, f ic kh kw|
      ≤ ((IN_CH * K * K : Nat) : Int) * 16384 := by
  have h1 : ∀ ic kh, |∑ kw ∈ Finset.range K, f ic kh kw| ≤ (K : Int) * 16384 :=
    fun ic kh => abs_sum_range_le _ _ (fun kw => hf ic kh kw) K
  have h2 : ∀ ic, |∑ kh ∈ Finset.range K, ∑ kw ∈ Finset.range K, f ic kh kw|
      ≤ (K : Int) * ((K : Int) * 16384) :=
    fun ic => abs_sum_range_le _ _ (fun kh => h1 ic kh) K
  have h3 := abs_sum_range_le _ _ h2 IN_CH
  push_cast
  linarith

/-- The direct convolution writes `relu` of the wrapped accumulator into every
cell inside the output extent and leaves the other cells of `output` alone. -/
theorem conv_layer_simple_cell (IN_CH OUT_CH K STRIDE : Nat) (input output : Tensor)
    (weights : ConvWeights) (H W : Nat) (x y z : Nat) :
    conv_layer_simple IN_CH OUT_CH K STRIDE input output weights H W x y z
      = if x < OUT_CH ∧ y < (conv_out_size H K STRIDE 0).toNat
            ∧ z < (conv_out_size W K STRIDE 0).toNat
        then relu (conv_simple_acc IN_CH K STRIDE input weights x y z)
        else output x y z := by
  unfold conv_layer_simple
  exact forLoop3_write3 (fun a b c => relu (conv_simple_acc IN_CH K STRIDE input weights a b c))
    _ _ _ _ _ _ _

/-- C5 (refuted as stated): with 8 input channels, a 128x128 kernel on a
128x128 image and all inputs and weights equal to -128, the exact sum is
8*128*128*16384 = 2^31, whose `relu` is 127, but the 32-bit accumulator wraps
to -2^31 and `conv_layer_simple` writes 0. -/
theorem conv_layer_simple_overflow_counterexample :
    (0 < 1 ∧ 0 < (conv_out_size 128 128 1 0).toNat) ∧
    isData (-128) ∧
    conv_layer_simple 8 1 128 1 (fun _ _ _ => -128) (fun _ _ _ => 0)
        (fun _ _ _ _ => -128) 128 128 0 0 0 = 0 ∧
    relu (∑ ic ∈ Finset.range 8, ∑ kh ∈ Finset.range 128, ∑ kw ∈ Finset.range 128,
        (fun _ _ _ => (-128 : Int)) ic (0 * 1 + kh) (0 * 1 + kw)
          * (fun _ _ _ _ => (-128 : Int)) 0 ic kh kw) = 127 ∧
    conv_layer_simple 8 1 128 1 (fun _ _ _ => -128) (fun _ _ _ => 0)
        (fun _ _ _ _ => -128) 128 128 0 0 0
      ≠ relu (∑ ic ∈ Finset.range 8, ∑ kh ∈ Finset.range 128, ∑ kw ∈ Finset.range 128,
        (fun _ _ _ => (-128 : Int)) ic (0 * 1 + kh) (0 * 1 + kw)
          * (fun _ _ _ _ => (-128 : Int)) 0 ic kh kw) := by
  have hext : 0 < (conv_out_size 128 128 1 0).toNat := by decide
  have hsum : (∑ ic ∈ Finset.range 8, ∑ kh ∈ Finset.range 128, ∑ kw ∈ Finset.range 128,
        (fun _ _ _ => (-128 : Int)) ic (0 * 1 + kh) (0 * 1 + kw)
          * (fun _ _ _ _ => (-128 : Int)) 0 ic kh kw) = 2147483648 := by
    simp only [Finset.sum_const, Finset.card_range, smul_eq_mul, nsmul_eq_mul]
    norm_num
  have hcode : conv_layer_simple 8 1 128 1 (fun _ _ _ => -128) (fun _ _ _ => 0)
        (fun _ _ _ _ => -128) 128 128 0 0 0 = 0 := by
    rw [conv_layer_simple_cell, if_pos ⟨by decide, hext, hext⟩, conv_simple_acc_eq, hsum]
    decide
  refine ⟨⟨by decide, hext⟩, by unfold isData; decide, hcode, ?_, ?_⟩
  · rw [hsum]
    decide
  · rw [hcode, hsum]
    decide

/-- C5 (amended): `conv_layer_simple` computes the direct convolution whenever
the exact sum fits the 32-bit accumulator. For every `oc < OUT_CH`,
`oh < out_h`, `ow < out_w`: if the sum over `ic < IN_CH`, `kh < K`, `kw < K` of
`input[ic][oh*STRIDE+kh][ow*STRIDE+kw] * weights[oc][ic][kh][kw]` lies in the
32-bit range then `output[oc][oh][ow]` is `relu` of it, and that range
condition holds for 8-bit inputs and weights whenever `IN_CH*K*K <= 131071`.
For a 1-channel 4x4 input of all ones and one 3x3 kernel of all ones with
stride 1 the output extent is 2x2, exactly those cells are written and each
is 9. -/
theorem conv_layer_simple_direct (IN_CH OUT_CH K STRIDE : Nat) (input output : Tensor)
    (weights : ConvWeights) (H W : Nat) (oc oh ow : Nat)
    (hoc : oc < OUT_CH) (hoh : oh < (conv_out_size H K STRIDE 0).toNat)
    (how : ow < (conv_out_size W K STRIDE 0).toNat) :
    (isAcc (∑ ic ∈ Finset.range IN_CH, ∑ kh ∈ Finset.range K, ∑ kw ∈ Finset.range K,
        input ic (oh * STRIDE + kh) (ow * STRIDE + kw) * weights oc ic kh kw) →
      conv_layer_simple IN_CH OUT_CH K STRIDE input output weights H W oc oh ow
        = relu (∑ ic ∈ Finset.range IN_CH, ∑ kh ∈ Finset.range K, ∑ kw ∈ Finset.range K,
            input ic (oh * STRIDE + kh) (ow * STRIDE + kw) * weights oc ic kh kw)) ∧
    ((∀ c h w, isData (input c h w)) → (∀ o i kh kw, isData (weights o i kh kw)) →
      IN_CH * K * K ≤ 131071 →
      isAcc (∑ ic ∈ Finset.range IN_CH, ∑ kh ∈ Finset.range K, ∑ kw ∈ Finset.range K,
        input ic (oh * STRIDE + kh) (ow * STRIDE + kw) * weights oc ic kh kw)) ∧
    (conv_out_size 4 3 1 0 = 2 ∧
      ∀ (out0 : Tensor) (x y z : Nat),
        conv_layer_simple 1 1 3 1 (fun _ _ _ => 1) out0 (fun _ _ _ _ => 1) 4 4 x y z
          = if x < 1 ∧ y < 2 ∧ z < 2 then 9 else out0 x y z) := by
  refine ⟨fun hacc => ?_, fun hin hw hn => ?_, by decide, fun out0 x y z => ?_⟩
  · rw [conv_layer_simple_cell, if_pos ⟨hoc, hoh, how⟩, conv_simple_acc_eq,
      acc_t_of_isAcc hacc]
  · have hb := conv_sum_abs_le IN_CH K
      (fun ic kh kw => input ic (oh * STRIDE + kh) (ow * STRIDE + kw) * weights oc ic kh kw)
      (fun ic kh kw => abs_mul_data_le (hin _ _ _) (hw _ _ _ _))
    have hn' : ((IN_CH * K * K : Nat) : Int) ≤ 131071 := by exact_mod_cast hn
    have hb' := abs_le.mp (le_trans hb (by linarith :
      ((IN_CH * K * K : Nat) : Int) * 16384 ≤ 2147467264))
    unfold isAcc
    constructor <;> linarith [hb'.1, hb'.2]
  · rw [conv_layer_simple_cell, conv_simple_acc_eq]
    have h2 : (conv_out_size ((4 : Nat) : Int) ((3 : Nat) : Int) ((1 : Nat) : Int) 0).toNat = 2 := by
      decide
    have h9 : (∑ ic ∈ Finset.range 1, ∑ kh ∈ Finset.range 3, ∑ kw ∈ Finset.range 3,
        (1 : Int) * 1) = 9 := by
      simp only [Finset.sum_const, Finset.card_range, smul_eq_mul, nsmul_eq_mul]
      norm_num
    have h9' : relu (acc_t 9) = 9 := by decide
    rw [h2, h9, h9']

theorem conv_layer_simple_direct_witness :
    (isAcc (∑ ic ∈ Finset.range 1, ∑ kh ∈ Finset.range 3, ∑ kw ∈ Finset.range 3,
        (fun _ _ _ => (1 : Int)) ic (1 * 1 + kh) (1 * 1 + kw)
          * (fun _ _ _ _ => (1 : Int)) 0 ic kh kw) →
      conv_layer_simple 1 1 3 1 (fun _ _ _ => 1) (fun _ _ _ => 0) (fun _ _ _ _ => 1) 4 4 0 1 1
        = relu (∑ ic ∈ Finset.range 1, ∑ kh ∈ Finset.range 3, ∑ kw ∈ Finset.range 3,
            (fun _ _ _ => (1 : Int)) ic (1 * 1 + kh) (1 * 1 + kw)
              * (fun _ _ _ _ => (1 : Int)) 0 ic kh kw)) ∧
    ((∀ c h w : Nat, isData ((fun _ _ _ => (1 : Int)) c h w)) →
      (∀ o i kh kw : Nat, isData ((fun _ _ _ _ => (1 : Int)) o i kh kw)) →
      1 * 3 * 3 ≤ 131071 →
      isAcc (∑ ic ∈ Finset.range 1, ∑ kh ∈ Finset.range 3, ∑ kw ∈ Finset.range 3,
        (fun _ _ _ => (1 : Int)) ic (1 * 1 + kh) (1 * 1 + kw)
          * (fun _ _ _ _ => (1 : Int)) 0 ic kh kw)) ∧
    (conv_out_size 4 3 1 0 = 2 ∧
      ∀ (out0 : Tensor) (x y z : Nat),
        conv_layer_simple 1 1 3 1 (fun _ _ _ => 1) out0 (fun _ _ _ _ => 1) 4 4 x y z
          = if x < 1 ∧ y < 2 ∧ z < 2 then 9 else out0 x y z) :=
  conv_layer_simple_direct 1 1 3 1 (fun _ _ _ => 1) (fun _ _ _ => 0) (fun _ _ _ _ => 1) 4 4
    0 1 1 (by decide) (by decide) (by decide)

/-! ## Fully-connected layer -/

theorem fc_acc_eq (IN_FEATURES : Nat) (input : Nat → Int) (weights : Nat → Nat → Int)
    (bias : Nat → Int) (out : Nat) (hb : isAcc (bias out)) :
    fc_acc IN_FEATURES input weights bias out
      = acc_t (bias out + ∑ i ∈ Finset.range IN_FEATURES, input i * weights out i) := by
  have hrange : isAcc (fc_acc IN_FEATURES input weights bias out) :=
    forLoop_isAcc _ (fun i s _ => isAcc_acc_t _) _ _ hb
  have hsum : acc_t (fc_acc IN_FEATURES input weights bias out)
      = acc_t (bias out + ∑ i ∈ Finset.range IN_FEATURES, input i * weights out i) :=
    forLoop_acc _ _ (fun i s => acc_t_acc_t _) _ _
  rw [← acc_t_of_isAcc hrange, hsum]

theorem fc_layer_cell (IN_FEATURES OUT_FEATURES : Nat) (input output : Nat → Int)
    (weights : Nat → Nat → Int) (bias : Nat → Int) (apply_relu : Bool) (x : Nat) :
    fc_layer IN_FEATURES OUT_FEATURES input output weights bias apply_relu x
      = if x < OUT_FEATURES
        then fc_activation apply_relu (fc_acc IN_FEATURES input weights bias x)
        else output x := by
  unfold fc_layer
  exact forLoop_write1
    (fun o => fc_activation apply_relu (fc_acc IN_FEATURES input weights bias o)) _ _ _

theorem fc_activation_eq (apply_relu : Bool) (s : Int) :
    fc_activation apply_relu s = if apply_relu then relu s else max (min s 127) (-128) := by
  cases apply_relu
  · simp only [fc_activation, data_t, Bool.false_eq_true, if_false]
    split_ifs <;> omega
  · simp [fc_activation]

/-- C3: the clamp-only output stage of `fc_layer` (`apply_relu = false`) maps
an accumulator value `s` to -128 when `s < -128`, to 127 when `s > 127` and to
`s` itself otherwise (the final cast to 8 bits changes nothing), and with
`apply_relu = false` every output unit of `fc_layer` is that stage applied to
its accumulator; the values -1000, -1, 0, 50, 127, 128, 5000 give -128, -1, 0,
50, 127, 127, 127. -/
theorem fc_clamp_only (s : Int) :
    fc_activation false s = (if s < -128 then -128 else if s > 127 then 127 else s) ∧
    fc_activation false s = max (min s 127) (-128) ∧
    data_t (max (min s 127) (-128)) = max (min s 127) (-128) ∧
    (∀ (IN_FEATURES OUT_FEATURES : Nat) (input output : Nat → Int)
        (weights : Nat → Nat → Int) (bias : Nat → Int) (m : Nat),
      fc_layer IN_FEATURES OUT_FEATURES input output weights bias false m
        = if m < OUT_FEATURES
          then fc_activation false (fc_acc IN_FEATURES input weights bias m)
          else output m) ∧
    fc_activation false (-1000) = -128 ∧ fc_activation false (-1) = -1 ∧
    fc_activation false 0 = 0 ∧ fc_activation false 50 = 50 ∧
    fc_activation false 127 = 127 ∧ fc_activation false 128 = 127 ∧
    fc_activation false 5000 = 127 := by
  refine ⟨?_, ?_, ?_, ?_, by decide, by decide, by decide, by decide, by decide,
    by decide, by decide⟩
  · simp only [fc_activation, data_t, Bool.false_eq_true, if_false]
    split_ifs <;> omega
  · simp only [fc_activation, data_t, Bool.false_eq_true, if_false]
    split_ifs <;> omega
  · unfold data_t
    omega
  · intro IN_FEATURES OUT_FEATURES input output weights bias m
    exact fc_layer_cell IN_FEATURES OUT_FEATURES input output weights bias false m

/-- C4: `fc_layer` computes a dense layer. For every output index
`m < OUT_FEATURES`, when the bias and the exact value
`bias[m] + sum over n < IN_FEATURES of input[n] * weights[m][n]` lie in the
32-bit accumulator range, `output[m]` is `relu` of that value when
`apply_relu` is true and its clamp to [-128, 127] when `apply_relu` is false. -/
theorem fc_layer_dense (IN_FEATURES OUT_FEATURES : Nat) (input output : Nat → Int)
    (weights : Nat → Nat → Int) (bias : Nat → Int) (apply_relu : Bool) (m : Nat)
    (hm : m < OUT_FEATURES) (hbias : isAcc (bias m))
    (hacc : isAcc (bias m + ∑ n ∈ Finset.range IN_FEATURES, input n * weights m n)) :
    fc_layer IN_FEATURES OUT_FEATURES input output weights bias apply_relu m
      = if apply_relu
        then relu (bias m + ∑ n ∈ Finset.range IN_FEATURES, input n * weights m n)
        else max (min (bias m + ∑ n ∈ Finset.range IN_FEATURES, input n * weights m n) 127)
          (-128) := by
  rw [fc_layer_cell, if_pos hm, fc_acc_eq _ _ _ _ _ hbias, acc_t_of_isAcc hacc,
    fc_activation_eq]

theorem fc_layer_dense_witness :
    (0 < 2 ∧ isAcc ((fun _ => (5 : Int)) 0) ∧
      isAcc ((fun _ => (5 : Int)) 0 + ∑ n ∈ Finset.range 3,
        (fun _ => (100 : Int)) n * (fun _ _ => (-100 : Int)) 0 n)) ∧
    fc_layer 3 2 (fun _ => 100) (fun _ => 0) (fun _ _ => -100) (fun _ => 5) false 0
      = if false = true
        then relu ((fun _ => (5 : Int)) 0 + ∑ n ∈ Finset.range 3,
          (fun _ => (100 : Int)) n * (fun _ _ => (-100 : Int)) 0 n)
        else max (min ((fun _ => (5 : Int)) 0 + ∑ n ∈ Finset.range 3,
          (fun _ => (100 : Int)) n * (fun _ _ => (-100 : Int)) 0 n) 127) (-128) :=
  have h1 : isAcc ((fun _ => (5 : Int)) 0) := by decide
  have h2 : isAcc ((fun _ => (5 : Int)) 0 + ∑ n ∈ Finset.range 3,
      (fun _ => (100 : Int)) n * (fun _ _ => (-100 : Int)) 0 n) := by
    simp only [Finset.sum_const, Finset.card_range, smul_eq_mul, nsmul_eq_mul]
    decide
  ⟨⟨by decide, h1, h2⟩,
    fc_layer_dense 3 2 (fun _ => 100) (fun _ => 0) (fun _ _ => -100) (fun _ => 5) false 0
      (by decide) h1 h2⟩

/-! ## Pooling -/

theorem sum_range_bounds (f : Nat → Int) (lo hi : Int) (h : ∀ i, lo ≤ f i ∧ f i ≤ hi)
    (n : Nat) :
    (n : Int) * lo ≤ ∑ i ∈ Finset.range n, f i ∧ ∑ i ∈ Finset.range n, f i ≤ (n : Int) * hi := by
  induction n with
  | zero => simp
  | succ n ih =>
    rw [Finset.sum_range_succ]
    have h1 := h n
    push_cast
    constructor <;> linarith [ih.1, ih.2, h1.1, h1.2]

/-- The exact window sum of `avg_pool`, in unbounded integers. -/
theorem avg_pool_acc_eq (POOL_SIZE : Nat) (input : Tensor) (c oh ow : Nat) :
    avg_pool_acc POOL_SIZE input c oh ow
      = acc_t (∑ ph ∈ Finset.range POOL_SIZE, ∑ pw ∈ Finset.range POOL_SIZE,
          input c (oh * POOL_SIZE + ph) (ow * POOL_SIZE + pw)) := by
  have hrange : isAcc (avg_pool_acc POOL_SIZE input c oh ow) := by
    unfold avg_pool_acc
    refine forLoop_isAcc _ (fun ph s hs => ?_) _ _ (by decide)
    exact forLoop_isAcc _ (fun pw s _ => isAcc_acc_t _) _ _ hs
  have hsum : acc_t (avg_pool_acc POOL_SIZE input c oh ow)
      = acc_t (0 + ∑ ph ∈ Finset.range POOL_SIZE, ∑ pw ∈ Finset.range POOL_SIZE,
          input c (oh * POOL_SIZE + ph) (ow * POOL_SIZE + pw)) := by
    unfold avg_pool_acc
    refine forLoop_acc _ _ (fun ph s => ?_) _ _
    exact forLoop_acc _ _ (fun pw s => acc_t_acc_t _) _ _
  rw [← acc_t_of_isAcc hrange, hsum, zero_add]

theorem avg_pool_cell (CHANNELS POOL_SIZE : Nat) (input output : Tensor) (H W : Nat)
    (x y z : Nat) :
    avg_pool CHANNELS POOL_SIZE input output H W x y z
      = if x < CHANNELS ∧ y < H / POOL_SIZE ∧ z < W / POOL_SIZE
        then data_t (Int.tdiv (avg_pool_acc POOL_SIZE input x y z)
          ((POOL_SIZE : Int) * (POOL_SIZE : Int)))
        else output x y z := by
  unfold avg_pool
  exact forLoop3_write3 (fun a b c => data_t (Int.tdiv (avg_pool_acc POOL_SIZE input a b c)
    ((POOL_SIZE : Int) * (POOL_SIZE : Int)))) _ _ _ _ _ _ _

/-- A window of `n` samples in [-128, 127] has a sum between `-128 n` and
`127 n`. -/
theorem window_sum_bounds (POOL_SIZE : Nat) (f : Nat → Nat → Int)
    (hf : ∀ ph pw, isData (f ph pw)) :
    -128 * ((POOL_SIZE : Int) * (POOL_SIZE : Int))
        ≤ ∑ ph ∈ Finset.range POOL_SIZE, ∑ pw ∈ Finset.range POOL_SIZE, f ph pw ∧
      ∑ ph ∈ Finset.range POOL_SIZE, ∑ pw ∈ Finset.range POOL_SIZE, f ph pw
        ≤ 127 * ((POOL_SIZE : Int) * (POOL_SIZE : Int)) := by
  have h1 : ∀ ph, (POOL_SIZE : Int) * (-128) ≤ ∑ pw ∈ Finset.range POOL_SIZE, f ph pw ∧
      ∑ pw ∈ Finset.range POOL_SIZE, f ph pw ≤ (POOL_SIZE : Int) * 127 :=
    fun ph => sum_range_bounds _ _ _ (fun pw => hf ph pw) POOL_SIZE
  have h2 := sum_range_bounds _ _ _ h1 POOL_SIZE
  constructor <;> linarith [h2.1, h2.2]

/-- Truncating division by a positive divisor keeps a quotient bound:
`lo * d <= s <= hi * d` with `lo <= 0 <= hi` gives `lo <= s / d <= hi`. -/
theorem tdiv_bounds (s d lo hi : Int) (hd : 0 < d) (hlo : lo ≤ 0) (hhi : 0 ≤ hi)
    (h1 : lo * d ≤ s) (h2 : s ≤ hi * d) : lo ≤ Int.tdiv s d ∧ Int.tdiv s d ≤ hi := by
  rcases lt_or_le s 0 with hs | hs
  · have e : Int.tdiv s d = -((-s) / d) := by
      have := Int.neg_tdiv (-s) d
      rw [neg_neg] at this
      rw [this, Int.tdiv_eq_ediv (by omega) (by omega)]
    have h3 : (-s) / d ≤ -lo := by
      have : -s ≤ (-lo) * d := by linarith
      exact Int.ediv_le_of_le_mul hd this
    have h4 : 0 ≤ (-s) / d := Int.ediv_nonneg (by omega) (by omega)
    rw [e]
    constructor <;> omega
  · have e : Int.tdiv s d = s / d := Int.tdiv_eq_ediv hs (by omega)
    have h3 : s / d ≤ hi := Int.ediv_le_of_le_mul hd h2
    have h4 : 0 ≤ s / d := Int.ediv_nonneg hs (by omega)
    rw [e]
    constructor <;> omega

/-- C++ integer division by a positive divisor is the rational quotient
rounded toward zero. -/
theorem tdiv_eq_div_toward_zero (a d : Int) (hd : 1 ≤ d) :
    Int.tdiv a d = div_toward_zero a d := by
  unfold div_toward_zero
  split_ifs with ha
  · rw [floor_rat_div _ _ hd, Int.tdiv_eq_ediv ha (by omega)]
  · have e : Int.tdiv a d = -((-a) / d) := by
      have := Int.neg_tdiv (-a) d
      rw [neg_neg] at this
      rw [this, Int.tdiv_eq_ediv (by omega) (by omega)]
    have hc : ⌈((a : Int) : ℚ) / ((d : Int) : ℚ)⌉ = -⌊(((-a : Int)) : ℚ) / ((d : Int) : ℚ)⌋ := by
      rw [← Int.ceil_neg]
      congr 1
      push_cast
      ring
    rw [e, hc, floor_rat_div _ _ hd]

/-- C6: `avg_pool` divides with truncation toward zero. For an image whose rows
fit the buffer (`H <= MAX_H`), `POOL_SIZE >= 1` and 8-bit inputs,
for every channel `c < CHANNELS` and output position `oh < H / POOL_SIZE`,
`ow < W / POOL_SIZE`, `output[c][oh][ow]` is the sum of the
`POOL_SIZE x POOL_SIZE` window starting at `(oh*POOL_SIZE, ow*POOL_SIZE)`
divided by `POOL_SIZE^2` and rounded toward zero, also for negative sums: the
window {-1,-1,-1,0} gives 0, {4,4,4,4} gives 4 and {1,2,3,4} gives 2. -/
theorem avg_pool_truncates (CHANNELS POOL_SIZE : Nat) (input output : Tensor) (H W : Nat)
    (c oh ow : Nat) (hP : 1 ≤ POOL_SIZE) (hH : H ≤ MAX_H)
    (hdata : ∀ ch h w, isData (input ch h w))
    (hc : c < CHANNELS) (hoh : oh < H / POOL_SIZE) (how : ow < W / POOL_SIZE) :
    avg_pool CHANNELS POOL_SIZE input output H W c oh ow
      = div_toward_zero
          (∑ ph ∈ Finset.range POOL_SIZE, ∑ pw ∈ Finset.range POOL_SIZE,
            input c (oh * POOL_SIZE + ph) (ow * POOL_SIZE + pw))
          ((POOL_SIZE : Int) * (POOL_SIZE : Int)) ∧
    avg_pool CHANNELS POOL_SIZE input output H W c oh ow
      = Int.tdiv
          (∑ ph ∈ Finset.range POOL_SIZE, ∑ pw ∈ Finset.range POOL_SIZE,
            input c (oh * POOL_SIZE + ph) (ow * POOL_SIZE + pw))
          ((POOL_SIZE : Int) * (POOL_SIZE : Int)) ∧
    (∀ out0 : Tensor,
      avg_pool 1 2 (fun _ r k => if r = 1 ∧ k = 1 then 0 else -1) out0 2 2 0 0 0 = 0) ∧
    (∀ out0 : Tensor, avg_pool 1 2 (fun _ _ _ => 4) out0 2 2 0 0 0 = 4) ∧
    (∀ out0 : Tensor,
      avg_pool 1 2 (fun _ r k => ((2 * r + k + 1 : Nat) : Int)) out0 2 2 0 0 0 = 2) := by
  have hPH : POOL_SIZE ≤ 128 := by
    have h1 : 0 < H / POOL_SIZE := by omega
    have h2 : POOL_SIZE ≤ H := by
      by_contra hlt
      rw [Nat.div_eq_of_lt (by omega)] at h1
      exact absurd h1 (by decide)
    unfold MAX_H at hH
    omega
  have hPP : (1 : Int) ≤ (POOL_SIZE : Int) * (POOL_SIZE : Int) := by
    have : 1 * 1 ≤ POOL_SIZE * POOL_SIZE := Nat.mul_le_mul hP hP
    exact_mod_cast this
  have hPP2 : (POOL_SIZE : Int) * (POOL_SIZE : Int) ≤ 16384 := by
    have : POOL_SIZE * POOL_SIZE ≤ 128 * 128 := Nat.mul_le_mul hPH hPH
    exact_mod_cast this
  have hb := window_sum_bounds POOL_SIZE
    (fun ph pw => input c (oh * POOL_SIZE + ph) (ow * POOL_SIZE + pw))
    (fun ph pw => hdata _ _ _)
  have hacc : isAcc (∑ ph ∈ Finset.range POOL_SIZE, ∑ pw ∈ Finset.range POOL_SIZE,
      input c (oh * POOL_SIZE + ph) (ow * POOL_SIZE + pw)) := by
    unfold isAcc
    constructor <;> linarith [hb.1, hb.2]
  have hq := tdiv_bounds _ ((POOL_SIZE : Int) * (POOL_SIZE : Int)) (-128) 127 (by omega)
    (by decide) (by decide) hb.1 hb.2
  have key : avg_pool CHANNELS POOL_SIZE input output H W c oh ow
      = Int.tdiv
          (∑ ph ∈ Finset.range POOL_SIZE, ∑ pw ∈ Finset.range POOL_SIZE,
            input c (oh * POOL_SIZE + ph) (ow * POOL_SIZE + pw))
          ((POOL_SIZE : Int) * (POOL_SIZE : Int)) := by
    rw [avg_pool_cell, if_pos ⟨hc, hoh, how⟩, avg_pool_acc_eq, acc_t_of_isAcc hacc,
      data_t_of_isData hq]
  refine ⟨?_, key, fun _ => rfl, fun _ => rfl, fun _ => rfl⟩
  rw [key, tdiv_eq_div_toward_zero _ _ hPP]

theorem avg_pool_truncates_witness :
    (1 ≤ 2 ∧ 3 ≤ MAX_H ∧
      (∀ ch h w : Nat, isData ((fun _ _ _ => (-3 : Int)) ch h w)) ∧
      0 < 1 ∧ 0 < 3 / 2 ∧ 0 < 2 / 2) ∧
    avg_pool 1 2 (fun _ _ _ => -3) (fun _ _ _ => 0) 3 2 0 0 0
      = div_toward_zero
          (∑ ph ∈ Finset.range 2, ∑ pw ∈ Finset.range 2,
            (fun _ _ _ => (-3 : Int)) 0 (0 * 2 + ph) (0 * 2 + pw))
          (((2 : Nat) : Int) * ((2 : Nat) : Int)) ∧
    avg_pool 1 2 (fun _ _ _ => -3) (fun _ _ _ => 0) 3 2 0 0 0 = -3 :=
  have hd : ∀ ch h w : Nat, isData ((fun _ _ _ => (-3 : Int)) ch h w) :=
    fun _ _ _ => (by decide : isData (-3))
  ⟨⟨by decide, by decide, hd, by decide, by decide, by decide⟩,
    (avg_pool_truncates 1 2 (fun _ _ _ => -3) (fun _ _ _ => 0) 3 2 0 0 0
      (by decide) (by decide) hd (by decide) (by decide) (by decide)).1,
    rfl⟩

theorem maxOver_forLoop (body : Nat → Int → Int) (V : Nat → Int → Prop)
    (hb : ∀ i, MaxOver (body i) (V i)) (n : Nat) :
    MaxOver (CnnFpga.forLoop n body) (fun v => ∃ i, i < n ∧ V i v) := by
  induction n with
  | zero =>
    intro m
    refine ⟨le_refl m, ?_, Or.inl rfl⟩
    rintro v ⟨i, hi, _⟩
    exact absurd hi (Nat.not_lt_zero i)
  | succ n ih =>
    intro m
    obtain ⟨h1, h2, h3⟩ := ih m
    obtain ⟨g1, g2, g3⟩ := hb n (CnnFpga.forLoop n body m)
    rw [forLoop_succ]
    refine ⟨le_trans h1 g1, ?_, ?_⟩
    · rintro v ⟨i, hi, hv⟩
      rcases Nat.lt_succ_iff_lt_or_eq.mp hi with hlt | heq
      · exact le_trans (h2 v ⟨i, hlt, hv⟩) g1
      · subst heq
        exact g2 v hv
    · rcases g3 with g3 | g3
      · rw [g3]
        rcases h3 with h3 | ⟨i, hi, hv⟩
        · exact Or.inl h3
        · exact Or.inr ⟨i, Nat.lt_succ_of_lt hi, hv⟩
      · exact Or.inr ⟨n, Nat.lt_succ_self n, g3⟩

/-- The running maximum of `max_pool` ranges over the window elements. -/
theorem max_pool_acc_maxOver (POOL_SIZE : Nat) (input : Tensor) (c oh ow : Nat) :
    MaxOver
      (fun m => forLoop POOL_SIZE (fun ph max_val =>
        forLoop POOL_SIZE (fun pw max_val =>
          let ih := oh * POOL_SIZE + ph
          let iw := ow * POOL_SIZE + pw
          let val := input c ih iw
          if val > max_val then val else max_val) max_val) m)
      (fun v => ∃ ph, ph < POOL_SIZE ∧ ∃ pw, pw < POOL_SIZE ∧
        v = input c (oh * POOL_SIZE + ph) (ow * POOL_SIZE + pw)) := by
  refine maxOver_forLoop _
    (fun ph v => ∃ pw, pw < POOL_SIZE ∧
      v = input c (oh * POOL_SIZE + ph) (ow * POOL_SIZE + pw)) (fun ph => ?_) POOL_SIZE
  refine maxOver_forLoop _
    (fun pw v => v = input c (oh * POOL_SIZE + ph) (ow * POOL_SIZE + pw)) (fun pw => ?_)
    POOL_SIZE
  intro m
  dsimp only
  split_ifs with h
  · exact ⟨by omega, fun v hv => by omega, Or.inr rfl⟩
  · exact ⟨le_refl m, fun v hv => by omega, Or.inl rfl⟩

theorem max_pool_cell (CHANNELS POOL_SIZE : Nat) (input output : Tensor) (H W : Nat)
    (x y z : Nat) :
    max_pool CHANNELS POOL_SIZE input output H W x y z
      = if x < CHANNELS ∧ y < H / POOL_SIZE ∧ z < W / POOL_SIZE
        then max_pool_acc POOL_SIZE input x y z
        else output x y z := by
  unfold max_pool
  exact forLoop3_write3 (fun a b c => max_pool_acc POOL_SIZE input a b c) _ _ _ _ _ _ _

/-- C7: `max_pool` returns the window maximum. For `POOL_SIZE >= 1` and 8-bit
inputs, for every channel `c < CHANNELS` and output position
`oh < H / POOL_SIZE`, `ow < W / POOL_SIZE`, `output[c][oh][ow]` is greater than
or equal to every element of the `POOL_SIZE x POOL_SIZE` window starting at
`(oh*POOL_SIZE, ow*POOL_SIZE)` and equals one of them (a window of all -128
gives -128); the window {-10, 3, -5, 7} gives 7. -/
theorem max_pool_is_window_max (CHANNELS POOL_SIZE : Nat) (input output : Tensor)
    (H W : Nat) (c oh ow : Nat) (hP : 1 ≤ POOL_SIZE)
    (hdata : ∀ ch h w, isData (input ch h w))
    (hc : c < CHANNELS) (hoh : oh < H / POOL_SIZE) (how : ow < W / POOL_SIZE) :
    (∀ ph pw, ph < POOL_SIZE → pw < POOL_SIZE →
      input c (oh * POOL_SIZE + ph) (ow * POOL_SIZE + pw)
        ≤ max_pool CHANNELS POOL_SIZE input output H W c oh ow) ∧
    (∃ ph pw, ph < POOL_SIZE ∧ pw < POOL_SIZE ∧
      max_pool CHANNELS POOL_SIZE input output H W c oh ow
        = input c (oh * POOL_SIZE + ph) (ow * POOL_SIZE + pw)) ∧
    (∀ out0 : Tensor, max_pool 1 2 (fun _ _ _ => -128) out0 2 2 0 0 0 = -128) ∧
    (∀ out0 : Tensor,
      max_pool 1 2 (fun _ r k => if r = 0 then (if k = 0 then -10 else 3)
        else (if k = 0 then -5 else 7)) out0 2 2 0 0 0 = 7) := by
  obtain ⟨_, h2, h3⟩ := max_pool_acc_maxOver POOL_SIZE input c oh ow (-128)
  have hcell : max_pool CHANNELS POOL_SIZE input output H W c oh ow
      = max_pool_acc POOL_SIZE input c oh ow := by
    rw [max_pool_cell, if_pos ⟨hc, hoh, how⟩]
  rw [hcell]
  refine ⟨fun ph pw hph hpw => h2 _ ⟨ph, hph, pw, hpw, rfl⟩, ?_, fun _ => rfl, fun _ => rfl⟩
  rcases h3 with h3 | ⟨ph, hph, pw, hpw, hv⟩
  · refine ⟨0, 0, hP, hP, ?_⟩
    have hle : input c (oh * POOL_SIZE + 0) (ow * POOL_SIZE + 0)
        ≤ max_pool_acc POOL_SIZE input c oh ow := h2 _ ⟨0, hP, 0, hP, rfl⟩
    have hge := (hdata c (oh * POOL_SIZE + 0) (ow * POOL_SIZE + 0)).1
    have h3' : max_pool_acc POOL_SIZE input c oh ow = -128 := h3
    omega
  · exact ⟨ph, pw, hph, hpw, hv⟩

theorem max_pool_is_window_max_witness :
    (1 ≤ 2 ∧ (∀ ch h w : Nat, isData ((fun _ h w => (((h + w) % 7 : Nat) : Int) - 5) ch h w)) ∧
      0 < 1 ∧ 1 < 5 / 2 ∧ 0 < 4 / 2) ∧
    (∀ ph pw, ph < 2 → pw < 2 →
      (fun _ h w => (((h + w) % 7 : Nat) : Int) - 5) 0 (1 * 2 + ph) (0 * 2 + pw)
        ≤ max_pool 1 2 (fun _ h w => (((h + w) % 7 : Nat) : Int) - 5) (fun _ _ _ => 0) 5 4 0 1 0) ∧
    max_pool 1 2 (fun _ h w => (((h + w) % 7 : Nat) : Int) - 5) (fun _ _ _ => 0) 5 4 0 1 0 = -1 :=
  have hd : ∀ ch h w : Nat, isData ((fun _ h w => (((h + w) % 7 : Nat) : Int) - 5) ch h w) := by
    intro ch h w
    unfold isData
    dsimp only
    omega
  ⟨⟨by decide, hd, by decide, by decide, by decide⟩,
    (max_pool_is_window_max 1 2 (fun _ h w => (((h + w) % 7 : Nat) : Int) - 5) (fun _ _ _ => 0) 5 4
      0 1 0 (by decide) hd (by decide) (by decide) (by decide)).1,
    rfl⟩

/-! ## Weight loader -/

/-- A loop whose body at index `a` consumes `m` elements into the cells with
selector `sel x = a` consumes `A * m` elements into the cells with
`sel x < A`, block `a` starting at relative offset `a * m`. -/
theorem consumesBlob_forLoop {α ι : Type} (get : α → ι → Int)
    (body : Nat → EmbeddedWeightLoader × α → EmbeddedWeightLoader × α)
    (m : Nat) (P : Nat → ι → Prop) (g : ι → Nat) (sel : ι → Nat) (Q : ι → Prop)
    (hP : ∀ a x, P a x ↔ (sel x = a ∧ Q x))
    (hbody : ∀ a, ConsumesBlob get (body a) m (P a) g) (A : Nat) :
    ConsumesBlob get (CnnFpga.forLoop A body) (A * m) (fun x => sel x < A ∧ Q x)
      (fun x => sel x * m + g x) := by
  induction A with
  | zero =>
    intro l w hl
    refine ⟨rfl, ?_, fun x => ⟨?_, fun _ => rfl⟩⟩
    · show l.current_offset = (l.current_offset + 0 * m) % SIZE_MAX_PLUS_ONE
      rw [Nat.zero_mul, Nat.add_zero, Nat.mod_eq_of_lt hl]
    · rintro ⟨h, _⟩
      exact absurd h (Nat.not_lt_zero _)
  | succ A ih =>
    intro l w hl
    obtain ⟨hp, ho, hg⟩ := ih l w hl
    have hM : 0 < SIZE_MAX_PLUS_ONE := by decide
    have hl' : (CnnFpga.forLoop A body (l, w)).1.current_offset < SIZE_MAX_PLUS_ONE := by
      rw [ho]
      exact Nat.mod_lt _ hM
    obtain ⟨hp', ho', hg'⟩ := hbody A (CnnFpga.forLoop A body (l, w)).1
      (CnnFpga.forLoop A body (l, w)).2 hl'
    rw [forLoop_succ]
    refine ⟨hp'.trans hp, ?_, fun x => ⟨?_, ?_⟩⟩
    · rw [ho', ho, Nat.succ_mul, Nat.mod_add_mod, Nat.add_assoc]
    · rintro ⟨hlt, hq⟩
      rcases Nat.lt_succ_iff_lt_or_eq.mp hlt with h | h
      · have hn : ¬ P A x := fun hpa => by
          have := ((hP A x).mp hpa).1
          omega
        rw [(hg' x).2 hn]
        exact (hg x).1 ⟨h, hq⟩
      · have hpa : P A x := (hP A x).mpr ⟨h, hq⟩
        rw [(hg' x).1 hpa, hp, ho]
        dsimp only
        rw [h, Nat.mod_add_mod, Nat.add_assoc]
    · intro hn
      have hn1 : ¬ P A x := fun hpa => by
        obtain ⟨h1, h2⟩ := (hP A x).mp hpa
        exact hn ⟨by omega, h2⟩
      have hn2 : ¬ (sel x < A ∧ Q x) := fun h => hn ⟨Nat.lt_succ_of_lt h.1, h.2⟩
      rw [(hg' x).2 hn1]
      exact (hg x).2 hn2

/-- The four nested loops of `load_conv_weights` consume `OUT_CH*IN_CH*K*K`
elements in row-major order. -/
theorem load_conv_weights_consumes (OUT_CH IN_CH K : Nat) :
    ConsumesBlob (fun (w : ConvWeights) (x : Nat × Nat × Nat × Nat) => w x.1 x.2.1 x.2.2.1 x.2.2.2)
      (fun st => EmbeddedWeightLoader.load_conv_weights OUT_CH IN_CH K st.1 st.2)
      (OUT_CH * (IN_CH * (K * (K * 1))))
      (fun (x : Nat × Nat × Nat × Nat) => x.1 < OUT_CH ∧ x.2.1 < IN_CH ∧ x.2.2.1 < K ∧ x.2.2.2 < K)
      (fun (x : Nat × Nat × Nat × Nat) => x.1 * (IN_CH * (K * (K * 1)))
        + (x.2.1 * (K * (K * 1)) + (x.2.2.1 * (K * 1) + (x.2.2.2 * 1 + 0)))) := by
  unfold EmbeddedWeightLoader.load_conv_weights
  refine consumesBlob_forLoop _ _ _
    (fun oc (x : Nat × Nat × Nat × Nat) => x.1 = oc ∧ x.2.1 < IN_CH ∧ x.2.2.1 < K ∧ x.2.2.2 < K) _
    (fun (x : Nat × Nat × Nat × Nat) => x.1) (fun (x : Nat × Nat × Nat × Nat) => x.2.1 < IN_CH ∧ x.2.2.1 < K ∧ x.2.2.2 < K)
    (fun _ _ => Iff.rfl) (fun oc => ?_) OUT_CH
  have h3 := fun ic => consumesBlob_forLoop
    (fun (w : ConvWeights) (x : Nat × Nat × Nat × Nat) => w x.1 x.2.1 x.2.2.1 x.2.2.2)
    (fun kh st => CnnFpga.forLoop K (fun kw st =>
      ((EmbeddedWeightLoader.next st.1).2,
        write4 st.2 oc ic kh kw (EmbeddedWeightLoader.next st.1).1)) st)
    (K * 1) (fun kh (x : Nat × Nat × Nat × Nat) => x.1 = oc ∧ x.2.1 = ic ∧ x.2.2.1 = kh ∧ x.2.2.2 < K)
    (fun (x : Nat × Nat × Nat × Nat) => x.2.2.2 * 1 + 0)
    (fun (x : Nat × Nat × Nat × Nat) => x.2.2.1) (fun (x : Nat × Nat × Nat × Nat) => x.1 = oc ∧ x.2.1 = ic ∧ x.2.2.2 < K)
    (fun _ _ => by tauto)
    (fun kh => by
      have h4 := consumesBlob_forLoop
        (fun (w : ConvWeights) (x : Nat × Nat × Nat × Nat) => w x.1 x.2.1 x.2.2.1 x.2.2.2)
        (fun kw st => ((EmbeddedWeightLoader.next st.1).2,
          write4 st.2 oc ic kh kw (EmbeddedWeightLoader.next st.1).1))
        1 (fun kw (x : Nat × Nat × Nat × Nat) => x.1 = oc ∧ x.2.1 = ic ∧ x.2.2.1 = kh ∧ x.2.2.2 = kw)
        (fun (_ : Nat × Nat × Nat × Nat) => 0)
        (fun (x : Nat × Nat × Nat × Nat) => x.2.2.2) (fun (x : Nat × Nat × Nat × Nat) => x.1 = oc ∧ x.2.1 = ic ∧ x.2.2.1 = kh)
        (fun _ _ => by tauto)
        (fun kw l w hl => by
          refine ⟨rfl, rfl, fun x => ⟨fun hx => ?_, fun hx => ?_⟩⟩
          · show write4 w oc ic kh kw _ x.1 x.2.1 x.2.2.1 x.2.2.2 = _
            unfold write4
            rw [if_pos hx, Nat.add_zero, Nat.mod_eq_of_lt hl]
            rfl
          · show write4 w oc ic kh kw _ x.1 x.2.1 x.2.2.1 x.2.2.2 = _
            unfold write4
            rw [if_neg hx])
        K
      intro l w hl
      obtain ⟨a1, a2, a3⟩ := h4 l w hl
      refine ⟨a1, a2, fun x => ⟨fun hx => ?_, fun hx => ?_⟩⟩
      · exact (a3 x).1 ⟨hx.2.2.2, hx.1, hx.2.1, hx.2.2.1⟩
      · exact (a3 x).2 (fun h => hx ⟨h.2.1, h.2.2.1, h.2.2.2, h.1⟩))
    K
  have h2 := consumesBlob_forLoop
    (fun (w : ConvWeights) (x : Nat × Nat × Nat × Nat) => w x.1 x.2.1 x.2.2.1 x.2.2.2)
    (fun ic st => CnnFpga.forLoop K (fun kh st => CnnFpga.forLoop K (fun kw st =>
      ((EmbeddedWeightLoader.next st.1).2,
        write4 st.2 oc ic kh kw (EmbeddedWeightLoader.next st.1).1)) st) st)
    (K * (K * 1)) (fun ic (x : Nat × Nat × Nat × Nat) => x.1 = oc ∧ x.2.1 = ic ∧ x.2.2.1 < K ∧ x.2.2.2 < K)
    (fun (x : Nat × Nat × Nat × Nat) => x.2.2.1 * (K * 1) + (x.2.2.2 * 1 + 0))
    (fun (x : Nat × Nat × Nat × Nat) => x.2.1) (fun (x : Nat × Nat × Nat × Nat) => x.1 = oc ∧ x.2.2.1 < K ∧ x.2.2.2 < K)
    (fun _ _ => by tauto)
    (fun ic l w hl => by
      obtain ⟨a1, a2, a3⟩ := h3 ic l w hl
      refine ⟨a1, a2, fun x => ⟨fun hx => ?_, fun hx => ?_⟩⟩
      · exact (a3 x).1 ⟨hx.2.2.1, hx.1, hx.2.1, hx.2.2.2⟩
      · exact (a3 x).2 (fun h => hx ⟨h.2.1, h.2.2.1, h.1, h.2.2.2⟩))
    IN_CH
  intro l w hl
  obtain ⟨a1, a2, a3⟩ := h2 l w hl
  refine ⟨a1, a2, fun x => ⟨fun hx => ?_, fun hx => ?_⟩⟩
  · exact (a3 x).1 ⟨hx.2.1, hx.1, hx.2.2.1, hx.2.2.2⟩
  · exact (a3 x).2 (fun h => hx ⟨h.2.1, h.1, h.2.2.1, h.2.2.2⟩)

/-- The two nested loops of `load_fc_weights` consume
`OUT_FEATURES*IN_FEATURES` elements in row-major order. -/
theorem load_fc_weights_consumes (OUT_FEATURES IN_FEATURES : Nat) :
    ConsumesBlob (fun (w : Nat → Nat → Int) (x : Nat × Nat) => w x.1 x.2)
      (fun st => EmbeddedWeightLoader.load_fc_weights OUT_FEATURES IN_FEATURES st.1 st.2)
      (OUT_FEATURES * (IN_FEATURES * 1))
      (fun x => x.1 < OUT_FEATURES ∧ x.2 < IN_FEATURES)
      (fun x => x.1 * (IN_FEATURES * 1) + (x.2 * 1 + 0)) := by
  unfold EmbeddedWeightLoader.load_fc_weights
  refine consumesBlob_forLoop _ _ _
    (fun out (x : Nat × Nat) => x.1 = out ∧ x.2 < IN_FEATURES) _
    (fun (x : Nat × Nat) => x.1) (fun (x : Nat × Nat) => x.2 < IN_FEATURES)
    (fun _ _ => Iff.rfl) (fun out => ?_) OUT_FEATURES
  have h := consumesBlob_forLoop
    (fun (w : Nat → Nat → Int) (x : Nat × Nat) => w x.1 x.2)
    (fun i st => ((EmbeddedWeightLoader.next st.1).2,
      write2 st.2 out i (EmbeddedWeightLoader.next st.1).1))
    1 (fun i (x : Nat × Nat) => x.1 = out ∧ x.2 = i)
    (fun (_ : Nat × Nat) => 0)
    (fun (x : Nat × Nat) => x.2) (fun (x : Nat × Nat) => x.1 = out)
    (fun _ _ => by tauto)
    (fun i l w hl => by
      refine ⟨rfl, rfl, fun x => ⟨fun hx => ?_, fun hx => ?_⟩⟩
      · show write2 w out i _ x.1 x.2 = _
        unfold write2
        rw [if_pos hx, Nat.add_zero, Nat.mod_eq_of_lt hl]
        rfl
      · show write2 w out i _ x.1 x.2 = _
        unfold write2
        rw [if_neg hx])
    IN_FEATURES
  intro l w hl
  obtain ⟨a1, a2, a3⟩ := h l w hl
  refine ⟨a1, a2, fun x => ⟨fun hx => ?_, fun hx => ?_⟩⟩
  · exact (a3 x).1 ⟨hx.2, hx.1⟩
  · exact (a3 x).2 (fun h => hx ⟨h.2, h.1⟩)

/-- The loop of `load_bias` consumes `SIZE` elements in order. -/
theorem load_bias_consumes (SIZE : Nat) :
    ConsumesBlob (fun (b : Nat → Int) (x : Nat) => b x)
      (fun st => EmbeddedWeightLoader.load_bias SIZE st.1 st.2)
      (SIZE * 1) (fun x => x < SIZE ∧ True) (fun x => x * 1 + 0) := by
  unfold EmbeddedWeightLoader.load_bias
  refine consumesBlob_forLoop _ _ _ (fun i (x : Nat) => x = i) _
    (fun (x : Nat) => x) (fun _ => True) (fun _ _ => by tauto) (fun i l w hl => ?_) SIZE
  refine ⟨rfl, rfl, fun x => ⟨fun hx => ?_, fun hx => ?_⟩⟩
  · show write1 w i _ x = _
    unfold write1
    rw [if_pos hx, Nat.add_zero, Nat.mod_eq_of_lt hl]
    rfl
  · show write1 w i _ x = _
    unfold write1
    rw [if_neg hx]

/-- What `load_conv_weights` does: the blob pointer is kept, the cursor
advances by `OUT_CH*IN_CH*K*K` modulo the `size_t` range, and the cell
`[oc][ic][kh][kw]` receives the blob element at the row-major position. -/
theorem load_conv_weights_spec (OUT_CH IN_CH K : Nat) (l : EmbeddedWeightLoader)
    (w : ConvWeights) (hl : l.current_offset < SIZE_MAX_PLUS_ONE) :
    (l.load_conv_weights OUT_CH IN_CH K w).1.weights_ptr = l.weights_ptr ∧
    (l.load_conv_weights OUT_CH IN_CH K w).1.current_offset
      = (l.current_offset + OUT_CH * IN_CH * K * K) % SIZE_MAX_PLUS_ONE ∧
    ∀ oc ic kh kw, oc < OUT_CH → ic < IN_CH → kh < K → kw < K →
      (l.load_conv_weights OUT_CH IN_CH K w).2 oc ic kh kw
        = l.weights_ptr ((l.current_offset + (((oc * IN_CH + ic) * K + kh) * K + kw))
            % SIZE_MAX_PLUS_ONE) := by
  obtain ⟨h1, h2, h3⟩ := load_conv_weights_consumes OUT_CH IN_CH K l w hl
  refine ⟨h1, ?_, fun oc ic kh kw hoc hic hkh hkw => ?_⟩
  · have e : OUT_CH * IN_CH * K * K = OUT_CH * (IN_CH * (K * (K * 1))) := by ring
    rw [e]
    exact h2
  · have e : ((oc * IN_CH + ic) * K + kh) * K + kw
        = oc * (IN_CH * (K * (K * 1))) + (ic * (K * (K * 1)) + (kh * (K * 1) + (kw * 1 + 0))) := by
      ring
    rw [e]
    exact (h3 (oc, ic, kh, kw)).1 ⟨hoc, hic, hkh, hkw⟩

/-- What `load_fc_weights` does: the blob pointer is kept, the cursor advances
by `OUT_FEATURES*IN_FEATURES` modulo the `size_t` range, and the cell `[o][i]`
receives the blob element at the row-major position. -/
theorem load_fc_weights_spec (OUT_FEATURES IN_FEATURES : Nat) (l : EmbeddedWeightLoader)
    (w : Nat → Nat → Int) (hl : l.current_offset < SIZE_MAX_PLUS_ONE) :
    (l.load_fc_weights OUT_FEATURES IN_FEATURES w).1.weights_ptr = l.weights_ptr ∧
    (l.load_fc_weights OUT_FEATURES IN_FEATURES w).1.current_offset
      = (l.current_offset + OUT_FEATURES * IN_FEATURES) % SIZE_MAX_PLUS_ONE ∧
    ∀ o i, o < OUT_FEATURES → i < IN_FEATURES →
      (l.load_fc_weights OUT_FEATURES IN_FEATURES w).2 o i
        = l.weights_ptr ((l.current_offset + (o * IN_FEATURES + i)) % SIZE_MAX_PLUS_ONE) := by
  obtain ⟨h1, h2, h3⟩ := load_fc_weights_consumes OUT_FEATURES IN_FEATURES l w hl
  refine ⟨h1, ?_, fun o i ho hi => ?_⟩
  · have e : OUT_FEATURES * IN_FEATURES = OUT_FEATURES * (IN_FEATURES * 1) := by ring
    rw [e]
    exact h2
  · have e : o * IN_FEATURES + i = o * (IN_FEATURES * 1) + (i * 1 + 0) := by ring
    rw [e]
    exact (h3 (o, i)).1 ⟨ho, hi⟩

/-- What `load_bias` does to the loader. -/
theorem load_bias_spec (SIZE : Nat) (l : EmbeddedWeightLoader) (b : Nat → Int)
    (hl : l.current_offset < SIZE_MAX_PLUS_ONE) :
    (l.load_bias SIZE b).1.weights_ptr = l.weights_ptr ∧
    (l.load_bias SIZE b).1.current_offset
      = (l.current_offset + SIZE) % SIZE_MAX_PLUS_ONE := by
  obtain ⟨h1, h2, _⟩ := load_bias_consumes SIZE l b hl
  refine ⟨h1, ?_⟩
  rw [Nat.mul_one] at h2
  exact h2

/-- Every loader call keeps the blob pointer and advances the cursor by its
element count modulo the `size_t` range. -/
theorem loaderOp_run_spec (l : EmbeddedWeightLoader) (op : LoaderOp)
    (hl : l.current_offset < SIZE_MAX_PLUS_ONE) :
    (op.run l).weights_ptr = l.weights_ptr ∧
    (op.run l).current_offset = (l.current_offset + op.count) % SIZE_MAX_PLUS_ONE := by
  cases op with
  | load_conv_weights OUT_CH IN_CH K =>
    obtain ⟨h1, h2, _⟩ := load_conv_weights_spec OUT_CH IN_CH K l (fun _ _ _ _ => 0) hl
    exact ⟨h1, h2⟩
  | load_fc_weights OUT_FEATURES IN_FEATURES =>
    obtain ⟨h1, h2, _⟩ := load_fc_weights_spec OUT_FEATURES IN_FEATURES l (fun _ _ => 0) hl
    exact ⟨h1, h2⟩
  | load_bias SIZE => exact load_bias_spec SIZE l (fun _ => 0) hl
  | skip bytes => exact ⟨rfl, rfl⟩

/-- After a sequence of calls the cursor is the start cursor plus the sum of
the counts, modulo the `size_t` range. -/
theorem runOps_offset (ops : List LoaderOp) (l : EmbeddedWeightLoader)
    (hl : l.current_offset < SIZE_MAX_PLUS_ONE) :
    (runOps l ops).weights_ptr = l.weights_ptr ∧
    (runOps l ops).current_offset
      = (l.current_offset + (ops.map LoaderOp.count).sum) % SIZE_MAX_PLUS_ONE := by
  induction ops generalizing l with
  | nil =>
    refine ⟨rfl, ?_⟩
    show l.current_offset = _
    simp [Nat.mod_eq_of_lt hl]
  | cons op ops ih =>
    obtain ⟨h1, h2⟩ := loaderOp_run_spec l op hl
    have hl' : (op.run l).current_offset < SIZE_MAX_PLUS_ONE := by
      rw [h2]
      exact Nat.mod_lt _ (by decide)
    obtain ⟨g1, g2⟩ := ih (op.run l) hl'
    refine ⟨g1.trans h1, ?_⟩
    show (runOps (op.run l) ops).current_offset = _
    rw [g2, h2, List.map_cons, List.sum_cons, Nat.mod_add_mod, Nat.add_assoc]

theorem testbench_load_loader (blob : Nat → Int) :
    (testbench_load blob).loader
      = runOps (EmbeddedWeightLoader.mk0 blob)
          [LoaderOp.load_conv_weights CONV1_OUT_CH CONV1_IN_CH CONV1_K,
           LoaderOp.load_conv_weights CONV2_OUT_CH CONV2_IN_CH CONV2_K,
           LoaderOp.load_conv_weights CONV3_OUT_CH CONV3_IN_CH CONV3_K,
           LoaderOp.load_fc_weights FC1_OUT FC1_IN,
           LoaderOp.load_fc_weights FC2_OUT FC2_IN] := by
  simp only [testbench_load, runOps, List.foldl, LoaderOp.run]

/-- C8 (refuted as stated): on a fresh loader `skip(2^64 - 1)` followed by
`skip(1)` leaves the cursor at 0, while the sum of the two counts is 2^64. -/
theorem loader_offset_wrap_counterexample :
    (runOps (EmbeddedWeightLoader.mk0 (fun _ => 0))
        [LoaderOp.skip 18446744073709551615, LoaderOp.skip 1]).get_offset = 0 ∧
    ([LoaderOp.skip 18446744073709551615, LoaderOp.skip 1].map LoaderOp.count).sum
      = 18446744073709551616 ∧
    (runOps (EmbeddedWeightLoader.mk0 (fun _ => 0))
        [LoaderOp.skip 18446744073709551615, LoaderOp.skip 1]).get_offset
      ≠ ([LoaderOp.skip 18446744073709551615, LoaderOp.skip 1].map LoaderOp.count).sum := by
  have h1 : (runOps (EmbeddedWeightLoader.mk0 (fun _ => 0))
      [LoaderOp.skip 18446744073709551615, LoaderOp.skip 1]).get_offset = 0 := by decide
  have h2 : ([LoaderOp.skip 18446744073709551615, LoaderOp.skip 1].map LoaderOp.count).sum
      = 18446744073709551616 := by decide
  refine ⟨h1, h2, ?_⟩
  rw [h1, h2]
  decide

/-- C8 (amended): each `EmbeddedWeightLoader` operation advances the cursor by
exactly its element count as long as the new cursor stays below 2^64 (the
`size_t` range): `load_conv_weights<OUT_CH, IN_CH, K>` by `OUT_CH*IN_CH*K*K`,
`load_fc_weights<OUT, IN>` by `OUT*IN`, `load_bias<SIZE>` by `SIZE` and
`skip(n)` by `n`. Hence `get_offset()` after a sequence of operations on a
fresh loader whose counts sum to less than 2^64 is the sum of their counts;
after conv1 then conv2 it is 5040 and after the five loads of the testbench
it is 277424. -/
theorem loader_offset_sum (blob : Nat → Int) (ops : List LoaderOp)
    (h : (ops.map LoaderOp.count).sum < SIZE_MAX_PLUS_ONE) :
    (runOps (EmbeddedWeightLoader.mk0 blob) ops).get_offset = (ops.map LoaderOp.count).sum ∧
    (∀ (l : EmbeddedWeightLoader) (op : LoaderOp),
      l.current_offset + op.count < SIZE_MAX_PLUS_ONE →
        (op.run l).get_offset = l.get_offset + op.count) ∧
    (runOps (EmbeddedWeightLoader.mk0 blob)
        [LoaderOp.load_conv_weights 16 3 3, LoaderOp.load_conv_weights 32 16 3]).get_offset
      = 5040 ∧
    (testbench_load blob).loader.get_offset = 432 + 4608 + 9216 + 262144 + 1024 ∧
    (testbench_load blob).loader.get_offset = 277424 := by
  have h0 : (EmbeddedWeightLoader.mk0 blob).current_offset < SIZE_MAX_PLUS_ONE := by
    show 0 < SIZE_MAX_PLUS_ONE
    decide
  have hrun : ∀ ops : List LoaderOp,
      (runOps (EmbeddedWeightLoader.mk0 blob) ops).get_offset
        = (0 + (ops.map LoaderOp.count).sum) % SIZE_MAX_PLUS_ONE :=
    fun ops => (runOps_offset ops _ h0).2
  refine ⟨?_, fun l op hlop => ?_, ?_, ?_, ?_⟩
  · rw [hrun, Nat.zero_add, Nat.mod_eq_of_lt h]
  · have hl : l.current_offset < SIZE_MAX_PLUS_ONE := by omega
    show (op.run l).current_offset = l.current_offset + op.count
    rw [(loaderOp_run_spec l op hl).2, Nat.mod_eq_of_lt hlop]
  · rw [hrun]
    decide
  · rw [testbench_load_loader, hrun]
    decide
  · rw [testbench_load_loader, hrun]
    decide

theorem loader_offset_sum_witness :
    ([LoaderOp.load_conv_weights 2 3 3, LoaderOp.load_bias 4, LoaderOp.skip 5,
        LoaderOp.load_fc_weights 3 4].map LoaderOp.count).sum < SIZE_MAX_PLUS_ONE ∧
    (runOps (EmbeddedWeightLoader.mk0 (fun i => ((i % 100 : Nat) : Int)))
        [LoaderOp.load_conv_weights 2 3 3, LoaderOp.load_bias 4, LoaderOp.skip 5,
          LoaderOp.load_fc_weights 3 4]).get_offset
      = ([LoaderOp.load_conv_weights 2 3 3, LoaderOp.load_bias 4, LoaderOp.skip 5,
          LoaderOp.load_fc_weights 3 4].map LoaderOp.count).sum ∧
    ([LoaderOp.load_conv_weights 2 3 3, LoaderOp.load_bias 4, LoaderOp.skip 5,
        LoaderOp.load_fc_weights 3 4].map LoaderOp.count).sum = 75 :=
  ⟨by decide,
    (loader_offset_sum (fun i => ((i % 100 : Nat) : Int))
      [LoaderOp.load_conv_weights 2 3 3, LoaderOp.load_bias 4, LoaderOp.skip 5,
        LoaderOp.load_fc_weights 3 4] (by decide)).1,
    by decide⟩

theorem row_major_lt {a A b B : Nat} (ha : a < A) (hb : b < B) : a * B + b < A * B := by
  have h1 : (a + 1) * B ≤ A * B := Nat.mul_le_mul_right B ha
  rw [Nat.succ_mul] at h1
  omega

theorem conv_index_lt {OUT_CH IN_CH K oc ic kh kw : Nat} (hoc : oc < OUT_CH) (hic : ic < IN_CH)
    (hkh : kh < K) (hkw : kw < K) :
    ((oc * IN_CH + ic) * K + kh) * K + kw < OUT_CH * IN_CH * K * K :=
  row_major_lt (row_major_lt (row_major_lt hoc hic) hkh) hkw

/-- The loads of Step 1 of the testbench start at the cursors 0, 432, 5040,
14256 and 276400, each reading the same blob. -/
theorem testbench_cursors (blob : Nat → Int) :
    ((EmbeddedWeightLoader.mk0 blob).load_conv_weights CONV1_OUT_CH CONV1_IN_CH CONV1_K
        (fun _ _ _ _ => 0)).1 = { weights_ptr := blob, current_offset := 432 } ∧
    (({ weights_ptr := blob, current_offset := 432 } : EmbeddedWeightLoader).load_conv_weights
        CONV2_OUT_CH CONV2_IN_CH CONV2_K (fun _ _ _ _ => 0)).1
      = { weights_ptr := blob, current_offset := 5040 } ∧
    (({ weights_ptr := blob, current_offset := 5040 } : EmbeddedWeightLoader).load_conv_weights
        CONV3_OUT_CH CONV3_IN_CH CONV3_K (fun _ _ _ _ => 0)).1
      = { weights_ptr := blob, current_offset := 14256 } ∧
    (({ weights_ptr := blob, current_offset := 14256 } : EmbeddedWeightLoader).load_fc_weights
        FC1_OUT FC1_IN (fun _ _ => 0)).1
      = { weights_ptr := blob, current_offset := 276400 } := by
  have ext : ∀ (a : EmbeddedWeightLoader) (p : Nat → Int) (n : Nat),
      a.weights_ptr = p → a.current_offset = n →
        a = { weights_ptr := p, current_offset := n } := by
    intro a p n h1 h2
    cases a
    simp only at h1 h2
    rw [h1, h2]
  refine ⟨?_, ?_, ?_, ?_⟩
  · obtain ⟨h1, h2, _⟩ := load_conv_weights_spec CONV1_OUT_CH CONV1_IN_CH CONV1_K
      (EmbeddedWeightLoader.mk0 blob) (fun _ _ _ _ => 0) (by show 0 < SIZE_MAX_PLUS_ONE; decide)
    exact ext _ _ _ h1 (h2.trans (by
      norm_num [EmbeddedWeightLoader.mk0, CONV1_OUT_CH, CONV1_IN_CH, CONV1_K, CONV2_OUT_CH,
        CONV2_IN_CH, CONV2_K, CONV3_OUT_CH, CONV3_IN_CH, CONV3_K, FC1_OUT, FC1_IN,
        SIZE_MAX_PLUS_ONE]))
  · obtain ⟨h1, h2, _⟩ := load_conv_weights_spec CONV2_OUT_CH CONV2_IN_CH CONV2_K
      { weights_ptr := blob, current_offset := 432 } (fun _ _ _ _ => 0)
      (by show 432 < SIZE_MAX_PLUS_ONE; decide)
    exact ext _ _ _ h1 (h2.trans (by
      norm_num [EmbeddedWeightLoader.mk0, CONV1_OUT_CH, CONV1_IN_CH, CONV1_K, CONV2_OUT_CH,
        CONV2_IN_CH, CONV2_K, CONV3_OUT_CH, CONV3_IN_CH, CONV3_K, FC1_OUT, FC1_IN,
        SIZE_MAX_PLUS_ONE]))
  · obtain ⟨h1, h2, _⟩ := load_conv_weights_spec CONV3_OUT_CH CONV3_IN_CH CONV3_K
      { weights_ptr := blob, current_offset := 5040 } (fun _ _ _ _ => 0)
      (by show 5040 < SIZE_MAX_PLUS_ONE; decide)
    exact ext _ _ _ h1 (h2.trans (by
      norm_num [EmbeddedWeightLoader.mk0, CONV1_OUT_CH, CONV1_IN_CH, CONV1_K, CONV2_OUT_CH,
        CONV2_IN_CH, CONV2_K, CONV3_OUT_CH, CONV3_IN_CH, CONV3_K, FC1_OUT, FC1_IN,
        SIZE_MAX_PLUS_ONE]))
  · obtain ⟨h1, h2, _⟩ := load_fc_weights_spec FC1_OUT FC1_IN
      { weights_ptr := blob, current_offset := 14256 } (fun _ _ => 0)
      (by show 14256 < SIZE_MAX_PLUS_ONE; decide)
    exact ext _ _ _ h1 (h2.trans (by
      norm_num [EmbeddedWeightLoader.mk0, CONV1_OUT_CH, CONV1_IN_CH, CONV1_K, CONV2_OUT_CH,
        CONV2_IN_CH, CONV2_K, CONV3_OUT_CH, CONV3_IN_CH, CONV3_K, FC1_OUT, FC1_IN,
        SIZE_MAX_PLUS_ONE]))

/-- C9: the loader reads the blob in row-major order. If the cursor is `p`
before the call and the elements to load lie inside the addressable blob
(`p + count <= 2^64`, for the loader `l` of the convolution load and the
loader `lf` of the fully-connected load), `load_conv_weights<OUT_CH, IN_CH, K>` sets
`weights[oc][ic][kh][kw] = blob[p + ((oc*IN_CH + ic)*K + kh)*K + kw]` for all
indices in range and `load_fc_weights<OUT, IN>` sets
`weights[o][i] = blob[p + o*IN + i]`; in the load order of the testbench the
first weight of conv1 is `blob[0]`, of conv2 `blob[432]`, of conv3
`blob[5040]`, of fc1 `blob[14256]` and of fc2 `blob[276400]`. -/
theorem loader_row_major (l : EmbeddedWeightLoader)
    (OUT_CH IN_CH K : Nat) (weights : ConvWeights) (oc ic kh kw : Nat)
    (lf : EmbeddedWeightLoader)
    (OUT_FEATURES IN_FEATURES : Nat) (fc_weights : Nat → Nat → Int) (o i : Nat)
    (hconv : l.current_offset + OUT_CH * IN_CH * K * K ≤ SIZE_MAX_PLUS_ONE)
    (hfc : lf.current_offset + OUT_FEATURES * IN_FEATURES ≤ SIZE_MAX_PLUS_ONE)
    (hoc : oc < OUT_CH) (hic : ic < IN_CH) (hkh : kh < K) (hkw : kw < K)
    (ho : o < OUT_FEATURES) (hi : i < IN_FEATURES) :
    (l.load_conv_weights OUT_CH IN_CH K weights).2 oc ic kh kw
      = l.weights_ptr (l.current_offset + (((oc * IN_CH + ic) * K + kh) * K + kw)) ∧
    (lf.load_fc_weights OUT_FEATURES IN_FEATURES fc_weights).2 o i
      = lf.weights_ptr (lf.current_offset + (o * IN_FEATURES + i)) ∧
    (∀ blob : Nat → Int,
      (testbench_load blob).conv1_weights 0 0 0 0 = blob 0 ∧
      (testbench_load blob).conv2_weights 0 0 0 0 = blob 432 ∧
      (testbench_load blob).conv3_weights 0 0 0 0 = blob 5040 ∧
      (testbench_load blob).fc1_weights 0 0 = blob 14256 ∧
      (testbench_load blob).fc2_weights 0 0 = blob 276400) := by
  have hidx := conv_index_lt hoc hic hkh hkw
  have hidx2 : o * IN_FEATURES + i < OUT_FEATURES * IN_FEATURES := row_major_lt ho hi
  have hl : l.current_offset < SIZE_MAX_PLUS_ONE := by omega
  have hlf : lf.current_offset < SIZE_MAX_PLUS_ONE := by omega
  refine ⟨?_, ?_, fun blob => ?_⟩
  · rw [(load_conv_weights_spec OUT_CH IN_CH K l weights hl).2.2 oc ic kh kw hoc hic hkh hkw,
      Nat.mod_eq_of_lt (by omega)]
  · rw [(load_fc_weights_spec OUT_FEATURES IN_FEATURES lf fc_weights hlf).2.2 o i ho hi,
      Nat.mod_eq_of_lt (by omega)]
  · obtain ⟨c1, c2, c3, c4⟩ := testbench_cursors blob
    have e1 : (testbench_load blob).conv1_weights
        = ((EmbeddedWeightLoader.mk0 blob).load_conv_weights CONV1_OUT_CH CONV1_IN_CH CONV1_K
            (fun _ _ _ _ => 0)).2 := by
      simp only [testbench_load]
    have e2 : (testbench_load blob).conv2_weights
        = (({ weights_ptr := blob, current_offset := 432 } :
            EmbeddedWeightLoader).load_conv_weights CONV2_OUT_CH CONV2_IN_CH CONV2_K
              (fun _ _ _ _ => 0)).2 := by
      simp only [testbench_load, c1]
    have e3 : (testbench_load blob).conv3_weights
        = (({ weights_ptr := blob, current_offset := 5040 } :
            EmbeddedWeightLoader).load_conv_weights CONV3_OUT_CH CONV3_IN_CH CONV3_K
              (fun _ _ _ _ => 0)).2 := by
      simp only [testbench_load, c1, c2]
    have e4 : (testbench_load blob).fc1_weights
        = (({ weights_ptr := blob, current_offset := 14256 } :
            EmbeddedWeightLoader).load_fc_weights FC1_OUT FC1_IN (fun _ _ => 0)).2 := by
      simp only [testbench_load, c1, c2, c3]
    have e5 : (testbench_load blob).fc2_weights
        = (({ weights_ptr := blob, current_offset := 276400 } :
            EmbeddedWeightLoader).load_fc_weights FC2_OUT FC2_IN (fun _ _ => 0)).2 := by
      simp only [testbench_load, c1, c2, c3, c4]
    refine ⟨?_, ?_, ?_, ?_, ?_⟩
    · rw [e1, (load_conv_weights_spec _ _ _ _ _ (by show 0 < SIZE_MAX_PLUS_ONE; decide)).2.2
        0 0 0 0 (by decide) (by decide) (by decide) (by decide)]
      rfl
    · rw [e2, (load_conv_weights_spec _ _ _ _ _ (by show 432 < SIZE_MAX_PLUS_ONE; decide)).2.2
        0 0 0 0 (by decide) (by decide) (by decide) (by decide)]
      rfl
    · rw [e3, (load_conv_weights_spec _ _ _ _ _ (by show 5040 < SIZE_MAX_PLUS_ONE; decide)).2.2
        0 0 0 0 (by decide) (by decide) (by decide) (by decide)]
      rfl
    · rw [e4, (load_fc_weights_spec _ _ _ _ (by show 14256 < SIZE_MAX_PLUS_ONE; decide)).2.2
        0 0 (by decide) (by decide)]
      rfl
    · rw [e5, (load_fc_weights_spec _ _ _ _ (by show 276400 < SIZE_MAX_PLUS_ONE; decide)).2.2
        0 0 (by decide) (by decide)]
      rfl

theorem loader_row_major_witness :
    ((7 + 2 * 3 * 3 * 3 ≤ SIZE_MAX_PLUS_ONE ∧ 7 + 3 * 4 ≤ SIZE_MAX_PLUS_ONE) ∧
      (1 < 2 ∧ 2 < 3 ∧ 1 < 3 ∧ 2 < 3) ∧ (2 < 3 ∧ 3 < 4)) ∧
    (({ weights_ptr := fun i => ((i % 100 : Nat) : Int), current_offset := 7 } :
        EmbeddedWeightLoader).load_conv_weights 2 3 3 (fun _ _ _ _ => 0)).2 1 2 1 2 = 57 ∧
    (({ weights_ptr := fun i => ((i % 100 : Nat) : Int), current_offset := 7 } :
        EmbeddedWeightLoader).load_fc_weights 3 4 (fun _ _ => 0)).2 2 3 = 18 :=
  have t := loader_row_major
    { weights_ptr := fun i => ((i % 100 : Nat) : Int), current_offset := 7 }
    2 3 3 (fun _ _ _ _ => 0) 1 2 1 2
    { weights_ptr := fun i => ((i % 100 : Nat) : Int), current_offset := 7 }
    3 4 (fun _ _ => 0) 2 3
    (by decide) (by decide) (by decide) (by decide) (by decide) (by decide) (by decide)
    (by decide)
  ⟨⟨⟨by decide, by decide⟩, ⟨by decide, by decide, by decide, by decide⟩,
      ⟨by decide, by decide⟩⟩,
    t.1.trans (by decide), t.2.1.trans (by decide)⟩

/-! ## Streaming convolution -/

set_option maxRecDepth 100000

/-- C1 (the code departs from the claim): two runs of `conv_layer_stream` on
inputs fed in channel, row, column order, for every initial content of the
uninitialised line buffers and window.

* One channel, 3x3 image whose first row is 1 and the rest 0, all weights 1,
  stride 1: the direct convolution gives 3 at output (0, 0), the stream
  writes 0, because the window holds the rows (1, 2, 2) instead of (0, 1, 2).
* Two channels, 3x4 image, channel 0 equal to the column index in every row
  and channel 1 zero, all weights 1, stride 1: the direct convolution gives 9
  and 18 at outputs (0, 0) and (0, 1), the stream writes 18 and 18, because
  the window of channel 0 is left at the last valid position while channel 1
  is streamed. -/
theorem conv_layer_stream_differs (linebuf0 window0 : Tensor) :
    (conv_layer_stream 1 1 3 1
        (stream_of 1 3 3 (fun _ r _ => if r = 0 then 1 else 0)) []
        (fun _ _ _ _ => 1) 3 3 linebuf0 window0).out_stream = [0] ∧
    conv_layer_simple 1 1 3 1 (fun _ r _ => if r = 0 then 1 else 0) (fun _ _ _ => 0)
        (fun _ _ _ _ => 1) 3 3 0 0 0 = 3 ∧
    (conv_layer_stream 2 1 3 1
        (stream_of 2 3 4 (fun c _ k => if c = 0 then (k : Int) else 0)) []
        (fun _ _ _ _ => 1) 3 4 linebuf0 window0).out_stream = [18, 18] ∧
    conv_layer_simple 2 1 3 1 (fun c _ k => if c = 0 then (k : Int) else 0) (fun _ _ _ => 0)
        (fun _ _ _ _ => 1) 3 4 0 0 0 = 9 ∧
    conv_layer_simple 2 1 3 1 (fun c _ k => if c = 0 then (k : Int) else 0) (fun _ _ _ => 0)
        (fun _ _ _ _ => 1) 3 4 0 0 1 = 18 :=
  ⟨rfl, rfl, rfl, rfl, rfl⟩

/-! ## Output sizes of pooling and the dimension chain -/

theorem pool_out_size_natCast (H POOL_SIZE : Nat) :
    pool_out_size (H : Int) (POOL_SIZE : Int) (POOL_SIZE : Int) = ((H / POOL_SIZE : Nat) : Int) :=
  rfl

/-- C11: the pooling output size is `floor(in / pool_size)` everywhere. For
every `in_size >= 0` and `pool_size >= 1`,
`pool_out_size(in_size, pool_size, pool_size)` equals `floor(in_size / pool_size)`;
for natural `H` and `POOL_SIZE` it is the quotient `H / POOL_SIZE` that
`avg_pool` and `max_pool` compute as `out_h` and `out_w`, so both layers write
exactly the cells `[c][oh][ow]` with `oh < pool_out_size(H, ..)` and
`ow < pool_out_size(W, ..)`. -/
theorem pool_out_size_floor (in_size pool_size : Int) (h0 : 0 ≤ in_size)
    (h1 : 1 ≤ pool_size) :
    pool_out_size in_size pool_size pool_size = pool_out_size_formula in_size pool_size ∧
    (∀ H POOL_SIZE : Nat,
      pool_out_size (H : Int) (POOL_SIZE : Int) (POOL_SIZE : Int)
        = ((H / POOL_SIZE : Nat) : Int)) ∧
    (∀ (CHANNELS POOL_SIZE : Nat) (input output : Tensor) (H W x y z : Nat),
      avg_pool CHANNELS POOL_SIZE input output H W x y z
        = if x < CHANNELS ∧ y < (pool_out_size H POOL_SIZE POOL_SIZE).toNat
              ∧ z < (pool_out_size W POOL_SIZE POOL_SIZE).toNat
          then data_t (Int.tdiv (avg_pool_acc POOL_SIZE input x y z)
            ((POOL_SIZE : Int) * (POOL_SIZE : Int)))
          else output x y z) ∧
    (∀ (CHANNELS POOL_SIZE : Nat) (input output : Tensor) (H W x y z : Nat),
      max_pool CHANNELS POOL_SIZE input output H W x y z
        = if x < CHANNELS ∧ y < (pool_out_size H POOL_SIZE POOL_SIZE).toNat
              ∧ z < (pool_out_size W POOL_SIZE POOL_SIZE).toNat
          then max_pool_acc POOL_SIZE input x y z
          else output x y z) := by
  refine ⟨?_, pool_out_size_natCast, ?_, ?_⟩
  · unfold pool_out_size pool_out_size_formula
    rw [floor_rat_div _ _ h1, Int.tdiv_eq_ediv h0 (by omega)]
  · intro CHANNELS POOL_SIZE input output H W x y z
    rw [pool_out_size_natCast, pool_out_size_natCast, Int.toNat_ofNat, Int.toNat_ofNat]
    exact avg_pool_cell CHANNELS POOL_SIZE input output H W x y z
  · intro CHANNELS POOL_SIZE input output H W x y z
    rw [pool_out_size_natCast, pool_out_size_natCast, Int.toNat_ofNat, Int.toNat_ofNat]
    exact max_pool_cell CHANNELS POOL_SIZE input output H W x y z

theorem pool_out_size_floor_witness :
    ((0 : Int) ≤ 61 ∧ (1 : Int) ≤ 2) ∧
    pool_out_size 61 2 2 = pool_out_size_formula 61 2 ∧ pool_out_size 61 2 2 = 30 :=
  ⟨⟨by decide, by decide⟩, (pool_out_size_floor 61 2 (by decide) (by decide)).1, by decide⟩

/-- C13: the dimension chain of `cnn_network` for `H = W = 128` is
126 after Conv1, 63 after AvgPool, 61 after Conv2, 30 after AvgPool, 14 after
Conv3 (stride 2) and 7 after MaxPool, for heights and widths alike. -/
theorem cnn_network_dims_128 :
    (cnn_network_dims 128 128).h1 = 126 ∧ (cnn_network_dims 128 128).w1 = 126 ∧
    (cnn_network_dims 128 128).h2 = 63 ∧ (cnn_network_dims 128 128).w2 = 63 ∧
    (cnn_network_dims 128 128).h3 = 61 ∧ (cnn_network_dims 128 128).w3 = 61 ∧
    (cnn_network_dims 128 128).h4 = 30 ∧ (cnn_network_dims 128 128).w4 = 30 ∧
    (cnn_network_dims 128 128).h5 = 14 ∧ (cnn_network_dims 128 128).w5 = 14 ∧
    (cnn_network_dims 128 128).h6 = 7 ∧ (cnn_network_dims 128 128).w6 = 7 := by
  refine ⟨?_, ?_, ?_, ?_, ?_, ?_, ?_, ?_, ?_, ?_, ?_, ?_⟩ <;> decide

/-- C12 (the code departs from the claim): for the 128x128 input the
dimensions `cnn_network` computes after MaxPool are `h6 = w6 = 7`, so the
MaxPool stage produces `CONV3_OUT_CH * h6 * w6 = 32 * 7 * 7 = 1568` elements,
not `FC1_IN = 1024`; the `flatten<CONV3_OUT_CH, 8, 4>` call is what has
`32 * 8 * 4 = 1024` elements. -/
theorem flatten_size_mismatch :
    (cnn_network_dims 128 128).h6 = 7 ∧ (cnn_network_dims 128 128).w6 = 7 ∧
    (CONV3_OUT_CH : Int) * (cnn_network_dims 128 128).h6 * (cnn_network_dims 128 128).w6
      = 1568 ∧
    (CONV3_OUT_CH : Int) * (cnn_network_dims 128 128).h6 * (cnn_network_dims 128 128).w6
      ≠ (FC1_IN : Int) ∧
    CONV3_OUT_CH * 8 * 4 = FC1_IN ∧ FC1_IN = 1024 := by
  refine ⟨?_, ?_, ?_, ?_, ?_, ?_⟩ <;> decide

/-! ## Dropout -/

theorem dropout_cell (FEATURES : Nat) (input output : Nat → Int) (x : Nat) :
    dropout FEATURES input output x = if x < FEATURES then input x else output x := by
  unfold dropout
  exact forLoop_write1 input _ _ _

/-- C14: `dropout` is the identity at inference: for every input vector and
every `i < FEATURES`, `output[i] = input[i]`. -/
theorem dropout_identity (FEATURES : Nat) (input output : Nat → Int) (i : Nat)
    (hi : i < FEATURES) : dropout FEATURES input output i = input i := by
  rw [dropout_cell, if_pos hi]

theorem dropout_identity_witness :
    2 < 4 ∧ dropout 4 (fun i => ((i : Nat) : Int) - 7) (fun _ => 99) 2
      = (fun i => ((i : Nat) : Int) - 7) 2 :=
  ⟨by decide, dropout_identity 4 (fun i => ((i : Nat) : Int) - 7) (fun _ => 99) 2 (by decide)⟩

/-! ## Input conversion -/

/-- Three nested loops of stores `s[a][b][c] = f a b c`, for any array layout
read through `get` and written through `store`, fill exactly the cells inside
the three bounds and leave the others as they were. -/
theorem forLoop3_store {S : Type} (get : S → Nat → Nat → Nat → Int)
    (store : S → Nat → Nat → Nat → Int → S)
    (hstore : ∀ s a b c v x y z,
      get (store s a b c v) x y z = if x = a ∧ y = b ∧ z = c then v else get s x y z)
    (f : Nat → Nat → Nat → Int) (A B C : Nat) (s : S) (x y z : Nat) :
    get (forLoop A (fun a s => forLoop B (fun b s =>
        forLoop C (fun c s => store s a b c (f a b c)) s) s) s) x y z
      = if x < A ∧ y < B ∧ z < C then f x y z else get s x y z := by
  have l1 : ∀ (a b n : Nat) (s : S) (x y z : Nat),
      get (forLoop n (fun c s => store s a b c (f a b c)) s) x y z
        = if x = a ∧ y = b ∧ z < n then f x y z else get s x y z := by
    intro a b n
    induction n with
    | zero => intro s x y z; simp [forLoop]
    | succ n ih =>
      intro s x y z
      rw [forLoop_succ, hstore, ih]
      by_cases h : x = a ∧ y = b ∧ z = n
      · obtain ⟨rfl, rfl, rfl⟩ := h
        simp
      · rw [if_neg h]
        by_cases h2 : x = a ∧ y = b ∧ z < n
        · rw [if_pos h2, if_pos ⟨h2.1, h2.2.1, Nat.lt_succ_of_lt h2.2.2⟩]
        · rw [if_neg h2, if_neg]
          rintro ⟨h3, h4, h5⟩
          rcases Nat.lt_succ_iff_lt_or_eq.mp h5 with h6 | h6
          · exact h2 ⟨h3, h4, h6⟩
          · exact h ⟨h3, h4, h6⟩
  have l2 : ∀ (a n : Nat) (s : S) (x y z : Nat),
      get (forLoop n (fun b s => forLoop C (fun c s => store s a b c (f a b c)) s) s) x y z
        = if x = a ∧ y < n ∧ z < C then f x y z else get s x y z := by
    intro a n
    induction n with
    | zero => intro s x y z; simp [forLoop]
    | succ n ih =>
      intro s x y z
      rw [forLoop_succ, l1, ih]
      by_cases h : x = a ∧ y = n ∧ z < C
      · rw [if_pos h, if_pos ⟨h.1, by omega, h.2.2⟩]
      · rw [if_neg h]
        by_cases h2 : x = a ∧ y < n ∧ z < C
        · rw [if_pos h2, if_pos ⟨h2.1, Nat.lt_succ_of_lt h2.2.1, h2.2.2⟩]
        · rw [if_neg h2, if_neg]
          rintro ⟨h3, h4, h5⟩
          rcases Nat.lt_succ_iff_lt_or_eq.mp h4 with h6 | h6
          · exact h2 ⟨h3, h6, h5⟩
          · exact h ⟨h3, h6, h5⟩
  induction A generalizing s x y z with
  | zero => simp [forLoop]
  | succ n ih =>
    rw [forLoop_succ, l2, ih]
    by_cases h : x = n ∧ y < B ∧ z < C
    · rw [if_pos h, if_pos ⟨by omega, h.2.1, h.2.2⟩]
    · rw [if_neg h]
      by_cases h2 : x < n ∧ y < B ∧ z < C
      · rw [if_pos h2, if_pos ⟨Nat.lt_succ_of_lt h2.1, h2.2.1, h2.2.2⟩]
      · rw [if_neg h2, if_neg]
        rintro ⟨h3, h4, h5⟩
        rcases Nat.lt_succ_iff_lt_or_eq.mp h3 with h6 | h6
        · exact h2 ⟨h6, h4, h5⟩
        · exact h ⟨h6, h4, h5⟩

/-- The HWC-to-CHW conversion writes `(data_t)(byte - 128)` into every cell
`[c][h][w]` with `h < H`, `w < W`, `c < 3` and leaves the other cells alone. -/
theorem load_embedded_input_cell (input_data : Nat → Int) (input : Tensor) (H W : Nat)
    (c h w : Nat) :
    (load_embedded_input input_data input H W).2 c h w
      = if h < H ∧ w < W ∧ c < 3
        then data_t (input_data ((h * W * 3) + (w * 3) + c) - 128)
        else input c h w := by
  unfold load_embedded_input
  exact forLoop3_store (fun (s : Tensor) a b k => s k a b)
    (fun (s : Tensor) a b k v => write3 s k a b v)
    (fun s a b k v x y z => by
      show write3 s k a b v z x y = if x = a ∧ y = b ∧ z = k then v else s z x y
      unfold write3
      by_cases hc : x = a ∧ y = b ∧ z = k
      · rw [if_pos hc, if_pos (show z = k ∧ x = a ∧ y = b from ⟨hc.2.2, hc.1, hc.2.1⟩)]
      · rw [if_neg hc, if_neg (show ¬ (z = k ∧ x = a ∧ y = b) from
          fun hh => hc ⟨hh.2.1, hh.2.2, hh.1⟩)])
    (fun a b k => data_t (input_data ((a * W * 3) + (b * 3) + k) - 128)) H W 3 input h w c

/-- C15: `load_embedded_input` converts HWC unsigned bytes to CHW signed
samples. With every byte in [0, 255], for every `h < H`, `w < W`, `c < 3`:
`input[c][h][w] = input_data[(h*W + w)*3 + c] - 128`, the value lies in
[-128, 127] so the 8-bit cast does not wrap; byte 0 maps to -128, byte 255 to
127, and the map preserves order. -/
theorem load_embedded_input_converts (input_data : Nat → Int) (input : Tensor)
    (H W h w c : Nat) (hbytes : ∀ k, 0 ≤ input_data k ∧ input_data k ≤ 255)
    (hh : h < H) (hw : w < W) (hc : c < 3) :
    (load_embedded_input input_data input H W).2 c h w
      = input_data ((h * W + w) * 3 + c) - 128 ∧
    isData ((load_embedded_input input_data input H W).2 c h w) ∧
    (load_embedded_input input_data input H W).1 = true ∧
    data_t (0 - 128) = -128 ∧ data_t (255 - 128) = 127 ∧
    (∀ b1 b2 : Int, 0 ≤ b1 → b1 ≤ b2 → b2 ≤ 255 →
      data_t (b1 - 128) ≤ data_t (b2 - 128)) := by
  have hidx : (h * W * 3) + (w * 3) + c = (h * W + w) * 3 + c := by ring
  have hb := hbytes ((h * W + w) * 3 + c)
  have hd : isData (input_data ((h * W + w) * 3 + c) - 128) := by
    unfold isData
    omega
  have key : (load_embedded_input input_data input H W).2 c h w
      = input_data ((h * W + w) * 3 + c) - 128 := by
    rw [load_embedded_input_cell, if_pos ⟨hh, hw, hc⟩, hidx, data_t_of_isData hd]
  refine ⟨key, ?_, rfl, by decide, by decide, ?_⟩
  · rw [key]
    exact hd
  · intro b1 b2 h1 h2 h3
    unfold data_t
    omega

theorem load_embedded_input_converts_witness :
    ((∀ k : Nat, (0 : Int) ≤ (fun k => (((k * 37) % 256 : Nat) : Int)) k
        ∧ (fun k => (((k * 37) % 256 : Nat) : Int)) k ≤ 255) ∧ 1 < 2 ∧ 0 < 2 ∧ 2 < 3) ∧
    (load_embedded_input (fun k => (((k * 37) % 256 : Nat) : Int)) (fun _ _ _ => 0) 2 2).2 2 1 0
      = (fun k => (((k * 37) % 256 : Nat) : Int)) ((1 * 2 + 0) * 3 + 2) - 128 ∧
    (load_embedded_input (fun k => (((k * 37) % 256 : Nat) : Int)) (fun _ _ _ => 0) 2 2).2 2 1 0
      = -88 :=
  have hb : ∀ k : Nat, (0 : Int) ≤ (fun k => (((k * 37) % 256 : Nat) : Int)) k
      ∧ (fun k => (((k * 37) % 256 : Nat) : Int)) k ≤ 255 := by
    intro k
    dsimp only
    omega
  ⟨⟨hb, by decide, by decide, by decide⟩,
    (load_embedded_input_converts (fun k => (((k * 37) % 256 : Nat) : Int)) (fun _ _ _ => 0)
      2 2 1 0 2 hb (by decide) (by decide) (by decide)).1,
    rfl⟩

/-! ## Average pooling stays in range -/

theorem sum_range_between (f : Nat → Int) (lo hi : Int) (n : Nat)
    (h : ∀ i, i < n → lo ≤ f i ∧ f i ≤ hi) :
    (n : Int) * lo ≤ ∑ i ∈ Finset.range n, f i ∧ ∑ i ∈ Finset.range n, f i ≤ (n : Int) * hi := by
  induction n with
  | zero => simp
  | succ n ih =>
    rw [Finset.sum_range_succ]
    have h1 := h n (Nat.lt_succ_self n)
    have h2 := ih (fun i hi => h i (Nat.lt_succ_of_lt hi))
    push_cast
    constructor <;> linarith [h2.1, h2.2, h1.1, h1.2]

/-- A window whose samples lie between `lo` and `hi` has a sum between
`lo * n` and `hi * n`, `n = POOL_SIZE^2` being the number of samples. -/
theorem window_sum_between (POOL_SIZE : Nat) (f : Nat → Nat → Int) (lo hi : Int)
    (hf : ∀ ph pw, ph < POOL_SIZE → pw < POOL_SIZE → lo ≤ f ph pw ∧ f ph pw ≤ hi) :
    lo * ((POOL_SIZE : Int) * (POOL_SIZE : Int))
        ≤ ∑ ph ∈ Finset.range POOL_SIZE, ∑ pw ∈ Finset.range POOL_SIZE, f ph pw ∧
      ∑ ph ∈ Finset.range POOL_SIZE, ∑ pw ∈ Finset.range POOL_SIZE, f ph pw
        ≤ hi * ((POOL_SIZE : Int) * (POOL_SIZE : Int)) := by
  have h1 : ∀ ph, ph < POOL_SIZE →
      (POOL_SIZE : Int) * lo ≤ ∑ pw ∈ Finset.range POOL_SIZE, f ph pw ∧
      ∑ pw ∈ Finset.range POOL_SIZE, f ph pw ≤ (POOL_SIZE : Int) * hi :=
    fun ph hph => sum_range_between _ _ _ POOL_SIZE (fun pw hpw => hf ph pw hph hpw)
  have h2 := sum_range_between _ _ _ POOL_SIZE h1
  constructor <;> linarith [h2.1, h2.2]

/-- Truncating division by a positive divisor keeps integer bounds of the
exact quotient: `lo * d <= s <= hi * d` gives `lo <= s / d <= hi`. -/
theorem tdiv_between (s d lo hi : Int) (hd : 0 < d) (h1 : lo * d ≤ s) (h2 : s ≤ hi * d) :
    lo ≤ Int.tdiv s d ∧ Int.tdiv s d ≤ hi := by
  rcases lt_or_le s 0 with hs | hs
  · have e : Int.tdiv s d = -((-s) / d) := by
      have := Int.neg_tdiv (-s) d
      rw [neg_neg] at this
      rw [this, Int.tdiv_eq_ediv (by omega) (by omega)]
    have h3 : (-s) / d ≤ -lo := Int.ediv_le_of_le_mul hd (by linarith)
    have h4 : -hi ≤ (-s) / d := Int.le_ediv_of_mul_le hd (by linarith)
    rw [e]
    constructor <;> omega
  · have e : Int.tdiv s d = s / d := Int.tdiv_eq_ediv hs (by omega)
    have h3 : s / d ≤ hi := Int.ediv_le_of_le_mul hd h2
    have h4 : lo ≤ s / d := Int.le_ediv_of_mul_le hd h1
    rw [e]
    constructor <;> omega

/-- C19: `avg_pool` needs no saturation. For every `POOL_SIZE >= 1` and every
window of `POOL_SIZE^2` samples in [-128, 127], lying between `lo` and `hi`
(in particular the window's minimum and maximum), the truncated quotient
`sum / POOL_SIZE^2` lies in [-128, 127] and between `lo` and `hi`, so the cast
to the 8-bit data type returns it unchanged; and when the rows of the image
fit the buffer (`H <= MAX_H`) this quotient is what `avg_pool` stores. -/
theorem avg_pool_no_saturation (CHANNELS POOL_SIZE : Nat) (input output : Tensor)
    (H W c oh ow : Nat) (lo hi : Int) (hP : 1 ≤ POOL_SIZE)
    (hdata : ∀ ph pw, ph < POOL_SIZE → pw < POOL_SIZE →
      isData (input c (oh * POOL_SIZE + ph) (ow * POOL_SIZE + pw)))
    (hbetween : ∀ ph pw, ph < POOL_SIZE → pw < POOL_SIZE →
      lo ≤ input c (oh * POOL_SIZE + ph) (ow * POOL_SIZE + pw) ∧
      input c (oh * POOL_SIZE + ph) (ow * POOL_SIZE + pw) ≤ hi) :
    isData (Int.tdiv
      (∑ ph ∈ Finset.range POOL_SIZE, ∑ pw ∈ Finset.range POOL_SIZE,
        input c (oh * POOL_SIZE + ph) (ow * POOL_SIZE + pw))
      ((POOL_SIZE : Int) * (POOL_SIZE : Int))) ∧
    (lo ≤ Int.tdiv
      (∑ ph ∈ Finset.range POOL_SIZE, ∑ pw ∈ Finset.range POOL_SIZE,
        input c (oh * POOL_SIZE + ph) (ow * POOL_SIZE + pw))
      ((POOL_SIZE : Int) * (POOL_SIZE : Int)) ∧
     Int.tdiv
      (∑ ph ∈ Finset.range POOL_SIZE, ∑ pw ∈ Finset.range POOL_SIZE,
        input c (oh * POOL_SIZE + ph) (ow * POOL_SIZE + pw))
      ((POOL_SIZE : Int) * (POOL_SIZE : Int)) ≤ hi) ∧
    data_t (Int.tdiv
      (∑ ph ∈ Finset.range POOL_SIZE, ∑ pw ∈ Finset.range POOL_SIZE,
        input c (oh * POOL_SIZE + ph) (ow * POOL_SIZE + pw))
      ((POOL_SIZE : Int) * (POOL_SIZE : Int)))
      = Int.tdiv
        (∑ ph ∈ Finset.range POOL_SIZE, ∑ pw ∈ Finset.range POOL_SIZE,
          input c (oh * POOL_SIZE + ph) (ow * POOL_SIZE + pw))
        ((POOL_SIZE : Int) * (POOL_SIZE : Int)) ∧
    (H ≤ MAX_H → c < CHANNELS → oh < H / POOL_SIZE → ow < W / POOL_SIZE →
      avg_pool CHANNELS POOL_SIZE input output H W c oh ow
        = Int.tdiv
          (∑ ph ∈ Finset.range POOL_SIZE, ∑ pw ∈ Finset.range POOL_SIZE,
            input c (oh * POOL_SIZE + ph) (ow * POOL_SIZE + pw))
          ((POOL_SIZE : Int) * (POOL_SIZE : Int))) := by
  have hPP : (0 : Int) < (POOL_SIZE : Int) * (POOL_SIZE : Int) := by
    have : 0 < POOL_SIZE * POOL_SIZE := Nat.mul_pos hP hP
    exact_mod_cast this
  have hb := window_sum_between POOL_SIZE
    (fun ph pw => input c (oh * POOL_SIZE + ph) (ow * POOL_SIZE + pw)) (-128) 127
    (fun ph pw hph hpw => hdata ph pw hph hpw)
  have hq := tdiv_between _ _ (-128) 127 hPP hb.1 hb.2
  have hb2 := window_sum_between POOL_SIZE
    (fun ph pw => input c (oh * POOL_SIZE + ph) (ow * POOL_SIZE + pw)) lo hi hbetween
  have hq2 := tdiv_between _ _ lo hi hPP hb2.1 hb2.2
  refine ⟨hq, hq2, data_t_of_isData hq, fun hH hc hoh how => ?_⟩
  have hPH : POOL_SIZE ≤ 128 := by
    have h1 : 0 < H / POOL_SIZE := by omega
    have h2 : POOL_SIZE ≤ H := by
      by_contra hlt
      rw [Nat.div_eq_of_lt (by omega)] at h1
      exact absurd h1 (by decide)
    unfold MAX_H at hH
    omega
  have hPP2 : (POOL_SIZE : Int) * (POOL_SIZE : Int) ≤ 16384 := by
    have : POOL_SIZE * POOL_SIZE ≤ 128 * 128 := Nat.mul_le_mul hPH hPH
    exact_mod_cast this
  have hacc : isAcc (∑ ph ∈ Finset.range POOL_SIZE, ∑ pw ∈ Finset.range POOL_SIZE,
      input c (oh * POOL_SIZE + ph) (ow * POOL_SIZE + pw)) := by
    unfold isAcc
    constructor <;> linarith [hb.1, hb.2]
  rw [avg_pool_cell, if_pos ⟨hc, hoh, how⟩, avg_pool_acc_eq, acc_t_of_isAcc hacc,
    data_t_of_isData hq]

theorem avg_pool_no_saturation_witness :
    (1 ≤ 2 ∧
      (∀ ph pw : Nat, ph < 2 → pw < 2 →
        isData ((fun _ r k => (((r + k) % 5 : Nat) : Int) - 4) 0 (1 * 2 + ph) (0 * 2 + pw))) ∧
      (∀ ph pw : Nat, ph < 2 → pw < 2 →
        (-2 : Int) ≤ (fun _ r k => (((r + k) % 5 : Nat) : Int) - 4) 0 (1 * 2 + ph) (0 * 2 + pw) ∧
        (fun _ r k => (((r + k) % 5 : Nat) : Int) - 4) 0 (1 * 2 + ph) (0 * 2 + pw) ≤ 0)) ∧
    ((-2 : Int) ≤ Int.tdiv
      (∑ ph ∈ Finset.range 2, ∑ pw ∈ Finset.range 2,
        (fun _ r k => (((r + k) % 5 : Nat) : Int) - 4) 0 (1 * 2 + ph) (0 * 2 + pw))
      (((2 : Nat) : Int) * ((2 : Nat) : Int)) ∧
     Int.tdiv
      (∑ ph ∈ Finset.range 2, ∑ pw ∈ Finset.range 2,
        (fun _ r k => (((r + k) % 5 : Nat) : Int) - 4) 0 (1 * 2 + ph) (0 * 2 + pw))
      (((2 : Nat) : Int) * ((2 : Nat) : Int)) ≤ 0) ∧
    avg_pool 1 2 (fun _ r k => (((r + k) % 5 : Nat) : Int) - 4) (fun _ _ _ => 0) 4 2 0 1 0 = -1 :=
  have hd : ∀ ph pw : Nat, ph < 2 → pw < 2 →
      isData ((fun _ r k => (((r + k) % 5 : Nat) : Int) - 4) 0 (1 * 2 + ph) (0 * 2 + pw)) := by
    intro ph pw _ _
    unfold isData
    dsimp only
    omega
  have hb : ∀ ph pw : Nat, ph < 2 → pw < 2 →
      (-2 : Int) ≤ (fun _ r k => (((r + k) % 5 : Nat) : Int) - 4) 0 (1 * 2 + ph) (0 * 2 + pw) ∧
      (fun _ r k => (((r + k) % 5 : Nat) : Int) - 4) 0 (1 * 2 + ph) (0 * 2 + pw) ≤ 0 := by
    intro ph pw h1 h2
    dsimp only
    omega
  ⟨⟨by decide, hd, hb⟩,
    (avg_pool_no_saturation 1 2 (fun _ r k => (((r + k) % 5 : Nat) : Int) - 4)
      (fun _ _ _ => 0) 4 2 0 1 0 (-2) 0 (by decide) hd hb).2.1,
    rfl⟩

/-! ## Output grid of the streaming convolution -/

theorem forLoop_append_length (g : Nat → Int) (n : Nat) (out : List Int) :
    (forLoop n (fun oc out => out ++ [g oc]) out).length = out.length + n := by
  induction n with
  | zero => rfl
  | succ n ih =>
    rw [forLoop_succ, List.length_append, ih]
    rfl

/-- A loop whose body at index `i` raises a measure of the state by `g i`
raises it by the sum of the `g i`. -/
theorem forLoop_measure {S : Type} (μ : S → Nat) (g : Nat → Nat) (body : Nat → S → S)
    (h : ∀ i s, μ (body i s) = μ s + g i) (n : Nat) (s : S) :
    μ (forLoop n body s) = μ s + ∑ i ∈ Finset.range n, g i := by
  induction n with
  | zero => simp [forLoop]
  | succ n ih => rw [forLoop_succ, h, ih, Finset.sum_range_succ, Nat.add_assoc]

/-- One pixel step of `conv_layer_stream` writes `OUT_CH` values when the row
and the column are valid and the channel is the last one, and none otherwise. -/
theorem conv_stream_step_length (IN_CH OUT_CH K STRIDE : Nat) (weights : ConvWeights)
    (ch row col : Nat) (st : StreamState) :
    (conv_stream_step IN_CH OUT_CH K STRIDE weights ch row col st).out_stream.length
      = st.out_stream.length
        + if (stream_valid K STRIDE row && stream_valid K STRIDE col) = true ∧ ch + 1 = IN_CH
          then OUT_CH else 0 := by
  cases hv : (stream_valid K STRIDE row && stream_valid K STRIDE col)
  · have hv2 := hv
    unfold stream_valid at hv2
    simp only [conv_stream_step, hv2]
    simp
  · have hv2 := hv
    unfold stream_valid at hv2
    simp only [conv_stream_step, hv2]
    by_cases hc : ch + 1 = IN_CH
    · simp only [hc, if_true, and_self]
      exact forLoop_append_length _ _ _
    · simp [hc]

theorem stream_valid_stride1 (x : Nat) : stream_valid 3 1 x = true ↔ 2 ≤ x := by
  simp [stream_valid]

theorem stream_valid_stride2 (x : Nat) :
    stream_valid 3 2 x = true ↔ (2 ≤ x ∧ (x + 1 - 3) % 2 = 0) := by
  simp [stream_valid]

theorem conv_out_size_three_stride1 (N : Nat) (hN : 3 ≤ N) :
    (conv_out_size (N : Int) 3 ((1 : Nat) : Int) 0).toNat = N - 2 := by
  unfold conv_out_size
  rw [Int.tdiv_eq_ediv (by omega) (by decide)]
  omega

theorem conv_out_size_three_stride2 (N : Nat) (hN : 3 ≤ N) :
    (conv_out_size (N : Int) 3 ((2 : Nat) : Int) 0).toNat = (N - 3) / 2 + 1 := by
  unfold conv_out_size
  rw [Int.tdiv_eq_ediv (by omega) (by decide)]
  omega

/-- The number of valid coordinates below `N` is the output size. -/
theorem stream_valid_count (STRIDE N : Nat) (hS : STRIDE = 1 ∨ STRIDE = 2) (hN : 3 ≤ N) :
    ∑ x ∈ Finset.range N, (if stream_valid 3 STRIDE x = true then 1 else 0)
      = (conv_out_size (N : Int) 3 (STRIDE : Int) 0).toNat := by
  rcases hS with rfl | rfl
  · have key : ∀ n, ∑ x ∈ Finset.range n, (if stream_valid 3 1 x = true then 1 else 0)
        = n - 2 := by
      intro n
      induction n with
      | zero => rfl
      | succ n ih =>
        rw [Finset.sum_range_succ, ih]
        by_cases h : 2 ≤ n
        · rw [if_pos ((stream_valid_stride1 n).mpr h)]
          omega
        · rw [if_neg (fun hv => h ((stream_valid_stride1 n).mp hv))]
          omega
    rw [key, conv_out_size_three_stride1 N hN]
  · have key : ∀ n, ∑ x ∈ Finset.range n, (if stream_valid 3 2 x = true then 1 else 0)
        = if n < 3 then 0 else (n - 3) / 2 + 1 := by
      intro n
      induction n with
      | zero => rfl
      | succ n ih =>
        rw [Finset.sum_range_succ, ih]
        by_cases h : 2 ≤ n ∧ (n + 1 - 3) % 2 = 0
        · rw [if_pos ((stream_valid_stride2 n).mpr h)]
          split_ifs <;> omega
        · rw [if_neg (fun hv => h ((stream_valid_stride2 n).mp hv))]
          split_ifs <;> omega
    rw [key, if_neg (by omega), conv_out_size_three_stride2 N hN]

/-- A coordinate below `N` is valid exactly when it is `o * STRIDE + K - 1`
for an output index `o` below the output size. -/
theorem stream_valid_iff_grid (STRIDE N x : Nat) (hS : STRIDE = 1 ∨ STRIDE = 2) (hN : 3 ≤ N)
    (hx : x < N) :
    stream_valid 3 STRIDE x = true ↔
      ∃ o, o < (conv_out_size (N : Int) 3 (STRIDE : Int) 0).toNat ∧ x = o * STRIDE + 3 - 1 := by
  rcases hS with rfl | rfl
  · rw [stream_valid_stride1, conv_out_size_three_stride1 N hN]
    constructor
    · intro h
      exact ⟨x - 2, by omega, by omega⟩
    · rintro ⟨o, _, ho⟩
      omega
  · rw [stream_valid_stride2, conv_out_size_three_stride2 N hN]
    constructor
    · intro h
      exact ⟨(x - 2) / 2, by omega, by omega⟩
    · rintro ⟨o, _, ho⟩
      omega

theorem sum_last_channel (IN_CH : Nat) (h : 1 ≤ IN_CH) (v : Nat) :
    ∑ ch ∈ Finset.range IN_CH, (if ch + 1 = IN_CH then v else 0) = v := by
  obtain ⟨n, rfl⟩ : ∃ n, IN_CH = n + 1 := ⟨IN_CH - 1, by omega⟩
  rw [Finset.sum_range_succ, if_pos rfl, Finset.sum_eq_zero, Nat.zero_add]
  intro ch hch
  have := Finset.mem_range.mp hch
  rw [if_neg (by omega)]

/-- The number of values `conv_layer_stream` writes, for any kernel size and
stride: `OUT_CH` per valid position, when there is at least one channel. -/
theorem conv_layer_stream_length (IN_CH OUT_CH K STRIDE : Nat)
    (in_stream out_stream : List Int) (weights : ConvWeights) (H W : Nat)
    (linebuf0 window0 : Tensor) (hIN : 1 ≤ IN_CH) :
    (conv_layer_stream IN_CH OUT_CH K STRIDE in_stream out_stream weights H W
        linebuf0 window0).out_stream.length
      = out_stream.length
        + OUT_CH * ((∑ row ∈ Finset.range H, (if stream_valid K STRIDE row = true then 1 else 0))
          * (∑ col ∈ Finset.range W, (if stream_valid K STRIDE col = true then 1 else 0))) := by
  unfold conv_layer_stream
  rw [forLoop_measure (fun st : StreamState => st.out_stream.length)
    (fun ch => ∑ row ∈ Finset.range H, ∑ col ∈ Finset.range W,
      (if (stream_valid K STRIDE row && stream_valid K STRIDE col) = true ∧ ch + 1 = IN_CH
        then OUT_CH else 0)) _
    (fun ch s => forLoop_measure (fun st : StreamState => st.out_stream.length)
      (fun row => ∑ col ∈ Finset.range W,
        (if (stream_valid K STRIDE row && stream_valid K STRIDE col) = true ∧ ch + 1 = IN_CH
          then OUT_CH else 0)) _
      (fun row s => forLoop_measure (fun st : StreamState => st.out_stream.length)
        (fun col =>
          (if (stream_valid K STRIDE row && stream_valid K STRIDE col) = true ∧ ch + 1 = IN_CH
            then OUT_CH else 0)) _
        (fun col s => conv_stream_step_length IN_CH OUT_CH K STRIDE weights ch row col s) W s)
      H s)]
  congr 1
  have hterm : ∀ ch row col,
      (if (stream_valid K STRIDE row && stream_valid K STRIDE col) = true ∧ ch + 1 = IN_CH
        then OUT_CH else 0)
      = (if ch + 1 = IN_CH then
          OUT_CH * ((if stream_valid K STRIDE row = true then 1 else 0)
            * (if stream_valid K STRIDE col = true then 1 else 0)) else 0) := by
    intro ch row col
    cases stream_valid K STRIDE row <;> cases stream_valid K STRIDE col <;>
      by_cases hc : ch + 1 = IN_CH <;> simp [hc]
  simp only [hterm]
  have hinner : ∀ ch, (∑ row ∈ Finset.range H, ∑ col ∈ Finset.range W,
      (if ch + 1 = IN_CH then
          OUT_CH * ((if stream_valid K STRIDE row = true then 1 else 0)
            * (if stream_valid K STRIDE col = true then 1 else 0)) else 0))
      = if ch + 1 = IN_CH then
          OUT_CH * ((∑ row ∈ Finset.range H, (if stream_valid K STRIDE row = true then 1 else 0))
            * (∑ col ∈ Finset.range W, (if stream_valid K STRIDE col = true then 1 else 0)))
        else 0 := by
    intro ch
    by_cases hc : ch + 1 = IN_CH
    · simp only [hc, if_true]
      rw [Finset.sum_mul_sum, Finset.mul_sum]
      refine Finset.sum_congr rfl (fun row _ => ?_)
      rw [Finset.mul_sum]
    · simp [hc]
  simp only [hinner]
  exact sum_last_channel IN_CH hIN _

/-- C20: the streaming validity predicate reproduces the output grid. For
`K = 3`, `STRIDE` 1 or 2, at least one input channel and every `H, W >= 3`:
an input position `(row, col)` inside the image passes `valid_row` and
`valid_col` of `conv_layer_stream` exactly when `row = oh*STRIDE + K - 1` and
`col = ow*STRIDE + K - 1` for some `oh < conv_out_size(H, K, STRIDE)` and
`ow < conv_out_size(W, K, STRIDE)`; a pixel step writes `OUT_CH` values at a
valid position of the last channel and none otherwise; hence
`conv_layer_stream` writes exactly `OUT_CH * out_h * out_w` values. -/
theorem stream_valid_reproduces_grid (IN_CH OUT_CH STRIDE H W : Nat)
    (in_stream out_stream : List Int) (weights : ConvWeights) (linebuf0 window0 : Tensor)
    (hS : STRIDE = 1 ∨ STRIDE = 2) (hH : 3 ≤ H) (hW : 3 ≤ W) (hIN : 1 ≤ IN_CH) :
    (∀ row col, row < H → col < W →
      ((stream_valid 3 STRIDE row && stream_valid 3 STRIDE col) = true ↔
        ∃ oh ow, oh < (conv_out_size (H : Int) 3 (STRIDE : Int) 0).toNat ∧
          ow < (conv_out_size (W : Int) 3 (STRIDE : Int) 0).toNat ∧
          row = oh * STRIDE + 3 - 1 ∧ col = ow * STRIDE + 3 - 1)) ∧
    (∀ (ch row col : Nat) (st : StreamState),
      (conv_stream_step IN_CH OUT_CH 3 STRIDE weights ch row col st).out_stream.length
        = st.out_stream.length
          + if (stream_valid 3 STRIDE row && stream_valid 3 STRIDE col) = true ∧ ch + 1 = IN_CH
            then OUT_CH else 0) ∧
    (conv_layer_stream IN_CH OUT_CH 3 STRIDE in_stream out_stream weights H W
        linebuf0 window0).out_stream.length
      = out_stream.length
        + OUT_CH * (conv_out_size (H : Int) 3 (STRIDE : Int) 0).toNat
          * (conv_out_size (W : Int) 3 (STRIDE : Int) 0).toNat := by
  refine ⟨fun row col hrow hcol => ?_,
    fun ch row col st => conv_stream_step_length IN_CH OUT_CH 3 STRIDE weights ch row col st,
    ?_⟩
  · rw [Bool.and_eq_true, stream_valid_iff_grid STRIDE H row hS hH hrow,
      stream_valid_iff_grid STRIDE W col hS hW hcol]
    constructor
    · rintro ⟨⟨oh, h1, h2⟩, ⟨ow, h3, h4⟩⟩
      exact ⟨oh, ow, h1, h3, h2, h4⟩
    · rintro ⟨oh, ow, h1, h3, h2, h4⟩
      exact ⟨⟨oh, h1, h2⟩, ⟨ow, h3, h4⟩⟩
  · rw [conv_layer_stream_length IN_CH OUT_CH 3 STRIDE in_stream out_stream weights H W
        linebuf0 window0 hIN,
      stream_valid_count STRIDE H hS hH, stream_valid_count STRIDE W hS hW, Nat.mul_assoc]

theorem stream_valid_reproduces_grid_witness :
    ((2 = 1 ∨ 2 = 2) ∧ 3 ≤ 5 ∧ 3 ≤ 6 ∧ 1 ≤ 2) ∧
    (conv_layer_stream 2 3 3 2 (stream_of 2 5 6 (fun _ r k => ((r + k : Nat) : Int))) []
        (fun _ _ _ _ => 1) 5 6 (fun _ _ _ => 0) (fun _ _ _ => 0)).out_stream.length = 12 :=
  ⟨⟨by decide, by decide, by decide, by decide⟩,
    (stream_valid_reproduces_grid 2 3 2 5 6 (stream_of 2 5 6 (fun _ r k => ((r + k : Nat) : Int)))
      [] (fun _ _ _ _ => 1) (fun _ _ _ => 0) (fun _ _ _ => 0)
      (by decide) (by decide) (by decide) (by decide)).2.2.trans (by decide)⟩

/-! ## Flatten -/

/-- A loop whose body at index `a` stores a run of `m` values stores a run of
`A * m` values, the value at position `j` being value `j % m` of body
`j / m`. -/
theorem storesRun_forLoop (body : Nat → Nat × (Nat → Int) → Nat × (Nat → Int))
    (m : Nat) (val : Nat → Nat → Int) (hbody : ∀ a, StoresRun (body a) m (val a)) (A : Nat) :
    StoresRun (forLoop A body) (A * m) (fun j => val (j / m) (j % m)) := by
  induction A with
  | zero =>
    intro p out
    refine ⟨by simp [forLoop], fun k => ?_⟩
    rw [if_neg (by omega)]
    rfl
  | succ A ih =>
    intro p out
    obtain ⟨h1, h2⟩ := ih p out
    obtain ⟨g1, g2⟩ := hbody A (forLoop A body (p, out)).1 (forLoop A body (p, out)).2
    rw [forLoop_succ]
    refine ⟨?_, fun k => ?_⟩
    · rw [g1, h1, Nat.succ_mul, Nat.add_assoc]
    · rw [g2, h1, h2]
      have hsm : (A + 1) * m = A * m + m := Nat.succ_mul A m
      by_cases hk : p + A * m ≤ k ∧ k < p + A * m + m
      · have hm : 0 < m := by omega
        have hkp : k - p = m * A + (k - (p + A * m)) := by
          rw [Nat.mul_comm m A]
          omega
        have hr : k - (p + A * m) < m := by omega
        have hdiv : (k - p) / m = A := by
          rw [hkp, Nat.mul_add_div hm, Nat.div_eq_of_lt hr, Nat.add_zero]
        have hmod : (k - p) % m = k - (p + A * m) := by
          rw [hkp, Nat.mul_add_mod, Nat.mod_eq_of_lt hr]
        rw [if_pos hk, if_pos (by omega)]
        dsimp only
        rw [hdiv, hmod]
      · rw [if_neg hk]
        by_cases hk2 : p ≤ k ∧ k < p + A * m
        · rw [if_pos hk2, if_pos (by omega)]
        · rw [if_neg hk2, if_neg (by omega)]

/-- What `flatten` stores: position `k` below `CHANNELS*H*W` receives the input
cell whose channel, row and column are the mixed-radix digits of `k`; the
other positions keep their value. -/
theorem flatten_cell (CHANNELS H W : Nat) (input : Tensor) (output : Nat → Int) (k : Nat) :
    flatten CHANNELS H W input output k
      = if k < CHANNELS * (H * (W * 1))
        then input (k / (H * (W * 1))) (k % (H * (W * 1)) / (W * 1))
          (k % (H * (W * 1)) % (W * 1) / 1)
        else output k := by
  have h3 := storesRun_forLoop
    (fun c st => forLoop H (fun h st => forLoop W (fun w (st : Nat × (Nat → Int)) =>
      (st.1 + 1, write1 st.2 st.1 (input c h w))) st) st)
    (H * (W * 1)) (fun c j => input c (j / (W * 1)) (j % (W * 1) / 1))
    (fun c => storesRun_forLoop
      (fun h st => forLoop W (fun w (st : Nat × (Nat → Int)) =>
        (st.1 + 1, write1 st.2 st.1 (input c h w))) st)
      (W * 1) (fun h j => input c h (j / 1))
      (fun h => storesRun_forLoop
        (fun w (st : Nat × (Nat → Int)) => (st.1 + 1, write1 st.2 st.1 (input c h w)))
        1 (fun w _ => input c h w)
        (fun w p out => by
          refine ⟨rfl, fun k => ?_⟩
          show write1 out p (input c h w) k = _
          unfold write1
          by_cases hk : k = p
          · rw [if_pos hk, if_pos (by omega)]
          · rw [if_neg hk, if_neg (by omega)])
        W)
      H)
    CHANNELS
  obtain ⟨_, h⟩ := h3 0 output
  unfold flatten
  rw [h k]
  by_cases hk : k < CHANNELS * (H * (W * 1))
  · rw [if_pos hk, if_pos (by omega)]
    rfl
  · rw [if_neg hk, if_neg (by omega)]

/-! ## Repeated inference -/

theorem conv_layer_simple_idem (IN_CH OUT_CH K STRIDE : Nat) (input output : Tensor)
    (weights : ConvWeights) (H W : Nat) :
    conv_layer_simple IN_CH OUT_CH K STRIDE input
        (conv_layer_simple IN_CH OUT_CH K STRIDE input output weights H W) weights H W
      = conv_layer_simple IN_CH OUT_CH K STRIDE input output weights H W := by
  funext x y z
  rw [conv_layer_simple_cell]
  by_cases h : x < OUT_CH ∧ y < (conv_out_size H K STRIDE 0).toNat
      ∧ z < (conv_out_size W K STRIDE 0).toNat
  · rw [if_pos h, conv_layer_simple_cell, if_pos h]
  · rw [if_neg h]

theorem avg_pool_idem (CHANNELS POOL_SIZE : Nat) (input output : Tensor) (H W : Nat) :
    avg_pool CHANNELS POOL_SIZE input (avg_pool CHANNELS POOL_SIZE input output H W) H W
      = avg_pool CHANNELS POOL_SIZE input output H W := by
  funext x y z
  rw [avg_pool_cell]
  by_cases h : x < CHANNELS ∧ y < H / POOL_SIZE ∧ z < W / POOL_SIZE
  · rw [if_pos h, avg_pool_cell, if_pos h]
  · rw [if_neg h]

theorem max_pool_idem (CHANNELS POOL_SIZE : Nat) (input output : Tensor) (H W : Nat) :
    max_pool CHANNELS POOL_SIZE input (max_pool CHANNELS POOL_SIZE input output H W) H W
      = max_pool CHANNELS POOL_SIZE input output H W := by
  funext x y z
  rw [max_pool_cell]
  by_cases h : x < CHANNELS ∧ y < H / POOL_SIZE ∧ z < W / POOL_SIZE
  · rw [if_pos h, max_pool_cell, if_pos h]
  · rw [if_neg h]

theorem flatten_idem (CHANNELS H W : Nat) (input : Tensor) (output : Nat → Int) :
    flatten CHANNELS H W input (flatten CHANNELS H W input output)
      = flatten CHANNELS H W input output := by
  funext k
  rw [flatten_cell]
  by_cases h : k < CHANNELS * (H * (W * 1))
  · rw [if_pos h, flatten_cell, if_pos h]
  · rw [if_neg h]

theorem fc_layer_idem (IN_FEATURES OUT_FEATURES : Nat) (input output : Nat → Int)
    (weights : Nat → Nat → Int) (bias : Nat → Int) (apply_relu : Bool) :
    fc_layer IN_FEATURES OUT_FEATURES input
        (fc_layer IN_FEATURES OUT_FEATURES input output weights bias apply_relu)
        weights bias apply_relu
      = fc_layer IN_FEATURES OUT_FEATURES input output weights bias apply_relu := by
  funext k
  rw [fc_layer_cell]
  by_cases h : k < OUT_FEATURES
  · rw [if_pos h, fc_layer_cell, if_pos h]
  · rw [if_neg h]

theorem dropout_idem (FEATURES : Nat) (input output : Nat → Int) :
    dropout FEATURES input (dropout FEATURES input output) = dropout FEATURES input output := by
  funext k
  rw [dropout_cell]
  by_cases h : k < FEATURES
  · rw [if_pos h, dropout_cell, if_pos h]
  · rw [if_neg h]

/-- The class selection of the testbench reads only the four scores. -/
theorem testbench_argmax_congr (o1 o2 : Nat → Int) (h : ∀ i, i < FC2_OUT → o1 i = o2 i) :
    testbench_argmax o1 = testbench_argmax o2 := by
  have h0 := h 0 (by decide)
  have h1 := h 1 (by decide)
  have h2 := h 2 (by decide)
  have h3 := h 3 (by decide)
  have e : FC2_OUT - 1 = 3 := by decide
  unfold testbench_argmax
  rw [e]
  simp only [forLoop, h0, h1, h2, h3]

/-- A non-positive `int` dimension runs no loop iteration in a layer of the
network, exactly like the dimension 0 it is mapped to: for kernel 3 and
stride 1 or 2 the convolution extent is empty, and the pooling extent
`H / 2` is not positive. -/
theorem nonpositive_dim_runs_nothing (d : Int) (hd : d ≤ 0) :
    (conv_out_size d 3 1 0).toNat = 0 ∧ (conv_out_size d 3 2 0).toNat = 0 ∧
    (conv_out_size (d.toNat : Int) 3 1 0).toNat = 0 ∧
    (conv_out_size (d.toNat : Int) 3 2 0).toNat = 0 ∧
    (Int.tdiv d 2).toNat = 0 ∧ d.toNat / 2 = 0 := by
  have ht : ∀ a : Int, a ≤ -3 → Int.tdiv a 2 ≤ -1 := by
    intro a ha
    have e : Int.tdiv a 2 = -((-a) / 2) := by
      have := Int.neg_tdiv (-a) 2
      rw [neg_neg] at this
      rw [this, Int.tdiv_eq_ediv (by omega) (by decide)]
    rw [e]
    omega
  have ht1 : ∀ a : Int, Int.tdiv a 1 = a := fun a => Int.tdiv_one a
  have ht0 : ∀ a : Int, a ≤ 0 → Int.tdiv a 2 ≤ 0 := by
    intro a ha
    have e : Int.tdiv a 2 = -((-a) / 2) := by
      have := Int.neg_tdiv (-a) 2
      rw [neg_neg] at this
      rw [this, Int.tdiv_eq_ediv (by omega) (by decide)]
    rw [e]
    omega
  have hz : d.toNat = 0 := by omega
  refine ⟨?_, ?_, ?_, ?_, ?_, ?_⟩
  · unfold conv_out_size
    rw [ht1]
    omega
  · unfold conv_out_size
    have := ht (d + 2 * 0 - 3) (by omega)
    omega
  · rw [hz]
    decide
  · rw [hz]
    decide
  · have := ht0 d hd
    omega
  · rw [hz]

/-- C16: repeated runs are stable. For every initial content of the static
buffers and of the output array and every fixed argument set, a second run of
`cnn_network` that starts from what the first run left leaves the same
buffers and the same output array; whatever array the second run writes its
scores to, the 4 output scores are the same both times, and so is the class
index (and maximum) selected by the testbench. -/
theorem cnn_network_repeatable (bufs : NetBuffers) (input : Tensor) (output output2 : Nat → Int)
    (conv1_weights conv2_weights conv3_weights : ConvWeights)
    (fc1_weights fc2_weights : Nat → Nat → Int) (fc1_bias fc2_bias : Nat → Int) (H W : Nat) :
    cnn_network
        (cnn_network bufs input output conv1_weights conv2_weights conv3_weights
          fc1_weights fc2_weights fc1_bias fc2_bias H W).1
        input
        (cnn_network bufs input output conv1_weights conv2_weights conv3_weights
          fc1_weights fc2_weights fc1_bias fc2_bias H W).2
        conv1_weights conv2_weights conv3_weights fc1_weights fc2_weights fc1_bias fc2_bias H W
      = cnn_network bufs input output conv1_weights conv2_weights conv3_weights
          fc1_weights fc2_weights fc1_bias fc2_bias H W ∧
    (∀ i, i < FC2_OUT →
      (cnn_network
        (cnn_network bufs input output conv1_weights conv2_weights conv3_weights
          fc1_weights fc2_weights fc1_bias fc2_bias H W).1
        input output2
        conv1_weights conv2_weights conv3_weights fc1_weights fc2_weights fc1_bias fc2_bias
        H W).2 i
      = (cnn_network bufs input output conv1_weights conv2_weights conv3_weights
          fc1_weights fc2_weights fc1_bias fc2_bias H W).2 i) ∧
    testbench_argmax
      (cnn_network
        (cnn_network bufs input output conv1_weights conv2_weights conv3_weights
          fc1_weights fc2_weights fc1_bias fc2_bias H W).1
        input output2
        conv1_weights conv2_weights conv3_weights fc1_weights fc2_weights fc1_bias fc2_bias
        H W).2
      = testbench_argmax
        (cnn_network bufs input output conv1_weights conv2_weights conv3_weights
          fc1_weights fc2_weights fc1_bias fc2_bias H W).2 := by
  have hscores : ∀ i, i < FC2_OUT →
      (cnn_network
        (cnn_network bufs input output conv1_weights conv2_weights conv3_weights
          fc1_weights fc2_weights fc1_bias fc2_bias H W).1
        input output2
        conv1_weights conv2_weights conv3_weights fc1_weights fc2_weights fc1_bias fc2_bias
        H W).2 i
      = (cnn_network bufs input output conv1_weights conv2_weights conv3_weights
          fc1_weights fc2_weights fc1_bias fc2_bias H W).2 i := by
    intro i hi
    simp only [cnn_network, conv_layer_simple_idem, avg_pool_idem, max_pool_idem,
      flatten_idem, fc_layer_idem, dropout_idem]
    rw [fc_layer_cell, if_pos hi, fc_layer_cell, if_pos hi]
  refine ⟨?_, hscores, testbench_argmax_congr _ _ hscores⟩
  simp only [cnn_network, conv_layer_simple_idem, avg_pool_idem, max_pool_idem,
    flatten_idem, fc_layer_idem, dropout_idem]

/-! ## Buffers read by the network -/

theorem sum_select (n j : Nat) (hj : j < n) (f : Nat → Int) :
    ∑ i ∈ Finset.range n, f i * (if i = j then 1 else 0) = f j := by
  rw [Finset.sum_eq_single j]
  · rw [if_pos rfl, mul_one]
  · intro i _ hij
    rw [if_neg hij, mul_zero]
  · intro hn
    exact absurd (Finset.mem_range.mpr hj) hn

/-- In a 128x128 inference the MaxPool stage leaves row 7 of `pool3_out` as it
found it, and `flatten<CONV3_OUT_CH, 8, 4>` copies that row. -/
theorem cnn_network_flattened_row7 (bufs : NetBuffers) (input : Tensor)
    (output : Nat → Int) (conv1_weights conv2_weights conv3_weights : ConvWeights)
    (fc1_weights fc2_weights : Nat → Nat → Int) (fc1_bias fc2_bias : Nat → Int)
    (c w : Nat) (hc : c < 32) (hw : w < 4) :
    (cnn_network bufs input output conv1_weights conv2_weights conv3_weights
        fc1_weights fc2_weights fc1_bias fc2_bias 128 128).1.flattened ((c * 8 + 7) * 4 + w)
      = bufs.pool3_out c 7 w := by
  have h5 : (cnn_network_dims ((128 : Nat) : Int) ((128 : Nat) : Int)).h5.toNat = 14 := by decide
  have w5 : (cnn_network_dims ((128 : Nat) : Int) ((128 : Nat) : Int)).w5.toNat = 14 := by decide
  simp only [cnn_network]
  rw [flatten_cell, h5, w5]
  have e32 : CONV3_OUT_CH = 32 := rfl
  have e2 : POOL3_SIZE = 2 := rfl
  rw [e32, e2, if_pos (by omega), max_pool_cell, if_neg (by omega)]
  congr 1 <;> omega

/-- C17 (the code departs from the claim): in a `cnn_network` call with
`H = W = 128`, whatever the input, the convolution weights and the buffers,
`flatten` reads the cells `pool3_out[c][7][w]` (`c < 32`, `w < 4`), which the
MaxPool stage of that call did not write: `flattened[(c*8+7)*4+w]` is the
content `pool3_out[c][7][w]` had before the call. With FC1 weights selecting
`flattened[28]`, FC2 weights selecting `fc1_out[0]` and zero biases,
`output[0]` is `relu` of the old `pool3_out[0][7][0]`: 0 if that cell held 0
and 5 if it held 5. -/
theorem cnn_network_reads_unwritten (bufs : NetBuffers) (input : Tensor)
    (output : Nat → Int) (conv1_weights conv2_weights conv3_weights : ConvWeights)
    (fc1_weights fc2_weights : Nat → Nat → Int) (fc1_bias fc2_bias : Nat → Int) :
    (∀ c w, c < 32 → w < 4 →
      (cnn_network bufs input output conv1_weights conv2_weights conv3_weights
          fc1_weights fc2_weights fc1_bias fc2_bias 128 128).1.flattened ((c * 8 + 7) * 4 + w)
        = bufs.pool3_out c 7 w) ∧
    (cnn_network bufs input output conv1_weights conv2_weights conv3_weights
        (fun o i => if i = 28 then (if o = 0 then 1 else 0) else 0)
        (fun o i => if i = 0 then (if o = 0 then 1 else 0) else 0)
        (fun _ => 0) (fun _ => 0) 128 128).2 0
      = relu (acc_t (bufs.pool3_out 0 7 0)) ∧
    relu (acc_t 0) = 0 ∧ relu (acc_t 5) = 5 := by
  refine ⟨fun c w hc hw => cnn_network_flattened_row7 bufs input output conv1_weights
    conv2_weights conv3_weights fc1_weights fc2_weights fc1_bias fc2_bias c w hc hw,
    ?_, by decide, by decide⟩
  have hrow := cnn_network_flattened_row7 bufs input output conv1_weights
    conv2_weights conv3_weights (fun o i => if i = 28 then (if o = 0 then 1 else 0) else 0)
    (fun o i => if i = 0 then (if o = 0 then 1 else 0) else 0)
    (fun _ => 0) (fun _ => 0) 0 0 (by decide) (by decide)
  simp only [cnn_network] at hrow ⊢
  have z : isAcc ((fun _ : Nat => (0 : Int)) 0) := by decide
  rw [fc_layer_cell, if_pos (by decide), fc_acc_eq FC2_IN _ _ (fun _ => 0) 0 z]
  have s2 : ∀ f : Nat → Int,
      ∑ i ∈ Finset.range FC2_IN, f i * (if i = 0 then (if (0 : Nat) = 0 then 1 else 0) else 0)
        = f 0 := by
    intro f
    simp only [if_true]
    exact sum_select FC2_IN 0 (by decide) f
  have s1 : ∀ f : Nat → Int,
      ∑ i ∈ Finset.range FC1_IN, f i * (if i = 28 then (if (0 : Nat) = 0 then 1 else 0) else 0)
        = f 28 := by
    intro f
    simp only [if_true]
    exact sum_select FC1_IN 28 (by decide) f
  rw [s2, dropout_cell, if_pos (by decide), fc_layer_cell, if_pos (by decide),
    fc_acc_eq FC1_IN _ _ (fun _ => 0) 0 z, s1]
  have e28 : (0 * 8 + 7) * 4 + 0 = 28 := by decide
  rw [e28] at hrow
  rw [hrow]
  simp only [zero_add]
  have hr := isData_relu (acc_t (bufs.pool3_out 0 7 0))
  have hacc : isAcc (relu (acc_t (bufs.pool3_out 0 7 0))) := by
    unfold isData at hr
    unfold isAcc
    omega
  rw [fc_activation_eq true, if_pos rfl, acc_t_of_isAcc hacc, fc_activation_eq false,
    if_neg (by decide)]
  unfold isData at hr
  omega

/-! ## The loader and the end of the blob -/

/-- C18 (refuted as stated): the loader has no blob length and no failure
report. Take a blob of 4 elements (all 1) followed in memory by 0 in one case
and by 7 in the other: on a fresh loader `load_bias<8>` returns normally with
the cursor at 8, past the blob, and `bias[5]` is 0 in one case and 7 in the
other, so the element at offset 5 was read. -/
theorem loader_no_bounds_check_counterexample :
    (∀ k : Nat, k < 4 →
      (fun k : Nat => if k < 4 then (1 : Int) else 0) k
        = (fun k : Nat => if k < 4 then (1 : Int) else 7) k) ∧
    ((EmbeddedWeightLoader.mk0 (fun k => if k < 4 then 1 else 0)).load_bias 8
        (fun _ => 0)).1.get_offset = 8 ∧
    ((EmbeddedWeightLoader.mk0 (fun k => if k < 4 then 1 else 0)).load_bias 8
        (fun _ => 0)).2 5 = 0 ∧
    ((EmbeddedWeightLoader.mk0 (fun k => if k < 4 then 1 else 7)).load_bias 8
        (fun _ => 0)).2 5 = 7 ∧
    ((EmbeddedWeightLoader.mk0 (fun k => if k < 4 then 1 else 0)).load_bias 8
        (fun _ => 0)).2 5
      ≠ ((EmbeddedWeightLoader.mk0 (fun k => if k < 4 then 1 else 7)).load_bias 8
        (fun _ => 0)).2 5 := by
  have h1 : ((EmbeddedWeightLoader.mk0 (fun k => if k < 4 then 1 else 0)).load_bias 8
      (fun _ => 0)).2 5 = 0 := rfl
  have h2 : ((EmbeddedWeightLoader.mk0 (fun k => if k < 4 then 1 else 7)).load_bias 8
      (fun _ => 0)).2 5 = 7 := rfl
  refine ⟨fun k hk => ?_, rfl, h1, h2, ?_⟩
  · simp only [hk, if_true]
  · rw [h1, h2]
    decide

/-- Two loaders at the same cursor whose blobs agree on the offsets a
`ConsumesBlob` transformer reads produce the same array. -/
theorem consumesBlob_agree {α ι : Type} (get : α → ι → Int)
    (F : EmbeddedWeightLoader × α → EmbeddedWeightLoader × α)
    (n : Nat) (P : ι → Prop) (g : ι → Nat) (hF : ConsumesBlob get F n P g)
    (hg : ∀ x, P x → g x < n)
    (b1 b2 : Nat → Int) (p L : Nat) (w : α) (hL : L < SIZE_MAX_PLUS_ONE)
    (hagree : ∀ k, k < L → b1 k = b2 k) (hfit : p + n ≤ L) (x : ι) :
    get (F ({ weights_ptr := b1, current_offset := p }, w)).2 x
      = get (F ({ weights_ptr := b2, current_offset := p }, w)).2 x := by
  have hp : p < SIZE_MAX_PLUS_ONE := by omega
  obtain ⟨_, _, h1⟩ := hF { weights_ptr := b1, current_offset := p } w hp
  obtain ⟨_, _, h2⟩ := hF { weights_ptr := b2, current_offset := p } w hp
  by_cases hx : P x
  · have hlt := hg x hx
    rw [(h1 x).1 hx, (h2 x).1 hx]
    show b1 ((p + g x) % SIZE_MAX_PLUS_ONE) = b2 ((p + g x) % SIZE_MAX_PLUS_ONE)
    rw [Nat.mod_eq_of_lt (by omega)]
    exact hagree _ (by omega)
  · rw [(h1 x).2 hx, (h2 x).2 hx]

/-- C18 (amended): the loader performs no bounds check and reports no error;
what keeps a load inside a blob of length `L` is the caller's condition
`cursor + count <= L`. Under it `load_conv_weights`, `load_fc_weights` and
`load_bias` read no element at an offset `>= L` (two memories that agree below
`L` give the same loaded arrays) and leave the cursor at `cursor + count <= L`;
`skip` reads nothing. -/
theorem loader_reads_inside_blob (b1 b2 : Nat → Int) (p L : Nat)
    (hL : L < SIZE_MAX_PLUS_ONE) (hagree : ∀ k, k < L → b1 k = b2 k) :
    (∀ (OUT_CH IN_CH K : Nat) (w : ConvWeights), p + OUT_CH * IN_CH * K * K ≤ L →
      (({ weights_ptr := b1, current_offset := p } : EmbeddedWeightLoader).load_conv_weights
          OUT_CH IN_CH K w).2
        = (({ weights_ptr := b2, current_offset := p } : EmbeddedWeightLoader).load_conv_weights
          OUT_CH IN_CH K w).2 ∧
      (({ weights_ptr := b1, current_offset := p } : EmbeddedWeightLoader).load_conv_weights
          OUT_CH IN_CH K w).1.get_offset = p + OUT_CH * IN_CH * K * K) ∧
    (∀ (OUT_FEATURES IN_FEATURES : Nat) (w : Nat → Nat → Int),
      p + OUT_FEATURES * IN_FEATURES ≤ L →
      (({ weights_ptr := b1, current_offset := p } : EmbeddedWeightLoader).load_fc_weights
          OUT_FEATURES IN_FEATURES w).2
        = (({ weights_ptr := b2, current_offset := p } : EmbeddedWeightLoader).load_fc_weights
          OUT_FEATURES IN_FEATURES w).2 ∧
      (({ weights_ptr := b1, current_offset := p } : EmbeddedWeightLoader).load_fc_weights
          OUT_FEATURES IN_FEATURES w).1.get_offset = p + OUT_FEATURES * IN_FEATURES) ∧
    (∀ (SIZE : Nat) (b : Nat → Int), p + SIZE ≤ L →
      (({ weights_ptr := b1, current_offset := p } : EmbeddedWeightLoader).load_bias SIZE b).2
        = (({ weights_ptr := b2, current_offset := p } : EmbeddedWeightLoader).load_bias
          SIZE b).2 ∧
      (({ weights_ptr := b1, current_offset := p } : EmbeddedWeightLoader).load_bias
          SIZE b).1.get_offset = p + SIZE) ∧
    (∀ n : Nat, p + n ≤ L →
      (({ weights_ptr := b1, current_offset := p } : EmbeddedWeightLoader).skip n).get_offset
        = p + n) := by
  refine ⟨fun OUT_CH IN_CH K w hfit => ⟨?_, ?_⟩, fun OUT_FEATURES IN_FEATURES w hfit => ⟨?_, ?_⟩,
    fun SIZE b hfit => ⟨?_, ?_⟩, fun n hfit => ?_⟩
  · have e : OUT_CH * (IN_CH * (K * (K * 1))) = OUT_CH * IN_CH * K * K := by ring
    funext oc ic kh kw
    exact consumesBlob_agree _ _ _ _ _ (load_conv_weights_consumes OUT_CH IN_CH K)
      (fun x hx => by
        have := conv_index_lt hx.1 hx.2.1 hx.2.2.1 hx.2.2.2
        have e2 : x.1 * (IN_CH * (K * (K * 1)))
            + (x.2.1 * (K * (K * 1)) + (x.2.2.1 * (K * 1) + (x.2.2.2 * 1 + 0)))
            = ((x.1 * IN_CH + x.2.1) * K + x.2.2.1) * K + x.2.2.2 := by ring
        rw [e2, e]
        exact this)
      b1 b2 p L w hL hagree (by rw [e]; exact hfit) (oc, ic, kh, kw)
  · show (EmbeddedWeightLoader.load_conv_weights OUT_CH IN_CH K _ w).1.current_offset = _
    rw [(load_conv_weights_spec OUT_CH IN_CH K _ w (by show p < _; omega)).2.1]
    exact Nat.mod_eq_of_lt (by show p + _ < _; omega)
  · have e : OUT_FEATURES * (IN_FEATURES * 1) = OUT_FEATURES * IN_FEATURES := by ring
    funext o i
    exact consumesBlob_agree _ _ _ _ _ (load_fc_weights_consumes OUT_FEATURES IN_FEATURES)
      (fun x hx => by
        have := row_major_lt hx.1 hx.2
        have e2 : x.1 * (IN_FEATURES * 1) + (x.2 * 1 + 0) = x.1 * IN_FEATURES + x.2 := by ring
        rw [e2, e]
        exact this)
      b1 b2 p L w hL hagree (by rw [e]; exact hfit) (o, i)
  · show (EmbeddedWeightLoader.load_fc_weights OUT_FEATURES IN_FEATURES _ w).1.current_offset = _
    rw [(load_fc_weights_spec OUT_FEATURES IN_FEATURES _ w (by show p < _; omega)).2.1]
    exact Nat.mod_eq_of_lt (by show p + _ < _; omega)
  · funext i
    exact consumesBlob_agree _ _ _ _ _ (load_bias_consumes SIZE)
      (fun x hx => by
        have := hx.1
        omega)
      b1 b2 p L b hL hagree (by omega) i
  · show (EmbeddedWeightLoader.load_bias SIZE _ b).1.current_offset = _
    rw [(load_bias_spec SIZE _ b (by show p < _; omega)).2]
    exact Nat.mod_eq_of_lt (by show p + _ < _; omega)
  · show (p + n) % SIZE_MAX_PLUS_ONE = p + n
    exact Nat.mod_eq_of_lt (by omega)

theorem loader_reads_inside_blob_witness :
    ((6 : Nat) < SIZE_MAX_PLUS_ONE ∧
      (∀ k : Nat, k < 6 → (fun k : Nat => if k < 6 then ((k : Nat) : Int) else 0) k
        = (fun k : Nat => if k < 6 then ((k : Nat) : Int) else 7) k) ∧ 2 + 4 ≤ 6) ∧
    (((EmbeddedWeightLoader.mk (fun k : Nat => if k < 6 then ((k : Nat) : Int) else 0)
          2).load_bias 4 (fun _ => 0)).2
        = ((EmbeddedWeightLoader.mk (fun k : Nat => if k < 6 then ((k : Nat) : Int) else 7)
          2).load_bias 4 (fun _ => 0)).2 ∧
      ((EmbeddedWeightLoader.mk (fun k : Nat => if k < 6 then ((k : Nat) : Int) else 0)
          2).load_bias 4
            (fun _ => 0)).1.get_offset = 2 + 4) :=
  have ha : ∀ k : Nat, k < 6 → (fun k : Nat => if k < 6 then ((k : Nat) : Int) else 0) k
      = (fun k : Nat => if k < 6 then ((k : Nat) : Int) else 7) k := by
    intro k hk
    simp only [hk, if_true]
  ⟨⟨by decide, ha, by decide⟩,
    (loader_reads_inside_blob (fun k : Nat => if k < 6 then ((k : Nat) : Int) else 0)
      (fun k : Nat => if k < 6 then ((k : Nat) : Int) else 7) 2 6 (by decide) ha).2.2.1 4
      (fun _ => 0) (by decide)⟩

/-! ## Class selection of the testbench -/

/-- C26: the class selection of the testbench is the first arg-max. For every
vector of 4 output scores the computed `max_idx` is below 4,
`output[max_idx] >= output[i]` for all `i < 4`, `output[j] < output[max_idx]`
for all `j < max_idx` (ties go to the smallest index), and
`max_val = output[max_idx]`. -/
theorem testbench_argmax_first (output : Nat → Int) :
    (testbench_argmax output).2 < 4 ∧
    (∀ i, i < 4 → output i ≤ output (testbench_argmax output).2) ∧
    (∀ j, j < (testbench_argmax output).2 → output j < output (testbench_argmax output).2) ∧
    (testbench_argmax output).1 = output (testbench_argmax output).2 := by
  have e : FC2_OUT - 1 = 3 := by decide
  unfold testbench_argmax
  rw [e]
  simp only [forLoop, Nat.zero_add, Nat.reduceAdd]
  split_ifs <;> dsimp only at * <;> refine ⟨by omega, ?_, ?_, rfl⟩ <;> intro i hi <;>
    interval_cases i <;> omega

/-! ## Layout of flatten -/

theorem row_major_div_mod (a b B : Nat) (hb : b < B) :
    (a * B + b) / B = a ∧ (a * B + b) % B = b := by
  have hB : 0 < B := by omega
  constructor
  · rw [Nat.mul_comm, Nat.mul_add_div hB, Nat.div_eq_of_lt hb, Nat.add_zero]
  · rw [Nat.mul_comm, Nat.mul_add_mod, Nat.mod_eq_of_lt hb]

/-- The counter of `flatten` after the loops is the number of stores. -/
theorem flatten_counter (CHANNELS H W : Nat) (input : Tensor) (output : Nat → Int) :
    (forLoop CHANNELS (fun c st =>
      forLoop H (fun h st =>
        forLoop W (fun w (st : Nat × (Nat → Int)) =>
          (st.1 + 1, write1 st.2 st.1 (input c h w))) st) st) (0, output)).1
      = CHANNELS * H * W := by
  have h3 := storesRun_forLoop
    (fun c st => forLoop H (fun h st => forLoop W (fun w (st : Nat × (Nat → Int)) =>
      (st.1 + 1, write1 st.2 st.1 (input c h w))) st) st)
    (H * (W * 1)) (fun c j => input c (j / (W * 1)) (j % (W * 1) / 1))
    (fun c => storesRun_forLoop
      (fun h st => forLoop W (fun w (st : Nat × (Nat → Int)) =>
        (st.1 + 1, write1 st.2 st.1 (input c h w))) st)
      (W * 1) (fun h j => input c h (j / 1))
      (fun h => storesRun_forLoop
        (fun w (st : Nat × (Nat → Int)) => (st.1 + 1, write1 st.2 st.1 (input c h w)))
        1 (fun w _ => input c h w)
        (fun w p out => by
          refine ⟨rfl, fun k => ?_⟩
          show write1 out p (input c h w) k = _
          unfold write1
          by_cases hk : k = p
          · rw [if_pos hk, if_pos (by omega)]
          · rw [if_neg hk, if_neg (by omega)])
        W)
      H)
    CHANNELS
  rw [(h3 0 output).1]
  ring

/-- C25: `flatten` lays the tensor out channel-outermost and row-major. For
every `c < CHANNELS`, `h < H`, `w < W`, `flatten<CHANNELS, H, W>` sets
`output[(c*H + h)*W + w] = input[c][h][w]`. Each of the `CHANNELS*H*W` slots is
written exactly once: the loops perform `CHANNELS*H*W` stores (the final
counter), the slot index is below `CHANNELS*H*W`, distinct `(c, h, w)` go to
distinct slots, every slot below `CHANNELS*H*W` is the slot of some
`(c, h, w)`, and the slots from `CHANNELS*H*W` on are left alone. -/
theorem flatten_row_major (CHANNELS H W : Nat) (input : Tensor) (output : Nat → Int)
    (c h w : Nat) (hc : c < CHANNELS) (hh : h < H) (hw : w < W) :
    flatten CHANNELS H W input output ((c * H + h) * W + w) = input c h w ∧
    (c * H + h) * W + w < CHANNELS * H * W ∧
    (∀ c2 h2 w2, c2 < CHANNELS → h2 < H → w2 < W →
      (c2 * H + h2) * W + w2 = (c * H + h) * W + w → c2 = c ∧ h2 = h ∧ w2 = w) ∧
    (∀ k, k < CHANNELS * H * W →
      ∃ c2 h2 w2, c2 < CHANNELS ∧ h2 < H ∧ w2 < W ∧ k = (c2 * H + h2) * W + w2) ∧
    (∀ k, CHANNELS * H * W ≤ k → flatten CHANNELS H W input output k = output k) ∧
    (forLoop CHANNELS (fun c st =>
      forLoop H (fun h st =>
        forLoop W (fun w (st : Nat × (Nat → Int)) =>
          (st.1 + 1, write1 st.2 st.1 (input c h w))) st) st) (0, output)).1
      = CHANNELS * H * W := by
  have hlt : (c * H + h) * W + w < CHANNELS * H * W :=
    row_major_lt (row_major_lt hc hh) hw
  have e1 : H * (W * 1) = H * W := by rw [Nat.mul_one]
  have e2 : W * 1 = W := Nat.mul_one W
  have en : CHANNELS * (H * (W * 1)) = CHANNELS * H * W := by ring
  refine ⟨?_, hlt, ?_, ?_, ?_, flatten_counter CHANNELS H W input output⟩
  · rw [flatten_cell, en, if_pos hlt, e1, e2, Nat.div_one]
    have hk : (c * H + h) * W + w = c * (H * W) + (h * W + w) := by ring
    have hr : h * W + w < H * W := row_major_lt hh hw
    obtain ⟨d1, m1⟩ := row_major_div_mod c (h * W + w) (H * W) hr
    obtain ⟨d2, m2⟩ := row_major_div_mod h w W hw
    rw [hk, d1, m1, d2, m2]
  · intro c2 h2 w2 hc2 hh2 hw2 heq
    obtain ⟨d1, m1⟩ := row_major_div_mod (c * H + h) w W hw
    obtain ⟨d2, m2⟩ := row_major_div_mod (c2 * H + h2) w2 W hw2
    have hw' : w2 = w := by rw [← m2, heq, m1]
    have hq : c2 * H + h2 = c * H + h := by rw [← d2, heq, d1]
    obtain ⟨d3, m3⟩ := row_major_div_mod c h H hh
    obtain ⟨d4, m4⟩ := row_major_div_mod c2 h2 H hh2
    have hh' : h2 = h := by rw [← m4, hq, m3]
    have hc' : c2 = c := by rw [← d4, hq, d3]
    exact ⟨hc', hh', hw'⟩
  · intro k hk
    have hW : 0 < W := by omega
    have hH : 0 < H := by omega
    refine ⟨k / W / H, k / W % H, k % W, ?_, Nat.mod_lt _ hH, Nat.mod_lt _ hW, ?_⟩
    · rw [Nat.div_div_eq_div_mul, Nat.div_lt_iff_lt_mul (Nat.mul_pos hW hH)]
      calc k < CHANNELS * H * W := hk
        _ = CHANNELS * (W * H) := by ring
    · have a1 := Nat.div_add_mod (k / W) H
      have a2 := Nat.div_add_mod k W
      calc k = W * (k / W) + k % W := a2.symm
        _ = W * (H * (k / W / H) + k / W % H) + k % W := by rw [a1]
        _ = (k / W / H * H + k / W % H) * W + k % W := by ring
  · intro k hk
    rw [flatten_cell, en, if_neg (by omega)]

theorem flatten_row_major_witness :
    (1 < 2 ∧ 2 < 3 ∧ 3 < 4) ∧
    flatten 2 3 4 (fun c h w => ((100 * c + 10 * h + w : Nat) : Int)) (fun _ => -1)
        ((1 * 3 + 2) * 4 + 3)
      = (fun c h w => ((100 * c + 10 * h + w : Nat) : Int)) 1 2 3 :=
  ⟨⟨by decide, by decide, by decide⟩,
    (flatten_row_major 2 3 4 (fun c h w => ((100 * c + 10 * h + w : Nat) : Int)) (fun _ => -1)
      1 2 3 (by decide) (by decide) (by decide)).1⟩

/-! ## Cells read by the direct convolution and by pooling -/

/-- Two loop bodies that agree on the indices below the bound give the same
loop. -/
theorem forLoop_congr {S : Type} (n : Nat) (b1 b2 : Nat → S → S)
    (h : ∀ i, i < n → ∀ s, b1 i s = b2 i s) (s : S) : forLoop n b1 s = forLoop n b2 s := by
  induction n with
  | zero => rfl
  | succ n ih =>
    rw [forLoop_succ, forLoop_succ, ih (fun i hi => h i (Nat.lt_succ_of_lt hi)),
      h n (Nat.lt_succ_self n)]

/-- The output extent of a convolution whose kernel fits the input. -/
theorem conv_extent (N K STRIDE : Nat) (hS : 1 ≤ STRIDE) (hN : K ≤ N) :
    (conv_out_size (N : Int) (K : Int) (STRIDE : Int) 0).toNat = (N - K) / STRIDE + 1 := by
  unfold conv_out_size
  have e : (N : Int) + 2 * 0 - (K : Int) = ((N - K : Nat) : Int) := by omega
  rw [e, Int.tdiv_eq_ediv (by omega) (by omega)]
  have e2 : ((N - K : Nat) : Int) / (STRIDE : Int) = (((N - K) / STRIDE : Nat) : Int) := by
    norm_cast
  rw [e2]
  generalize (N - K) / STRIDE = m
  omega

/-- Every row (or column) index the direct convolution forms lies inside the
image. -/
theorem conv_index_in_image (N K STRIDE o k : Nat) (hS : 1 ≤ STRIDE) (hN : K ≤ N)
    (ho : o < (conv_out_size (N : Int) (K : Int) (STRIDE : Int) 0).toNat) (hk : k < K) :
    o * STRIDE + k ≤ N - 1 := by
  rw [conv_extent N K STRIDE hS hN] at ho
  have h1 : o * STRIDE ≤ (N - K) / STRIDE * STRIDE := Nat.mul_le_mul_right STRIDE (by omega)
  have h2 : (N - K) / STRIDE * STRIDE ≤ N - K := Nat.div_mul_le_self (N - K) STRIDE
  omega

/-- C22: the direct convolution needs no bounds check. For every `K >= 1`,
`STRIDE >= 1` and every `H, W` with `K <= H` and `K <= W`, every index
`conv_layer_simple` reads satisfies `ih = oh*STRIDE + kh <= H - 1` and
`iw = ow*STRIDE + kw <= W - 1` for all `oh < out_h`, `ow < out_w`, `kh < K`,
`kw < K`; all reads stay inside the `H x W` image, so two inputs that agree on
the image give the same output. -/
theorem conv_layer_simple_in_bounds (IN_CH OUT_CH K STRIDE H W : Nat)
    (input1 input2 output : Tensor) (weights : ConvWeights)
    (hK : 1 ≤ K) (hS : 1 ≤ STRIDE) (hH : K ≤ H) (hW : K ≤ W)
    (hagree : ∀ ic ih iw, ic < IN_CH → ih < H → iw < W → input1 ic ih iw = input2 ic ih iw) :
    (∀ oh kh, oh < (conv_out_size (H : Int) (K : Int) (STRIDE : Int) 0).toNat → kh < K →
      oh * STRIDE + kh ≤ H - 1) ∧
    (∀ ow kw, ow < (conv_out_size (W : Int) (K : Int) (STRIDE : Int) 0).toNat → kw < K →
      ow * STRIDE + kw ≤ W - 1) ∧
    conv_layer_simple IN_CH OUT_CH K STRIDE input1 output weights H W
      = conv_layer_simple IN_CH OUT_CH K STRIDE input2 output weights H W := by
  refine ⟨fun oh kh ho hk => conv_index_in_image H K STRIDE oh kh hS hH ho hk,
    fun ow kw ho hk => conv_index_in_image W K STRIDE ow kw hS hW ho hk, ?_⟩
  funext x y z
  rw [conv_layer_simple_cell, conv_layer_simple_cell]
  by_cases h : x < OUT_CH ∧ y < (conv_out_size (H : Int) (K : Int) (STRIDE : Int) 0).toNat
      ∧ z < (conv_out_size (W : Int) (K : Int) (STRIDE : Int) 0).toNat
  · rw [if_pos h, if_pos h]
    congr 1
    unfold conv_simple_acc
    refine forLoop_congr _ _ _ (fun ic hic s => ?_) _
    refine forLoop_congr _ _ _ (fun kh hkh s => ?_) _
    refine forLoop_congr _ _ _ (fun kw hkw s => ?_) _
    have b1 := conv_index_in_image H K STRIDE y kh hS hH h.2.1 hkh
    have b2 := conv_index_in_image W K STRIDE z kw hS hW h.2.2 hkw
    dsimp only
    rw [hagree ic _ _ hic (by omega) (by omega)]
  · rw [if_neg h, if_neg h]

theorem conv_layer_simple_in_bounds_witness :
    (1 ≤ 3 ∧ 1 ≤ 2 ∧ 3 ≤ 6 ∧ 3 ≤ 5 ∧
      (∀ ic ih iw : Nat, ic < 1 → ih < 6 → iw < 5 →
        (fun _ r k => if r < 6 ∧ k < 5 then ((r + k : Nat) : Int) else 0) ic ih iw
          = (fun _ r k => if r < 6 ∧ k < 5 then ((r + k : Nat) : Int) else 99) ic ih iw)) ∧
    (∀ oh kh, oh < (conv_out_size ((6 : Nat) : Int) ((3 : Nat) : Int) ((2 : Nat) : Int) 0).toNat →
      kh < 3 → oh * 2 + kh ≤ 6 - 1) ∧
    conv_layer_simple 1 1 3 2 (fun _ r k => if r < 6 ∧ k < 5 then ((r + k : Nat) : Int) else 0)
        (fun _ _ _ => 0) (fun _ _ _ _ => 1) 6 5
      = conv_layer_simple 1 1 3 2
        (fun _ r k => if r < 6 ∧ k < 5 then ((r + k : Nat) : Int) else 99)
        (fun _ _ _ => 0) (fun _ _ _ _ => 1) 6 5 :=
  have ha : ∀ ic ih iw : Nat, ic < 1 → ih < 6 → iw < 5 →
      (fun _ r k => if r < 6 ∧ k < 5 then ((r + k : Nat) : Int) else 0) ic ih iw
        = (fun _ r k => if r < 6 ∧ k < 5 then ((r + k : Nat) : Int) else 99) ic ih iw := by
    intro ic ih iw _ h1 h2
    simp only [h1, h2, and_self, if_true]
  have t := conv_layer_simple_in_bounds 1 1 3 2 6 5
    (fun _ r k => if r < 6 ∧ k < 5 then ((r + k : Nat) : Int) else 0)
    (fun _ r k => if r < 6 ∧ k < 5 then ((r + k : Nat) : Int) else 99)
    (fun _ _ _ => 0) (fun _ _ _ _ => 1) (by decide) (by decide) (by decide) (by decide) ha
  ⟨⟨by decide, by decide, by decide, by decide, ha⟩, t.1, t.2.2⟩

/-- C23: pooling silently discards remainder rows and columns and stays in
bounds. For every `H`, `W` and `POOL_SIZE`, `avg_pool` and `max_pool` read only
input elements at rows `oh*POOL_SIZE + ph < (H / POOL_SIZE)*POOL_SIZE <= H` and
columns `ow*POOL_SIZE + pw < (W / POOL_SIZE)*POOL_SIZE <= W`, so two inputs
that agree on that region give identical pooled outputs whatever the
remainder rows and columns contain. -/
theorem pooling_discards_remainder (CHANNELS POOL_SIZE H W : Nat)
    (input1 input2 output : Tensor)
    (hagree : ∀ c ih iw, c < CHANNELS → ih < H / POOL_SIZE * POOL_SIZE →
      iw < W / POOL_SIZE * POOL_SIZE → input1 c ih iw = input2 c ih iw) :
    (H / POOL_SIZE * POOL_SIZE ≤ H ∧ W / POOL_SIZE * POOL_SIZE ≤ W) ∧
    (∀ oh ph, oh < H / POOL_SIZE → ph < POOL_SIZE →
      oh * POOL_SIZE + ph < H / POOL_SIZE * POOL_SIZE) ∧
    (∀ ow pw, ow < W / POOL_SIZE → pw < POOL_SIZE →
      ow * POOL_SIZE + pw < W / POOL_SIZE * POOL_SIZE) ∧
    avg_pool CHANNELS POOL_SIZE input1 output H W
      = avg_pool CHANNELS POOL_SIZE input2 output H W ∧
    max_pool CHANNELS POOL_SIZE input1 output H W
      = max_pool CHANNELS POOL_SIZE input2 output H W := by
  refine ⟨⟨Nat.div_mul_le_self H POOL_SIZE, Nat.div_mul_le_self W POOL_SIZE⟩,
    fun oh ph ho hp => row_major_lt ho hp, fun ow pw ho hp => row_major_lt ho hp, ?_, ?_⟩
  · funext x y z
    rw [avg_pool_cell, avg_pool_cell]
    by_cases h : x < CHANNELS ∧ y < H / POOL_SIZE ∧ z < W / POOL_SIZE
    · rw [if_pos h, if_pos h]
      congr 2
      unfold avg_pool_acc
      refine forLoop_congr _ _ _ (fun ph hph s => ?_) _
      refine forLoop_congr _ _ _ (fun pw hpw s => ?_) _
      dsimp only
      rw [hagree x _ _ h.1 (row_major_lt h.2.1 hph) (row_major_lt h.2.2 hpw)]
    · rw [if_neg h, if_neg h]
  · funext x y z
    rw [max_pool_cell, max_pool_cell]
    by_cases h : x < CHANNELS ∧ y < H / POOL_SIZE ∧ z < W / POOL_SIZE
    · rw [if_pos h, if_pos h]
      unfold max_pool_acc
      refine forLoop_congr _ _ _ (fun ph hph s => ?_) _
      refine forLoop_congr _ _ _ (fun pw hpw s => ?_) _
      dsimp only
      rw [hagree x _ _ h.1 (row_major_lt h.2.1 hph) (row_major_lt h.2.2 hpw)]
    · rw [if_neg h, if_neg h]

theorem pooling_discards_remainder_witness :
    (∀ c ih iw : Nat, c < 1 → ih < 5 / 2 * 2 → iw < 3 / 2 * 2 →
      (fun _ r k => if r < 4 ∧ k < 2 then ((r + k : Nat) : Int) else 0) c ih iw
        = (fun _ r k => if r < 4 ∧ k < 2 then ((r + k : Nat) : Int) else 99) c ih iw) ∧
    avg_pool 1 2 (fun _ r k => if r < 4 ∧ k < 2 then ((r + k : Nat) : Int) else 0)
        (fun _ _ _ => 0) 5 3
      = avg_pool 1 2 (fun _ r k => if r < 4 ∧ k < 2 then ((r + k : Nat) : Int) else 99)
        (fun _ _ _ => 0) 5 3 ∧
    max_pool 1 2 (fun _ r k => if r < 4 ∧ k < 2 then ((r + k : Nat) : Int) else 0)
        (fun _ _ _ => 0) 5 3
      = max_pool 1 2 (fun _ r k => if r < 4 ∧ k < 2 then ((r + k : Nat) : Int) else 99)
        (fun _ _ _ => 0) 5 3 :=
  have ha : ∀ c ih iw : Nat, c < 1 → ih < 5 / 2 * 2 → iw < 3 / 2 * 2 →
      (fun _ r k => if r < 4 ∧ k < 2 then ((r + k : Nat) : Int) else 0) c ih iw
        = (fun _ r k => if r < 4 ∧ k < 2 then ((r + k : Nat) : Int) else 99) c ih iw := by
    intro c ih iw _ h1 h2
    have h1' : ih < 4 := h1
    have h2' : iw < 2 := h2
    simp only [h1', h2', and_self, if_true]
  have t := pooling_discards_remainder 1 2 5 3
    (fun _ r k => if r < 4 ∧ k < 2 then ((r + k : Nat) : Int) else 0)
    (fun _ r k => if r < 4 ∧ k < 2 then ((r + k : Nat) : Int) else 99)
    (fun _ _ _ => 0) ha
  ⟨ha, t.2.2.2.1, t.2.2.2.2⟩

/-! ## The loader cursor under the loading calls -/

/-- C24: the loader cursor is never rewound by a load. For every loader state
whose cursor plus the requested count stays inside the `size_t` range,
`load_conv_weights`, `load_fc_weights`, `load_bias` and `get_conv_weights_ptr`
leave `get_offset()` at the old value plus the count, hence greater than or
equal to its value before the call, and none of them changes the blob
contents. -/
theorem loader_cursor_never_rewound (OUT_CH IN_CH K OUT_FEATURES IN_FEATURES SIZE : Nat)
    (l : EmbeddedWeightLoader) (w : ConvWeights) (fw : Nat → Nat → Int) (b : Nat → Int)
    (hconv : l.current_offset + OUT_CH * IN_CH * K * K < SIZE_MAX_PLUS_ONE)
    (hfc : l.current_offset + OUT_FEATURES * IN_FEATURES < SIZE_MAX_PLUS_ONE)
    (hbias : l.current_offset + SIZE < SIZE_MAX_PLUS_ONE) :
    (l.get_offset ≤ (l.load_conv_weights OUT_CH IN_CH K w).1.get_offset ∧
      (l.load_conv_weights OUT_CH IN_CH K w).1.get_offset
        = l.get_offset + OUT_CH * IN_CH * K * K ∧
      (l.load_conv_weights OUT_CH IN_CH K w).1.weights_ptr = l.weights_ptr) ∧
    (l.get_offset ≤ (l.load_fc_weights OUT_FEATURES IN_FEATURES fw).1.get_offset ∧
      (l.load_fc_weights OUT_FEATURES IN_FEATURES fw).1.get_offset
        = l.get_offset + OUT_FEATURES * IN_FEATURES ∧
      (l.load_fc_weights OUT_FEATURES IN_FEATURES fw).1.weights_ptr = l.weights_ptr) ∧
    (l.get_offset ≤ (l.load_bias SIZE b).1.get_offset ∧
      (l.load_bias SIZE b).1.get_offset = l.get_offset + SIZE ∧
      (l.load_bias SIZE b).1.weights_ptr = l.weights_ptr) ∧
    (l.get_offset ≤ (l.get_conv_weights_ptr OUT_CH IN_CH K).2.get_offset ∧
      (l.get_conv_weights_ptr OUT_CH IN_CH K).2.get_offset
        = l.get_offset + OUT_CH * IN_CH * K * K ∧
      (l.get_conv_weights_ptr OUT_CH IN_CH K).2.weights_ptr = l.weights_ptr ∧
      (l.get_conv_weights_ptr OUT_CH IN_CH K).1 = l.get_offset) := by
  have hl : l.current_offset < SIZE_MAX_PLUS_ONE := by omega
  obtain ⟨c1, c2, _⟩ := load_conv_weights_spec OUT_CH IN_CH K l w hl
  obtain ⟨f1, f2, _⟩ := load_fc_weights_spec OUT_FEATURES IN_FEATURES l fw hl
  obtain ⟨b1, b2⟩ := load_bias_spec SIZE l b hl
  rw [Nat.mod_eq_of_lt hconv] at c2
  rw [Nat.mod_eq_of_lt hfc] at f2
  rw [Nat.mod_eq_of_lt hbias] at b2
  have g2 : (l.get_conv_weights_ptr OUT_CH IN_CH K).2.current_offset
      = l.current_offset + OUT_CH * IN_CH * K * K := Nat.mod_eq_of_lt hconv
  simp only [EmbeddedWeightLoader.get_offset]
  refine ⟨⟨?_, c2, c1⟩, ⟨?_, f2, f1⟩, ⟨?_, b2, b1⟩, ⟨?_, g2, rfl, rfl⟩⟩
  · rw [c2]; exact Nat.le_add_right _ _
  · rw [f2]; exact Nat.le_add_right _ _
  · rw [b2]; exact Nat.le_add_right _ _
  · rw [g2]; exact Nat.le_add_right _ _

theorem loader_cursor_never_rewound_witness :
    (EmbeddedWeightLoader.mk (fun i => ((i % 7 : Nat) : Int)) 5).get_offset
      ≤ ((EmbeddedWeightLoader.mk (fun i => ((i % 7 : Nat) : Int)) 5).load_conv_weights 2 1 2
          (fun _ _ _ _ => 0)).1.get_offset ∧
    ((EmbeddedWeightLoader.mk (fun i => ((i % 7 : Nat) : Int)) 5).load_fc_weights 2 3
        (fun _ _ => 0)).1.get_offset = 11 ∧
    ((EmbeddedWeightLoader.mk (fun i => ((i % 7 : Nat) : Int)) 5).load_bias 4
        (fun _ => 0)).1.get_offset = 9 ∧
    ((EmbeddedWeightLoader.mk (fun i => ((i % 7 : Nat) : Int)) 5).get_conv_weights_ptr
        2 1 2).2.get_offset = 13 :=
  have t := loader_cursor_never_rewound 2 1 2 2 3 4
    (EmbeddedWeightLoader.mk (fun i => ((i % 7 : Nat) : Int)) 5)
    (fun _ _ _ _ => 0) (fun _ _ => 0) (fun _ => 0)
    (by show 5 + 2 * 1 * 2 * 2 < 18446744073709551616; decide)
    (by show 5 + 2 * 3 < 18446744073709551616; decide)
    (by show 5 + 4 < 18446744073709551616; decide)
  ⟨t.1.1, t.2.1.2.1, t.2.2.1.2.1, t.2.2.2.2.1⟩

/-! ## The sliding window at emission time -/

/-- C21 (the code departs from the claim): the sliding window of
`conv_layer_stream` at emission time, for every initial content of the
uninitialised line buffers and window.

* One channel, 3x3 image with arbitrary samples, stride 1: the only valid
  position is (2, 2), reached by the last step, so the final window is the
  window at emission time. Its rows hold the input rows (1, 2, 2), whereas the
  neighbourhood of the direct convolution is the rows (0, 1, 2); so window
  cell (0, 0) differs from the neighbourhood sample `input[0][0][0]` (row
  `2 - K + 1 + 0 = 0`, column `2 - K + 1 + 0 = 0`) as soon as `input[0][0][0]`
  and `input[0][1][0]` differ.
* Two channels, 3x4 image, channel 0 equal to `4*r + c + 1` and channel 1
  zero, one output channel whose weights select a single window cell of
  channel 0, so that the value written is that window cell. Selecting
  `window[0][0][0]`, the stream writes 6 at both emissions, whereas the direct
  convolution reads 1 and 2. Selecting `window[0][2][0]`, a cell of the newest
  row, the stream writes 10 at the emission for (2, 2), whereas the direct
  convolution reads 9: channel 0 was left with the window of its last valid
  position (2, 3) while channel 1 is streamed. -/
theorem conv_layer_stream_window_rows (linebuf0 window0 : Tensor) :
    (∀ (input : Tensor) (weights : ConvWeights) (i j : Nat), i < 3 → j < 3 →
      (conv_layer_stream 1 1 3 1 (stream_of 1 3 3 input) [] weights 3 3
          linebuf0 window0).window 0 i j = input 0 (if i = 0 then 1 else 2) j) ∧
    (∀ (input : Tensor) (weights : ConvWeights), input 0 0 0 ≠ input 0 1 0 →
      (conv_layer_stream 1 1 3 1 (stream_of 1 3 3 input) [] weights 3 3
          linebuf0 window0).window 0 0 0 ≠ input 0 0 0) ∧
    ((conv_layer_stream 2 1 3 1
        (stream_of 2 3 4 (fun c r k => if c = 0 then ((4 * r + k + 1 : Nat) : Int) else 0)) []
        (fun _ ic i j => if ic = 0 ∧ i = 0 ∧ j = 0 then 1 else 0) 3 4
        linebuf0 window0).out_stream = [6, 6] ∧
      conv_layer_simple 2 1 3 1
        (fun c r k => if c = 0 then ((4 * r + k + 1 : Nat) : Int) else 0) (fun _ _ _ => 0)
        (fun _ ic i j => if ic = 0 ∧ i = 0 ∧ j = 0 then 1 else 0) 3 4 0 0 0 = 1 ∧
      conv_layer_simple 2 1 3 1
        (fun c r k => if c = 0 then ((4 * r + k + 1 : Nat) : Int) else 0) (fun _ _ _ => 0)
        (fun _ ic i j => if ic = 0 ∧ i = 0 ∧ j = 0 then 1 else 0) 3 4 0 0 1 = 2) ∧
    ((conv_layer_stream 2 1 3 1
        (stream_of 2 3 4 (fun c r k => if c = 0 then ((4 * r + k + 1 : Nat) : Int) else 0)) []
        (fun _ ic i j => if ic = 0 ∧ i = 2 ∧ j = 0 then 1 else 0) 3 4
        linebuf0 window0).out_stream = [10, 10] ∧
      conv_layer_simple 2 1 3 1
        (fun c r k => if c = 0 then ((4 * r + k + 1 : Nat) : Int) else 0) (fun _ _ _ => 0)
        (fun _ ic i j => if ic = 0 ∧ i = 2 ∧ j = 0 then 1 else 0) 3 4 0 0 0 = 9 ∧
      conv_layer_simple 2 1 3 1
        (fun c r k => if c = 0 then ((4 * r + k + 1 : Nat) : Int) else 0) (fun _ _ _ => 0)
        (fun _ ic i j => if ic = 0 ∧ i = 2 ∧ j = 0 then 1 else 0) 3 4 0 0 1 = 10) := by
  have hw : ∀ (input : Tensor) (weights : ConvWeights) (i j : Nat), i < 3 → j < 3 →
      (conv_layer_stream 1 1 3 1 (stream_of 1 3 3 input) [] weights 3 3
          linebuf0 window0).window 0 i j = input 0 (if i = 0 then 1 else 2) j := by
    intro input weights i j hi hj
    interval_cases i <;> interval_cases j <;> rfl
  refine ⟨hw, fun input weights hne => ?_, ⟨rfl, rfl, rfl⟩, ⟨rfl, rfl, rfl⟩⟩
  rw [hw input weights 0 0 (by decide) (by decide)]
  exact fun h => hne h.symm

/-! ## Partial sums stay inside the accumulator -/

/-- The accumulator at `(ic, kh, kw)` is the wrapped sum of the products the
loops have added so far. -/
theorem conv_simple_acc_at_eq (K STRIDE : Nat) (input : Tensor) (weights : ConvWeights)
    (oc oh ow ic kh kw : Nat) :
    conv_simple_acc_at K STRIDE input weights oc oh ow ic kh kw
      = acc_t ((∑ a ∈ Finset.range ic, ∑ b ∈ Finset.range K, ∑ c ∈ Finset.range K,
            input a (oh * STRIDE + b) (ow * STRIDE + c) * weights oc a b c)
          + (∑ b ∈ Finset.range kh, ∑ c ∈ Finset.range K,
            input ic (oh * STRIDE + b) (ow * STRIDE + c) * weights oc ic b c)
          + ∑ c ∈ Finset.range kw,
            input ic (oh * STRIDE + kh) (ow * STRIDE + c) * weights oc ic kh c) := by
  have hrange : isAcc (conv_simple_acc_at K STRIDE input weights oc oh ow ic kh kw) := by
    unfold conv_simple_acc_at
    refine forLoop_isAcc _ (fun c s _ => isAcc_acc_t _) _ _ ?_
    refine forLoop_isAcc _ (fun b s hs => forLoop_isAcc _ (fun c s _ => isAcc_acc_t _) _ _ hs)
      _ _ ?_
    refine forLoop_isAcc _ (fun a s hs => ?_) _ _ (by unfold isAcc; omega)
    exact forLoop_isAcc _ (fun b s hs => forLoop_isAcc _ (fun c s _ => isAcc_acc_t _) _ _ hs)
      _ _ hs
  have h1 : ∀ (a b : Nat) (s : Int),
      acc_t (forLoop K (fun c sum =>
          acc_t (sum + input a (oh * STRIDE + b) (ow * STRIDE + c) * weights oc a b c)) s)
        = acc_t (s + ∑ c ∈ Finset.range K,
            input a (oh * STRIDE + b) (ow * STRIDE + c) * weights oc a b c) :=
    fun a b s => forLoop_acc _ _ (fun c s => acc_t_acc_t _) _ _
  have h2 : ∀ (a : Nat) (s : Int),
      acc_t (forLoop K (fun b sum => forLoop K (fun c sum =>
          acc_t (sum + input a (oh * STRIDE + b) (ow * STRIDE + c) * weights oc a b c)) sum) s)
        = acc_t (s + ∑ b ∈ Finset.range K, ∑ c ∈ Finset.range K,
            input a (oh * STRIDE + b) (ow * STRIDE + c) * weights oc a b c) :=
    fun a s => forLoop_acc _ _ (fun b s => h1 a b s) _ _
  have hsum : acc_t (conv_simple_acc_at K STRIDE input weights oc oh ow ic kh kw)
      = acc_t ((∑ a ∈ Finset.range ic, ∑ b ∈ Finset.range K, ∑ c ∈ Finset.range K,
            input a (oh * STRIDE + b) (ow * STRIDE + c) * weights oc a b c)
          + (∑ b ∈ Finset.range kh, ∑ c ∈ Finset.range K,
            input ic (oh * STRIDE + b) (ow * STRIDE + c) * weights oc ic b c)
          + ∑ c ∈ Finset.range kw,
            input ic (oh * STRIDE + kh) (ow * STRIDE + c) * weights oc ic kh c) := by
    unfold conv_simple_acc_at
    rw [forLoop_acc (fun c => input ic (oh * STRIDE + kh) (ow * STRIDE + c) * weights oc ic kh c)
      _ (fun c s => acc_t_acc_t _), ← acc_t_add_acc_t,
      forLoop_acc (fun b => ∑ c ∈ Finset.range K,
        input ic (oh * STRIDE + b) (ow * STRIDE + c) * weights oc ic b c) _ (fun b s => h1 ic b s),
      acc_t_add_acc_t, add_assoc, ← acc_t_add_acc_t,
      forLoop_acc (fun a => ∑ b ∈ Finset.range K, ∑ c ∈ Finset.range K,
        input a (oh * STRIDE + b) (ow * STRIDE + c) * weights oc a b c) _ (fun a s => h2 a s),
      acc_t_add_acc_t, zero_add, add_assoc]
  rw [← acc_t_of_isAcc hrange, hsum]

/-- The number of products added before the loops reach `(ic, kh, kw)` is at
most the total `IN_CH*K*K`. -/
theorem products_before_le (IN_CH K ic kh kw : Nat) (hic : ic < IN_CH) (hkh : kh < K)
    (hkw : kw ≤ K) : ic * K * K + kh * K + kw ≤ IN_CH * K * K := by
  have h1 : kh * K + kw ≤ K * K := by
    have : (kh + 1) * K ≤ K * K := Nat.mul_le_mul_right K hkh
    have e : (kh + 1) * K = kh * K + K := by ring
    omega
  have h2 : (ic + 1) * (K * K) ≤ IN_CH * (K * K) := Nat.mul_le_mul_right (K * K) hic
  have e2 : (ic + 1) * (K * K) = ic * K * K + K * K := by ring
  have e3 : IN_CH * (K * K) = IN_CH * K * K := by ring
  omega

/-- An integer of absolute value at most 2^24 is kept by the 32-bit
accumulator. -/
theorem acc_t_of_abs_le {x : Int} (h : |x| ≤ 16777216) : acc_t x = x := by
  have h1 := abs_le.mp h
  exact acc_t_of_isAcc ⟨by omega, by omega⟩

/-- C27: the 32-bit accumulator never overflows in this network. For 8-bit
inputs and weights and at most 1024 products per output (the three
convolutions add 27, 144 and 288 products, FC1 and FC2 with zero bias 1024 and
256), every partial sum of `conv_layer_simple` and of `fc_layer` equals the
sum of the products added so far computed in unbounded integers, and has
absolute value at most `1024 * 128 * 128 = 2^24 < 2^31`; no step of the
accumulation wraps, and the final accumulators are the exact sums. -/
theorem accumulator_never_overflows (IN_CH K STRIDE IN_FEATURES : Nat)
    (input : Tensor) (weights : ConvWeights) (x : Nat → Int) (fw : Nat → Nat → Int)
    (hin : ∀ a b c, isData (input a b c)) (hw : ∀ o a b c, isData (weights o a b c))
    (hx : ∀ i, isData (x i)) (hfw : ∀ o i, isData (fw o i))
    (hconv : IN_CH * K * K ≤ 1024) (hfc : IN_FEATURES ≤ 1024) :
    (∀ oc oh ow ic kh kw, ic < IN_CH → kh < K → kw ≤ K →
      conv_simple_acc_at K STRIDE input weights oc oh ow ic kh kw
        = (∑ a ∈ Finset.range ic, ∑ b ∈ Finset.range K, ∑ c ∈ Finset.range K,
            input a (oh * STRIDE + b) (ow * STRIDE + c) * weights oc a b c)
          + (∑ b ∈ Finset.range kh, ∑ c ∈ Finset.range K,
            input ic (oh * STRIDE + b) (ow * STRIDE + c) * weights oc ic b c)
          + ∑ c ∈ Finset.range kw,
            input ic (oh * STRIDE + kh) (ow * STRIDE + c) * weights oc ic kh c ∧
      |conv_simple_acc_at K STRIDE input weights oc oh ow ic kh kw| ≤ 16777216) ∧
    (∀ oc oh ow ic kh kw, ic < IN_CH → kh < K → kw < K →
      conv_simple_acc_at K STRIDE input weights oc oh ow ic kh (kw + 1)
        = conv_simple_acc_at K STRIDE input weights oc oh ow ic kh kw
          + input ic (oh * STRIDE + kh) (ow * STRIDE + kw) * weights oc ic kh kw) ∧
    (∀ oc oh ow ic kh,
      conv_simple_acc_at K STRIDE input weights oc oh ow 0 0 0 = 0 ∧
      conv_simple_acc_at K STRIDE input weights oc oh ow ic (kh + 1) 0
        = conv_simple_acc_at K STRIDE input weights oc oh ow ic kh K ∧
      conv_simple_acc_at K STRIDE input weights oc oh ow (ic + 1) 0 0
        = conv_simple_acc_at K STRIDE input weights oc oh ow ic K 0 ∧
      conv_simple_acc_at K STRIDE input weights oc oh ow IN_CH 0 0
        = conv_simple_acc IN_CH K STRIDE input weights oc oh ow) ∧
    (∀ oc oh ow,
      conv_simple_acc IN_CH K STRIDE input weights oc oh ow
        = (∑ a ∈ Finset.range IN_CH, ∑ b ∈ Finset.range K, ∑ c ∈ Finset.range K,
            input a (oh * STRIDE + b) (ow * STRIDE + c) * weights oc a b c) ∧
      |conv_simple_acc IN_CH K STRIDE input weights oc oh ow| ≤ 16777216) ∧
    (∀ out n, n ≤ IN_FEATURES →
      fc_acc n x fw (fun _ => 0) out = ∑ i ∈ Finset.range n, x i * fw out i ∧
      |fc_acc n x fw (fun _ => 0) out| ≤ 16777216 ∧
      (n < IN_FEATURES → fc_acc (n + 1) x fw (fun _ => 0) out
        = fc_acc n x fw (fun _ => 0) out + x n * fw out n)) ∧
    (CONV1_IN_CH * CONV1_K * CONV1_K = 27 ∧ CONV2_IN_CH * CONV2_K * CONV2_K = 144 ∧
      CONV3_IN_CH * CONV3_K * CONV3_K = 288 ∧ FC1_IN = 1024 ∧ FC2_IN = 256 ∧
      (1024 * 128 * 128 : Int) = 16777216 ∧ (16777216 : Int) = 2 ^ 24 ∧
      (2 : Int) ^ 24 < 2 ^ 31) := by
  have hp : ∀ o a b c oh ow,
      |input a (oh * STRIDE + b) (ow * STRIDE + c) * weights o a b c| ≤ 16384 :=
    fun o a b c oh ow => abs_mul_data_le (hin _ _ _) (hw _ _ _ _)
  have hpart : ∀ oc oh ow ic kh kw, ic < IN_CH → kh < K → kw ≤ K →
      |(∑ a ∈ Finset.range ic, ∑ b ∈ Finset.range K, ∑ c ∈ Finset.range K,
            input a (oh * STRIDE + b) (ow * STRIDE + c) * weights oc a b c)
          + (∑ b ∈ Finset.range kh, ∑ c ∈ Finset.range K,
            input ic (oh * STRIDE + b) (ow * STRIDE + c) * weights oc ic b c)
          + ∑ c ∈ Finset.range kw,
            input ic (oh * STRIDE + kh) (ow * STRIDE + c) * weights oc ic kh c| ≤ 16777216 := by
    intro oc oh ow ic kh kw hic hkh hkw
    have h1 := conv_sum_abs_le ic K
      (fun a b c => input a (oh * STRIDE + b) (ow * STRIDE + c) * weights oc a b c)
      (fun a b c => hp oc a b c oh ow)
    have h2 := abs_sum_range_le
      (fun b => ∑ c ∈ Finset.range K,
        input ic (oh * STRIDE + b) (ow * STRIDE + c) * weights oc ic b c) ((K : Int) * 16384)
      (fun b => abs_sum_range_le _ _ (fun c => hp oc ic b c oh ow) K) kh
    have h3 := abs_sum_range_le
      (fun c => input ic (oh * STRIDE + kh) (ow * STRIDE + c) * weights oc ic kh c) 16384
      (fun c => hp oc ic kh c oh ow) kw
    have hc : ((ic * K * K + kh * K + kw : Nat) : Int) ≤ 1024 := by
      exact_mod_cast le_trans (products_before_le IN_CH K ic kh kw hic hkh hkw) hconv
    push_cast at hc h1
    refine le_trans (abs_add _ _) ?_
    refine le_trans (add_le_add_right (abs_add _ _) _) ?_
    linarith
  have hfull : ∀ oc oh ow,
      |∑ a ∈ Finset.range IN_CH, ∑ b ∈ Finset.range K, ∑ c ∈ Finset.range K,
            input a (oh * STRIDE + b) (ow * STRIDE + c) * weights oc a b c| ≤ 16777216 := by
    intro oc oh ow
    have h1 := conv_sum_abs_le IN_CH K
      (fun a b c => input a (oh * STRIDE + b) (ow * STRIDE + c) * weights oc a b c)
      (fun a b c => hp oc a b c oh ow)
    have hc : ((IN_CH * K * K : Nat) : Int) ≤ 1024 := by exact_mod_cast hconv
    linarith
  have hfcsum : ∀ out n, n ≤ IN_FEATURES →
      |∑ i ∈ Finset.range n, x i * fw out i| ≤ 16777216 := by
    intro out n hn
    have h1 := abs_sum_range_le (fun i => x i * fw out i) 16384
      (fun i => abs_mul_data_le (hx i) (hfw out i)) n
    have hc : (n : Int) ≤ 1024 := by exact_mod_cast le_trans hn hfc
    linarith
  have hfceq : ∀ out n, n ≤ IN_FEATURES →
      fc_acc n x fw (fun _ => 0) out = ∑ i ∈ Finset.range n, x i * fw out i := by
    intro out n hn
    have h := fc_acc_eq n x fw (fun _ => 0) out (show isAcc (0 : Int) by unfold isAcc; omega)
    rw [h]
    dsimp only
    rw [zero_add]
    exact acc_t_of_abs_le (hfcsum out n hn)
  have hpeq : ∀ oc oh ow ic kh kw, ic < IN_CH → kh < K → kw ≤ K →
      conv_simple_acc_at K STRIDE input weights oc oh ow ic kh kw
        = (∑ a ∈ Finset.range ic, ∑ b ∈ Finset.range K, ∑ c ∈ Finset.range K,
            input a (oh * STRIDE + b) (ow * STRIDE + c) * weights oc a b c)
          + (∑ b ∈ Finset.range kh, ∑ c ∈ Finset.range K,
            input ic (oh * STRIDE + b) (ow * STRIDE + c) * weights oc ic b c)
          + ∑ c ∈ Finset.range kw,
            input ic (oh * STRIDE + kh) (ow * STRIDE + c) * weights oc ic kh c := by
    intro oc oh ow ic kh kw hic hkh hkw
    rw [conv_simple_acc_at_eq]
    exact acc_t_of_abs_le (hpart oc oh ow ic kh kw hic hkh hkw)
  refine ⟨fun oc oh ow ic kh kw hic hkh hkw => ⟨hpeq oc oh ow ic kh kw hic hkh hkw, ?_⟩,
    fun oc oh ow ic kh kw hic hkh hkw => ?_,
    fun oc oh ow ic kh => ⟨rfl, rfl, rfl, rfl⟩,
    fun oc oh ow => ?_, fun out n hn => ⟨hfceq out n hn, ?_, fun hlt => ?_⟩,
    by decide, by decide, by decide, by decide, by decide, by norm_num, by norm_num,
    by norm_num⟩
  · rw [hpeq oc oh ow ic kh kw hic hkh hkw]
    exact hpart oc oh ow ic kh kw hic hkh hkw
  · rw [hpeq oc oh ow ic kh (kw + 1) hic hkh hkw, hpeq oc oh ow ic kh kw hic hkh (le_of_lt hkw),
      Finset.sum_range_succ, add_assoc]
    ring
  · rw [conv_simple_acc_eq, acc_t_of_abs_le (hfull oc oh ow)]
    exact ⟨rfl, hfull oc oh ow⟩
  · rw [hfceq out n hn]
    exact hfcsum out n hn
  · rw [hfceq out (n + 1) hlt, hfceq out n hn, Finset.sum_range_succ]

theorem accumulator_never_overflows_witness :
    (1 * 2 * 2 ≤ 1024 ∧ 2 ≤ 1024 ∧ isData 127 ∧ isData (-128) ∧ isData 5 ∧ isData (-3)) ∧
    |conv_simple_acc 1 2 1 (fun _ _ _ => 127) (fun _ _ _ _ => -128) 0 0 0| ≤ 16777216 ∧
    fc_acc 2 (fun _ => 5) (fun _ _ => -3) (fun _ => 0) 0
      = ∑ _i ∈ Finset.range 2, (5 : Int) * (-3) :=
  have t := accumulator_never_overflows 1 2 1 2
    (fun _ _ _ => 127) (fun _ _ _ _ => -128) (fun _ => 5) (fun _ _ => -3)
    (fun _ _ _ => (by decide : isData (127 : Int)))
    (fun _ _ _ _ => (by decide : isData (-128 : Int)))
    (fun _ => (by decide : isData (5 : Int)))
    (fun _ _ => (by decide : isData (-3 : Int)))
    (by decide) (by decide)
  ⟨⟨by decide, by decide, by decide, by decide, by decide, by decide⟩,
    (t.2.2.2.1 0 0 0).2, (t.2.2.2.2.1 0 2 (le_refl 2)).1⟩

/-! ## Value ranges between Conv1 and FC1 -/

theorem relu_range (x : Int) : 0 ≤ relu x ∧ relu x ≤ 127 := by
  rw [relu_eq_clamp]
  omega

/-- Every cell `conv_layer_simple` writes is a `relu` value. -/
theorem conv_layer_simple_range (IN_CH OUT_CH K STRIDE : Nat) (input output : Tensor)
    (weights : ConvWeights) (H W x y z : Nat)
    (h : x < OUT_CH ∧ y < (conv_out_size H K STRIDE 0).toNat
      ∧ z < (conv_out_size W K STRIDE 0).toNat) :
    0 ≤ conv_layer_simple IN_CH OUT_CH K STRIDE input output weights H W x y z ∧
    conv_layer_simple IN_CH OUT_CH K STRIDE input output weights H W x y z ≤ 127 := by
  rw [conv_layer_simple_cell, if_pos h]
  exact relu_range _

/-- Every cell `avg_pool` writes from samples in [0, 127] is in [0, 127]. -/
theorem avg_pool_range (CHANNELS POOL_SIZE : Nat) (input output : Tensor) (H W : Nat)
    (hP : 1 ≤ POOL_SIZE) (hP2 : POOL_SIZE ≤ 128)
    (hin : ∀ c r k, c < CHANNELS → r < H → k < W → 0 ≤ input c r k ∧ input c r k ≤ 127)
    (x y z : Nat) (h : x < CHANNELS ∧ y < H / POOL_SIZE ∧ z < W / POOL_SIZE) :
    0 ≤ avg_pool CHANNELS POOL_SIZE input output H W x y z ∧
    avg_pool CHANNELS POOL_SIZE input output H W x y z ≤ 127 := by
  rw [avg_pool_cell, if_pos h, avg_pool_acc_eq]
  have hs := window_sum_between POOL_SIZE
    (fun ph pw => input x (y * POOL_SIZE + ph) (z * POOL_SIZE + pw)) 0 127
    (fun ph pw hph hpw => hin x _ _ h.1
      (lt_of_lt_of_le (row_major_lt h.2.1 hph) (Nat.div_mul_le_self H POOL_SIZE))
      (lt_of_lt_of_le (row_major_lt h.2.2 hpw) (Nat.div_mul_le_self W POOL_SIZE)))
  have h1 : (1 : Int) ≤ (POOL_SIZE : Int) := by exact_mod_cast hP
  have h2 : (POOL_SIZE : Int) ≤ 128 := by exact_mod_cast hP2
  have hPP : (0 : Int) < (POOL_SIZE : Int) * (POOL_SIZE : Int) := by nlinarith
  have hPP2 : (POOL_SIZE : Int) * (POOL_SIZE : Int) ≤ 16384 := by nlinarith
  have hacc : isAcc (∑ ph ∈ Finset.range POOL_SIZE, ∑ pw ∈ Finset.range POOL_SIZE,
      input x (y * POOL_SIZE + ph) (z * POOL_SIZE + pw)) := by
    unfold isAcc
    constructor <;> linarith [hs.1, hs.2]
  rw [acc_t_of_isAcc hacc]
  have ht := tdiv_between _ ((POOL_SIZE : Int) * (POOL_SIZE : Int)) 0 127 hPP hs.1 hs.2
  rw [data_t_of_isData ⟨by linarith [ht.1], by linarith [ht.2]⟩]
  exact ht

/-- Every cell `max_pool` writes from samples in [0, 127] is in [0, 127]. -/
theorem max_pool_range (CHANNELS POOL_SIZE : Nat) (input output : Tensor) (H W : Nat)
    (hP : 1 ≤ POOL_SIZE)
    (hin : ∀ c r k, c < CHANNELS → r < H → k < W → 0 ≤ input c r k ∧ input c r k ≤ 127)
    (x y z : Nat) (h : x < CHANNELS ∧ y < H / POOL_SIZE ∧ z < W / POOL_SIZE) :
    0 ≤ max_pool CHANNELS POOL_SIZE input output H W x y z ∧
    max_pool CHANNELS POOL_SIZE input output H W x y z ≤ 127 := by
  rw [max_pool_cell, if_pos h]
  have hr : ∀ ph pw, ph < POOL_SIZE → pw < POOL_SIZE →
      0 ≤ input x (y * POOL_SIZE + ph) (z * POOL_SIZE + pw) ∧
      input x (y * POOL_SIZE + ph) (z * POOL_SIZE + pw) ≤ 127 :=
    fun ph pw hph hpw => hin x _ _ h.1
      (lt_of_lt_of_le (row_major_lt h.2.1 hph) (Nat.div_mul_le_self H POOL_SIZE))
      (lt_of_lt_of_le (row_major_lt h.2.2 hpw) (Nat.div_mul_le_self W POOL_SIZE))
  obtain ⟨_, g2, g3⟩ := max_pool_acc_maxOver POOL_SIZE input x y z (-128)
  have g0 := g2 _ ⟨0, hP, 0, hP, rfl⟩
  have hr0 := hr 0 0 hP hP
  have e : max_pool_acc POOL_SIZE input x y z
      = forLoop POOL_SIZE (fun ph max_val =>
        forLoop POOL_SIZE (fun pw max_val =>
          let ih := y * POOL_SIZE + ph
          let iw := z * POOL_SIZE + pw
          let val := input x ih iw
          if val > max_val then val else max_val) max_val) (-128) := rfl
  rw [e]
  dsimp only at g0 g3 ⊢
  refine ⟨le_trans hr0.1 g0, ?_⟩
  rcases g3 with g3 | ⟨ph, hph, pw, hpw, g3⟩
  · rw [g3] at g0
    omega
  · rw [g3]
    exact (hr ph pw hph hpw).2

/-- A dimension handed to a stride-1 convolution through `Int.toNat` gives
the extent the dimension chain computes. -/
theorem net_extent_stride1 (d : Int) :
    (conv_out_size ((d.toNat : Nat) : Int) ((3 : Nat) : Int) ((1 : Nat) : Int) 0).toNat
      = (conv_out_size d 3 1 0).toNat := by
  rcases le_total d 0 with h | h
  · obtain ⟨a, _, c, _, _, _⟩ := nonpositive_dim_runs_nothing d h
    rw [a]
    exact c
  · rw [Int.toNat_of_nonneg h]
    rfl

/-- A dimension handed to a stride-2 convolution through `Int.toNat` gives
the extent the dimension chain computes. -/
theorem net_extent_stride2 (d : Int) :
    (conv_out_size ((d.toNat : Nat) : Int) ((3 : Nat) : Int) ((2 : Nat) : Int) 0).toNat
      = (conv_out_size d 3 2 0).toNat := by
  rcases le_total d 0 with h | h
  · obtain ⟨_, b, _, e, _, _⟩ := nonpositive_dim_runs_nothing d h
    rw [b]
    exact e
  · rw [Int.toNat_of_nonneg h]
    rfl

/-- C28: every value written between Conv1 and FC1 is non-negative. In
`cnn_network`, for all arguments, all previous buffer contents and all `H`,
`W`, every element the call writes to `conv1_out`, `pool1_out`, `conv2_out`,
`pool2_out`, `conv3_out`, `pool3_out` and `fc1_out` lies in [0, 127]: the
convolutions and FC1 write `relu` values, and each pooling layer reads only
cells its convolution has written. The written cells are those inside the
loop extents of the layer, taken at the dimensions `cnn_network` passes. -/
theorem cnn_network_values_nonneg (bufs : NetBuffers) (input : Tensor) (output : Nat → Int)
    (conv1_weights conv2_weights conv3_weights : ConvWeights)
    (fc1_weights fc2_weights : Nat → Nat → Int) (fc1_bias fc2_bias : Nat → Int) (H W : Nat) :
    (∀ oc oh ow, oc < CONV1_OUT_CH →
      oh < (conv_out_size H CONV1_K ((1 : Nat) : Int) 0).toNat →
      ow < (conv_out_size W CONV1_K ((1 : Nat) : Int) 0).toNat →
      0 ≤ (cnn_network bufs input output conv1_weights conv2_weights conv3_weights fc1_weights
        fc2_weights fc1_bias fc2_bias H W).1.conv1_out oc oh ow ∧
      (cnn_network bufs input output conv1_weights conv2_weights conv3_weights fc1_weights
        fc2_weights fc1_bias fc2_bias H W).1.conv1_out oc oh ow ≤ 127) ∧
    (∀ c oh ow, c < CONV1_OUT_CH →
      oh < (cnn_network_dims H W).h1.toNat / POOL1_SIZE →
      ow < (cnn_network_dims H W).w1.toNat / POOL1_SIZE →
      0 ≤ (cnn_network bufs input output conv1_weights conv2_weights conv3_weights fc1_weights
        fc2_weights fc1_bias fc2_bias H W).1.pool1_out c oh ow ∧
      (cnn_network bufs input output conv1_weights conv2_weights conv3_weights fc1_weights
        fc2_weights fc1_bias fc2_bias H W).1.pool1_out c oh ow ≤ 127) ∧
    (∀ oc oh ow, oc < CONV2_OUT_CH →
      oh < (conv_out_size (cnn_network_dims H W).h2.toNat CONV2_K ((1 : Nat) : Int) 0).toNat →
      ow < (conv_out_size (cnn_network_dims H W).w2.toNat CONV2_K ((1 : Nat) : Int) 0).toNat →
      0 ≤ (cnn_network bufs input output conv1_weights conv2_weights conv3_weights fc1_weights
        fc2_weights fc1_bias fc2_bias H W).1.conv2_out oc oh ow ∧
      (cnn_network bufs input output conv1_weights conv2_weights conv3_weights fc1_weights
        fc2_weights fc1_bias fc2_bias H W).1.conv2_out oc oh ow ≤ 127) ∧
    (∀ c oh ow, c < CONV2_OUT_CH →
      oh < (cnn_network_dims H W).h3.toNat / POOL2_SIZE →
      ow < (cnn_network_dims H W).w3.toNat / POOL2_SIZE →
      0 ≤ (cnn_network bufs input output conv1_weights conv2_weights conv3_weights fc1_weights
        fc2_weights fc1_bias fc2_bias H W).1.pool2_out c oh ow ∧
      (cnn_network bufs input output conv1_weights conv2_weights conv3_weights fc1_weights
        fc2_weights fc1_bias fc2_bias H W).1.pool2_out c oh ow ≤ 127) ∧
    (∀ oc oh ow, oc < CONV3_OUT_CH →
      oh < (conv_out_size (cnn_network_dims H W).h4.toNat CONV3_K CONV3_STRIDE 0).toNat →
      ow < (conv_out_size (cnn_network_dims H W).w4.toNat CONV3_K CONV3_STRIDE 0).toNat →
      0 ≤ (cnn_network bufs input output conv1_weights conv2_weights conv3_weights fc1_weights
        fc2_weights fc1_bias fc2_bias H W).1.conv3_out oc oh ow ∧
      (cnn_network bufs input output conv1_weights conv2_weights conv3_weights fc1_weights
        fc2_weights fc1_bias fc2_bias H W).1.conv3_out oc oh ow ≤ 127) ∧
    (∀ c oh ow, c < CONV3_OUT_CH →
      oh < (cnn_network_dims H W).h5.toNat / POOL3_SIZE →
      ow < (cnn_network_dims H W).w5.toNat / POOL3_SIZE →
      0 ≤ (cnn_network bufs input output conv1_weights conv2_weights conv3_weights fc1_weights
        fc2_weights fc1_bias fc2_bias H W).1.pool3_out c oh ow ∧
      (cnn_network bufs input output conv1_weights conv2_weights conv3_weights fc1_weights
        fc2_weights fc1_bias fc2_bias H W).1.pool3_out c oh ow ≤ 127) ∧
    (∀ o, o < FC1_OUT →
      0 ≤ (cnn_network bufs input output conv1_weights conv2_weights conv3_weights fc1_weights
        fc2_weights fc1_bias fc2_bias H W).1.fc1_out o ∧
      (cnn_network bufs input output conv1_weights conv2_weights conv3_weights fc1_weights
        fc2_weights fc1_bias fc2_bias H W).1.fc1_out o ≤ 127) := by
  have c1 : ∀ c r k, c < CONV1_OUT_CH → r < (cnn_network_dims H W).h1.toNat →
      k < (cnn_network_dims H W).w1.toNat →
      0 ≤ conv_layer_simple CONV1_IN_CH CONV1_OUT_CH CONV1_K 1 input bufs.conv1_out
        conv1_weights H W c r k ∧
      conv_layer_simple CONV1_IN_CH CONV1_OUT_CH CONV1_K 1 input bufs.conv1_out
        conv1_weights H W c r k ≤ 127 :=
    fun c r k hc hr hk => conv_layer_simple_range _ _ _ _ _ _ _ _ _ c r k ⟨hc, hr, hk⟩
  have c2 : ∀ (inp : Tensor) c r k, c < CONV2_OUT_CH → r < (cnn_network_dims H W).h3.toNat →
      k < (cnn_network_dims H W).w3.toNat →
      0 ≤ conv_layer_simple CONV2_IN_CH CONV2_OUT_CH CONV2_K 1 inp bufs.conv2_out
        conv2_weights (cnn_network_dims H W).h2.toNat (cnn_network_dims H W).w2.toNat c r k ∧
      conv_layer_simple CONV2_IN_CH CONV2_OUT_CH CONV2_K 1 inp bufs.conv2_out
        conv2_weights (cnn_network_dims H W).h2.toNat (cnn_network_dims H W).w2.toNat c r k
        ≤ 127 := by
    intro inp c r k hc hr hk
    refine conv_layer_simple_range _ _ _ _ _ _ _ _ _ c r k ⟨hc, ?_, ?_⟩
    · exact lt_of_lt_of_eq hr (net_extent_stride1 (cnn_network_dims H W).h2).symm
    · exact lt_of_lt_of_eq hk (net_extent_stride1 (cnn_network_dims H W).w2).symm
  have c3 : ∀ (inp : Tensor) c r k, c < CONV3_OUT_CH → r < (cnn_network_dims H W).h5.toNat →
      k < (cnn_network_dims H W).w5.toNat →
      0 ≤ conv_layer_simple CONV3_IN_CH CONV3_OUT_CH CONV3_K CONV3_STRIDE inp bufs.conv3_out
        conv3_weights (cnn_network_dims H W).h4.toNat (cnn_network_dims H W).w4.toNat c r k ∧
      conv_layer_simple CONV3_IN_CH CONV3_OUT_CH CONV3_K CONV3_STRIDE inp bufs.conv3_out
        conv3_weights (cnn_network_dims H W).h4.toNat (cnn_network_dims H W).w4.toNat c r k
        ≤ 127 := by
    intro inp c r k hc hr hk
    refine conv_layer_simple_range _ _ _ _ _ _ _ _ _ c r k ⟨hc, ?_, ?_⟩
    · exact lt_of_lt_of_eq hr (net_extent_stride2 (cnn_network_dims H W).h4).symm
    · exact lt_of_lt_of_eq hk (net_extent_stride2 (cnn_network_dims H W).w4).symm
  simp only [cnn_network]
  refine ⟨fun oc oh ow hc hh hw => conv_layer_simple_range _ _ _ _ _ _ _ _ _ oc oh ow ⟨hc, hh, hw⟩,
    fun c oh ow hc hh hw => avg_pool_range CONV1_OUT_CH POOL1_SIZE _ _ _ _ (by decide) (by decide)
      c1 c oh ow ⟨hc, hh, hw⟩,
    fun oc oh ow hc hh hw => conv_layer_simple_range _ _ _ _ _ _ _ _ _ oc oh ow ⟨hc, hh, hw⟩,
    fun c oh ow hc hh hw => avg_pool_range CONV2_OUT_CH POOL2_SIZE _ _ _ _ (by decide) (by decide)
      (c2 _) c oh ow ⟨hc, hh, hw⟩,
    fun oc oh ow hc hh hw => conv_layer_simple_range _ _ _ _ _ _ _ _ _ oc oh ow ⟨hc, hh, hw⟩,
    fun c oh ow hc hh hw => max_pool_range CONV3_OUT_CH POOL3_SIZE _ _ _ _ (by decide)
      (c3 _) c oh ow ⟨hc, hh, hw⟩,
    fun o ho => ?_⟩
  rw [fc_layer_cell, if_pos ho, fc_activation_eq true, if_pos rfl]
  exact relu_range _

end CnnFpga
